import Mathlib

/-!
# GAMES101 rendering exercises

A shallow embedding of the triangle record (`cpp/1`, `cpp/2`, `cpp/3` `Triangle.hpp`), of the
software rasterizer (`cpp/2/rasterizer.hpp`), of the Bézier exercise (`cpp/4/main.cpp`), of the
Whitted ray tracer (`cpp/6/Scene.hpp`) and of the path tracer (`cpp/7/Scene.hpp`,
`cpp/7/Renderer.hpp`), followed by theorems about them.

The arithmetic of the source is read in two ways, and the triangle record, the rasterizer and
`fresnel` are embedded once for each.
* The exact model (namespace `GAMES101`) reads `float` as exact arithmetic.  It carries the
  statements on the structure of the computation (which entries of which buffer are read and
  written, which error ends the program, how deep a recursion goes, which light is selected)
  and the statements that are about exact arithmetic (the barycentric law, the Bézier curve).
* The `binary32` model (namespace `GAMES101.Binary32`) reads a `float` as a datum of IEEE 754
  `binary32`: a NaN, an infinity, a signed zero or a finite number, every operation rounded to
  nearest, ties to even, in the format of its C++ type (`binary64` for `double`).  It carries
  the statements on the values computed: coverage of a sample point, pixel indices, depths,
  colours, the viewport transformation, the reflectance.

Conventions of the embedding
* In the exact model every `float` value is a rational number (`ℚ`).  The only non-finite value
  the rasterizer stores is the `+∞` used to clear the depth buffer, so depth entries live in
  `WithTop ℚ` and `⊤` is `+∞`.
* `int` is `ℤ` (no claim below depends on wrap-around).
* A C array `T a[3]` is a function `Fin 3 → T`; a `std::vector<T>` is a `List T`.
* Reading or writing a `std::vector` outside `[0, size)` is undefined behaviour in the source; the
  embedding makes it explicit by returning `none`.
* Division in the exact model is the division of `ℚ`, for which `x / 0 = 0` (in the
  `binary32` model a zero divisor gives an infinity or a NaN, as in the source).  The rasterizer divides by the doubled
  signed area of the triangle, by `w = 1`, by the sum of the three weights and by the
  super-sampling factor; it does so only after `insideTriangle` has returned `true`, where the
  area is not zero and the weights add up to one (`signedArea2_ne_zero_of_inside`, `bary_sum`),
  or with a positive factor.  Only `homogeneous_division` can meet a zero divisor.
* A member function that changes the object takes the object and returns the new one.
-/

namespace GAMES101

/-! ## Eigen vectors -/

/-- The type `Eigen::Vector2f`. -/
structure Vector2f where
  x : ℚ
  y : ℚ
deriving DecidableEq, Repr

/-- The type `Eigen::Vector3f`. -/
structure Vector3f where
  x : ℚ
  y : ℚ
  z : ℚ
deriving DecidableEq, Repr

/-- The type `Eigen::Vector3i`. -/
structure Vector3i where
  x : ℤ
  y : ℤ
  z : ℤ
deriving DecidableEq, Repr

/-- The type `Eigen::Vector4f`. -/
structure Vector4f where
  x : ℚ
  y : ℚ
  z : ℚ
  w : ℚ
deriving DecidableEq, Repr

namespace Vector3f

/-- Eigen `a.cross(b)`. -/
def cross (a b : Vector3f) : Vector3f :=
  ⟨a.y * b.z - a.z * b.y, a.z * b.x - a.x * b.z, a.x * b.y - a.y * b.x⟩

/-- Eigen `a.dot(b)`. -/
def dot (a b : Vector3f) : ℚ := a.x * b.x + a.y * b.y + a.z * b.z

/-- Eigen `a + b`. -/
def add (a b : Vector3f) : Vector3f := ⟨a.x + b.x, a.y + b.y, a.z + b.z⟩

/-- Eigen `a * s` for a scalar `s`. -/
def mulScalar (a : Vector3f) (s : ℚ) : Vector3f := ⟨a.x * s, a.y * s, a.z * s⟩

/-- Eigen `a / s` for a scalar `s`. -/
def divScalar (a : Vector3f) (s : ℚ) : Vector3f := ⟨a.x / s, a.y / s, a.z / s⟩

instance : Zero Vector3f := ⟨⟨0, 0, 0⟩⟩
instance : Add Vector3f := ⟨add⟩

/-- Colours add componentwise, with `(0, 0, 0)` as zero. -/
instance : AddCommMonoid Vector3f where
  add_assoc a b c := by
    show add (add a b) c = add a (add b c)
    simp only [add, add_assoc]
  zero_add a := by
    show add ⟨0, 0, 0⟩ a = a
    simp only [add, zero_add]
  add_zero a := by
    show add a ⟨0, 0, 0⟩ = a
    simp only [add, add_zero]
  add_comm a b := by
    show add a b = add b a
    simp only [add, add_comm]
  nsmul := nsmulRec

end Vector3f

/-! ## Coverage test and barycentric weights (`cpp/2/rasterizer.hpp`) -/

/-- The function `insideTriangle(x, y, _v)` of `rasterizer.hpp`, lines 141 to 155, over exact
arithmetic; `Binary32.insideTriangle` is the same text with every product and sum rounded. -/
def insideTriangle (x y : ℚ) (_v : Fin 3 → Vector3f) : Bool :=
  let v : Fin 3 → Vector3f := fun i => ⟨(_v i).x, (_v i).y, 1⟩
  let f0 := (v 1).cross (v 0)
  let f1 := (v 2).cross (v 1)
  let f2 := (v 0).cross (v 2)
  let p : Vector3f := ⟨x, y, 1⟩
  if (p.dot f0 * f0.dot (v 2) > 0) ∧ (p.dot f1 * f1.dot (v 0) > 0) ∧
      (p.dot f2 * f2.dot (v 1) > 0) then
    true
  else
    false

/-- The function `computeBarycentric2D(x, y, v)` of `rasterizer.hpp`, lines 157 to 163, over
exact arithmetic, where a zero divisor gives the weight `0`; in the source it gives an infinity
or a NaN, as in `Binary32.computeBarycentric2D`. -/
def computeBarycentric2D (x y : ℚ) (v : Fin 3 → Vector3f) : ℚ × ℚ × ℚ :=
  let c1 := (x * ((v 1).y - (v 2).y) + ((v 2).x - (v 1).x) * y + (v 1).x * (v 2).y
      - (v 2).x * (v 1).y) /
    ((v 0).x * ((v 1).y - (v 2).y) + ((v 2).x - (v 1).x) * (v 0).y + (v 1).x * (v 2).y
      - (v 2).x * (v 1).y)
  let c2 := (x * ((v 2).y - (v 0).y) + ((v 0).x - (v 2).x) * y + (v 2).x * (v 0).y
      - (v 0).x * (v 2).y) /
    ((v 1).x * ((v 2).y - (v 0).y) + ((v 0).x - (v 2).x) * (v 1).y + (v 2).x * (v 0).y
      - (v 0).x * (v 2).y)
  let c3 := (x * ((v 0).y - (v 1).y) + ((v 1).x - (v 0).x) * y + (v 0).x * (v 1).y
      - (v 1).x * (v 0).y) /
    ((v 2).x * ((v 0).y - (v 1).y) + ((v 1).x - (v 0).x) * (v 2).y + (v 0).x * (v 1).y
      - (v 1).x * (v 0).y)
  (c1, c2, c3)

/-- How a call that does not return normally ends: assignment 1 throws
`std::runtime_error(what)`; assignments 2 and 3 print `message` to `stderr` and call
`exit(status)`. -/
inductive Abort where
  | runtime_error (what : String)
  | exit (message : String) (status : ℤ)
deriving DecidableEq, Repr

/-- The class `Triangle`.  The vertex type `V` is `Vector3f` in assignments 1 and 2 and
`Vector4f` in assignment 3; the other members are the same in the three files.  (The pointer
`tex` of assignment 3 is not read or written by any member function below and is left out.) -/
structure Triangle (V : Type) where
  v : Fin 3 → V
  color : Fin 3 → Vector3f
  tex_coords : Fin 3 → Vector2f
  normal : Fin 3 → Vector3f

namespace Triangle

variable {V : Type}

/-- The member `Triangle::setVertex(ind, ver)`. -/
def setVertex (t : Triangle V) (ind : Fin 3) (ver : V) : Triangle V :=
  { t with v := Function.update t.v ind ver }

/-- The member `Triangle::setColor(ind, r, g, b)`, the same text in the three files up to what
the guard does when it fires, which is the argument `fail`.  The result is the outcome of the
call together with the triangle as the call leaves it.  The arguments are numbers and the
quotients are exact; a NaN argument and the rounding are in `Binary32.Triangle.setColor`. -/
def setColor (fail : Abort) (t : Triangle V) (ind : Fin 3) (r g b : ℚ) :
    Except Abort Unit × Triangle V :=
  if (r < 0) ∨ (r > 255) ∨ (g < 0) ∨ (g > 255) ∨ (b < 0) ∨ (b > 255) then
    (Except.error fail, t)
  else
    (Except.ok (), { t with color := Function.update t.color ind ⟨r / 255, g / 255, b / 255⟩ })

/-- The member `Triangle::toVector4()` of assignments 1 and 2. -/
def toVector4 (t : Triangle Vector3f) : Fin 3 → Vector4f :=
  fun i => ⟨(t.v i).x, (t.v i).y, (t.v i).z, 1⟩

end Triangle

namespace Assignment1

/-- What the guard of `setColor` does in `cpp/1/Triangle.hpp`. -/
def invalidColor : Abort := Abort.runtime_error "Invalid color values"

/-- The constructor `Triangle::Triangle()` of `cpp/1/Triangle.hpp`; it leaves `normal`
uninitialised, so the values found there are an argument. -/
def Triangle.new (normal : Fin 3 → Vector3f) : Triangle Vector3f :=
  { v := fun _ => ⟨0, 0, 0⟩, color := fun _ => ⟨0, 0, 0⟩, tex_coords := fun _ => ⟨0, 0⟩,
    normal := normal }

/-- The member `Triangle::setColor` of `cpp/1/Triangle.hpp`, lines 55 to 65. -/
def setColor (t : Triangle Vector3f) (ind : Fin 3) (r g b : ℚ) :
    Except Abort Unit × Triangle Vector3f :=
  Triangle.setColor invalidColor t ind r g b

end Assignment1

namespace Assignment2

/-- What the guard of `setColor` does in `cpp/2/Triangle.hpp`. -/
def invalidColor : Abort := Abort.exit "ERROR! Invalid color values" (-1)

/-- The constructor `Triangle::Triangle()` of `cpp/2/Triangle.hpp`; it leaves `normal`
uninitialised, so the values found there are an argument. -/
def Triangle.new (normal : Fin 3 → Vector3f) : Triangle Vector3f :=
  { v := fun _ => ⟨0, 0, 0⟩, color := fun _ => ⟨0, 0, 0⟩, tex_coords := fun _ => ⟨0, 0⟩,
    normal := normal }

/-- The member `Triangle::setColor` of `cpp/2/Triangle.hpp`, lines 58 to 71. -/
def setColor (t : Triangle Vector3f) (ind : Fin 3) (r g b : ℚ) :
    Except Abort Unit × Triangle Vector3f :=
  Triangle.setColor invalidColor t ind r g b

/-- The member `Triangle::getColor()` of `cpp/2/Triangle.hpp`, line 28: `color[0] * 255`. -/
def getColor (t : Triangle Vector3f) : Vector3f := (t.color 0).mulScalar 255

end Assignment2

namespace Assignment3

/-- What the guard of `setColor` does in `cpp/3/Triangle.hpp`. -/
def invalidColor : Abort := Abort.exit "ERROR! Invalid color values" (-1)

/-- The constructor `Triangle::Triangle()` of `cpp/3/Triangle.hpp`; it leaves `normal`
uninitialised, so the values found there are an argument. -/
def Triangle.new (normal : Fin 3 → Vector3f) : Triangle Vector4f :=
  { v := fun _ => ⟨0, 0, 0, 1⟩, color := fun _ => ⟨0, 0, 0⟩, tex_coords := fun _ => ⟨0, 0⟩,
    normal := normal }

/-- The member `Triangle::setColor` of `cpp/3/Triangle.hpp`, lines 62 to 75. -/
def setColor (t : Triangle Vector4f) (ind : Fin 3) (r g b : ℚ) :
    Except Abort Unit × Triangle Vector4f :=
  Triangle.setColor invalidColor t ind r g b

end Assignment3

/-! ## The rasterizer (`cpp/2/rasterizer.hpp`) -/

/-- The type `Eigen::Matrix4f`, entry `(i, j)` in row `i` and column `j`. -/
abbrev Matrix4f : Type := Fin 4 → Fin 4 → ℚ

/-- Eigen product of two 4×4 matrices. -/
def Matrix4f.mul (a b : Matrix4f) : Matrix4f :=
  fun i j => a i 0 * b 0 j + a i 1 * b 1 j + a i 2 * b 2 j + a i 3 * b 3 j

/-- Eigen product of a 4×4 matrix with a 4-vector. -/
def Matrix4f.mulVec (a : Matrix4f) (u : Vector4f) : Vector4f :=
  ⟨a 0 0 * u.x + a 0 1 * u.y + a 0 2 * u.z + a 0 3 * u.w,
   a 1 0 * u.x + a 1 1 * u.y + a 1 2 * u.z + a 1 3 * u.w,
   a 2 0 * u.x + a 2 1 * u.y + a 2 2 * u.z + a 2 3 * u.w,
   a 3 0 * u.x + a 3 1 * u.y + a 3 2 * u.z + a 3 3 * u.w⟩

/-- The scoped enumeration `rst::Buffers` with its underlying `int`. -/
structure Buffers where
  val : ℤ
deriving DecidableEq, Repr

namespace Buffers

/-- The enumerator `Buffers::Color = 1`. -/
def Color : Buffers := ⟨1⟩

/-- The enumerator `Buffers::Depth = 2`. -/
def Depth : Buffers := ⟨2⟩

/-- The operator `rst::operator|`, lines 24 to 27. -/
def or (a b : Buffers) : Buffers := ⟨Int.lor a.val b.val⟩

/-- The operator `rst::operator&`, lines 29 to 32. -/
def and (a b : Buffers) : Buffers := ⟨Int.land a.val b.val⟩

end Buffers

/-- The enumeration `rst::Primitive`. -/
inductive Primitive where
  | Line
  | Triangle
deriving DecidableEq, Repr

/-- The expression `buf[i]` read on a `std::vector`: defined for `0 ≤ i < size` only. -/
def vecGet {α : Type} (buf : List α) (i : ℤ) : Option α :=
  if 0 ≤ i then buf.get? i.toNat else none

/-- The assignment `buf[i] = a` on a `std::vector`: defined for `0 ≤ i < size` only. -/
def vecSet {α : Type} (buf : List α) (i : ℤ) (a : α) : Option (List α) :=
  if 0 ≤ i ∧ i < buf.length then some (buf.set i.toNat a) else none

/-- The call `std::fill(buf.begin(), buf.end(), a)`. -/
def vecFill {α : Type} (buf : List α) (a : α) : List α := buf.map fun _ => a

/-- Conversion of a `float` to an integer index: the fractional part is discarded. -/
def truncate (q : ℚ) : ℤ := if 0 ≤ q then ⌊q⌋ else ⌈q⌉

/-- The function `std::round`: nearest integer, halves away from zero. -/
def cround (q : ℚ) : ℤ := if 0 ≤ q then ⌊q + 1 / 2⌋ else ⌈q - 1 / 2⌉

/-- The values of `x` in `for (int x = a; x <= b; ++x)`. -/
def intRange (a b : ℤ) : List ℤ :=
  (List.range (b + 1 - a).toNat).map fun (k : ℕ) => a + (k : ℤ)

/-- The values of `i` in `for (int i = 0; i < n; ++i)`. -/
def countUp (n : ℤ) : List ℤ := (List.range n.toNat).map fun (k : ℕ) => (k : ℤ)

/-- The data members of the class `rst::rasterizer`, lines 63 and 90 to 108.  A `std::map` is the
list of its key and value pairs. -/
structure rasterizer where
  col_st : List (ℚ × ℚ × ℚ)
  model : Matrix4f
  view : Matrix4f
  projection : Matrix4f
  pos_buf : List (ℤ × List Vector3f)
  ind_buf : List (ℤ × List Vector3i)
  col_buf : List (ℤ × List Vector3f)
  frame_buf : List Vector3f
  depth_buf : List (WithTop ℚ)
  color_buf : List Vector3f
  width : ℤ
  height : ℤ
  super_sample : ℤ
  next_id : ℤ

namespace rasterizer

/-- The member `rasterizer::get_index(x, y)`, lines 333 to 340. -/
def get_index (r : rasterizer) (x y : ℤ) : ℤ :=
  if r.super_sample > 0 then
    (r.height * r.super_sample - 1 - y) * r.width * r.super_sample + x
  else
    (r.height - 1 - y) * r.width + x

/-- The member `rasterizer::set_pixel(point, color)`, lines 342 to 347.  The index `ind` is a
`float`; subscripting `frame_buf` with it discards its fractional part.  Here the index is
computed exactly; `Binary32.rasterizer.set_pixel` rounds it as the source does, which makes a
difference on images of more than `2 ^ 24` pixels. -/
def set_pixel (r : rasterizer) (point color : Vector3f) : Option rasterizer :=
  let ind : ℚ := ((r.height : ℚ) - 1 - point.y) * (r.width : ℚ) + point.x
  (vecSet r.frame_buf (truncate ind) color).map fun fb => { r with frame_buf := fb }

/-- The member `rasterizer::clear(buff)`, lines 306 to 316. -/
def clear (r : rasterizer) (buff : Buffers) : rasterizer :=
  let r1 : rasterizer :=
    if Buffers.and buff Buffers.Color = Buffers.Color then
      { r with frame_buf := vecFill r.frame_buf ⟨0, 0, 0⟩ }
    else r
  if Buffers.and buff Buffers.Depth = Buffers.Depth then
    { r1 with depth_buf := vecFill r1.depth_buf ⊤ }
  else r1

/-- The depth interpolated by `rasterize_triangle` at the point `(px, py)` (lines 255 to 258 and
275 to 278): `v` is `t.toVector4()`, the weights are those of `computeBarycentric2D`. -/
def z_interpolated (t : Triangle Vector3f) (px py : ℚ) : ℚ :=
  let v := t.toVector4
  let bary := computeBarycentric2D px py t.v
  let alpha := bary.1
  let beta := bary.2.1
  let gamma := bary.2.2
  let w_reciprocal : ℚ := 1 / (alpha / (v 0).w + beta / (v 1).w + gamma / (v 2).w)
  let z : ℚ := alpha * (v 0).z / (v 0).w + beta * (v 1).z / (v 1).w + gamma * (v 2).z / (v 2).w
  z * w_reciprocal

/-- The body of the innermost loop of the super-sampling branch of `rasterize_triangle` (lines
244 to 264) for pixel `(x, y)` and sub-sample `(i, j)`; the state is the rasterizer together with
the local accumulator `color`. -/
def sample_body (t : Triangle Vector3f) (x y i j : ℤ) (st : rasterizer × Vector3f) :
    Option (rasterizer × Vector3f) :=
  let r := st.1
  let color := st.2
  let sample_x := r.super_sample
  let sample_y := r.super_sample
  let cx : ℚ := 1 / (sample_x : ℚ) * (1 / 2)
  let cy : ℚ := 1 / (sample_y : ℚ) * (1 / 2)
  let dx : ℚ := 1 / (sample_x : ℚ) * (i : ℚ)
  let dy : ℚ := 1 / (sample_y : ℚ) * (j : ℚ)
  let xx : ℚ := (x : ℚ) + dx
  let yy : ℚ := (y : ℚ) + dy
  let id := r.get_index (cround (xx * (sample_x : ℚ))) (cround (yy * (sample_y : ℚ)))
  if insideTriangle (xx + cx) (yy + cy) t.v = false then
    (vecGet r.color_buf id).map fun c => (r, color + c)
  else
    let z := z_interpolated t xx yy
    (vecGet r.depth_buf id).bind fun d =>
      if (z : WithTop ℚ) < d then
        (vecSet r.depth_buf id (z : WithTop ℚ)).bind fun db =>
          (vecSet r.color_buf id (Assignment2.getColor t)).bind fun cb =>
            (vecGet cb id).map fun c => ({ r with depth_buf := db, color_buf := cb }, color + c)
      else
        (vecGet r.color_buf id).map fun c => (r, color + c)

/-- The body of the pixel loop of `rasterize_triangle` (lines 235 to 286) for pixel `(x, y)`. -/
def pixel_body (t : Triangle Vector3f) (r : rasterizer) (x y : ℤ) : Option rasterizer :=
  if r.super_sample > 0 then
    ((countUp r.super_sample).foldlM
        (fun st i => (countUp r.super_sample).foldlM (fun st' j => sample_body t x y i j st') st)
        (r, (⟨0, 0, 0⟩ : Vector3f))).bind fun st =>
      let color := st.2.divScalar (1 * (r.super_sample : ℚ) * (r.super_sample : ℚ))
      st.1.set_pixel ⟨(x : ℚ), (y : ℚ), 1⟩ color
  else
    if insideTriangle ((x : ℚ) + 1 / 2) ((y : ℚ) + 1 / 2) t.v = false then
      some r
    else
      let z := z_interpolated t (x : ℚ) (y : ℚ)
      let id := r.get_index x y
      (vecGet r.depth_buf id).bind fun d =>
        if (z : WithTop ℚ) < d then
          (r.set_pixel ⟨(x : ℚ), (y : ℚ), 1⟩ (Assignment2.getColor t)).bind fun r1 =>
            (vecSet r1.depth_buf id (z : WithTop ℚ)).map fun db => { r1 with depth_buf := db }
        else
          some r

/-- The bounding box computed by `rasterize_triangle`, lines 220 to 228, as
`(minX, minY, maxX, maxY)`. -/
def boundingBox (t : Triangle Vector3f) : ℚ × ℚ × ℚ × ℚ :=
  let v := t.toVector4
  [v 0, v 1, v 2].foldl
    (fun b vec => (min b.1 vec.x, min b.2.1 vec.y, max b.2.2.1 vec.x, max b.2.2.2 vec.y))
    ((v 0).x, (v 0).y, (v 0).x, (v 0).y)

/-- The member `rasterizer::rasterize_triangle(t)`, lines 215 to 289. -/
def rasterize_triangle (r : rasterizer) (t : Triangle Vector3f) : Option rasterizer :=
  let b := boundingBox t
  (intRange ⌊b.1⌋ ⌈b.2.2.1⌉).foldlM
    (fun r1 x => (intRange ⌊b.2.1⌋ ⌈b.2.2.2⌉).foldlM (fun r2 y => pixel_body t r2 x y) r1) r

/-- The homogeneous division `vec /= vec.w()` of `draw`, line 185 (for `vec.w() = 0` the source
produces non-finite components, which exact arithmetic does not have). -/
def homogeneous_division (vec : Vector4f) : Vector4f :=
  ⟨vec.x / vec.w, vec.y / vec.w, vec.z / vec.w, vec.w / vec.w⟩

/-- The constant `f1 = (50 - 0.1) / 2.0` of `draw`, line 171, over exact arithmetic; the `float`
the source stores is `Binary32.rasterizer.f1`. -/
def f1 : ℚ := (50 - 1 / 10) / 2

/-- The constant `f2 = (50 + 0.1) / 2.0` of `draw`, line 172, over exact arithmetic; the `float`
the source stores is `Binary32.rasterizer.f2`. -/
def f2 : ℚ := (50 + 1 / 10) / 2

/-- The viewport transformation of `draw`, lines 190 to 192, applied to one vertex. -/
def viewport (r : rasterizer) (vert : Vector4f) : Vector4f :=
  { vert with
    x := 1 / 2 * (r.width : ℚ) * (vert.x + 1)
    y := 1 / 2 * (r.height : ℚ) * (vert.y + 1)
    z := vert.z * f1 + f2 }

/-- The lookup `m.find(k)` on a `std::map` with `int` keys. -/
def mapFind {β : Type} (m : List (ℤ × β)) (k : ℤ) : Option β :=
  (m.find? fun e => decide (e.1 = k)).map fun e => e.2

/-- The call `m.emplace(k, b)` on a `std::map`: nothing happens when the key is present. -/
def mapEmplace {β : Type} (m : List (ℤ × β)) (k : ℤ) (b : β) : List (ℤ × β) :=
  match mapFind m k with
  | some _ => m
  | none => m ++ [(k, b)]

/-- The expression `m[k]` on a `std::map` of vectors: an absent key is first inserted with an
empty vector.  The result is the vector found and the map after the access. -/
def mapIndex {β : Type} (m : List (ℤ × List β)) (k : ℤ) : List β × List (ℤ × List β) :=
  match mapFind m k with
  | some b => (b, m)
  | none => ([], m ++ [(k, [])])

/-- The constructor `rasterizer::rasterizer(w, h, ss)`, lines 318 to 331.  The matrices and the
elements `frame_buf.resize` creates are not initialised by it, so what they hold is an argument
(`garbage k` for element `k`); `col_st`, the three maps and `color_buf` start empty. -/
def new (w h ss : ℤ) (model view projection : Matrix4f) (garbage : ℕ → Vector3f) : rasterizer :=
  { col_st := [], model := model, view := view, projection := projection,
    pos_buf := [], ind_buf := [], col_buf := [],
    frame_buf := (List.range (w * h).toNat).map garbage,
    depth_buf :=
      if ss = 0 then List.replicate (w * h).toNat ⊤
      else List.replicate (w * h * ss * ss).toNat ⊤,
    color_buf := if ss = 0 then [] else List.replicate (w * h * ss * ss).toNat ⟨0, 0, 0⟩,
    width := w, height := h, super_sample := ss, next_id := 0 }

/-- The member `rasterizer::get_next_id()`, line 109: the id returned and the rasterizer
after the call. -/
def get_next_id (r : rasterizer) : ℤ × rasterizer :=
  (r.next_id, { r with next_id := r.next_id + 1 })

/-- The member `rasterizer::load_positions(positions)`, lines 112 to 118. -/
def load_positions (r : rasterizer) (positions : List Vector3f) : ℤ × rasterizer :=
  let p := r.get_next_id
  (p.1, { p.2 with pos_buf := mapEmplace p.2.pos_buf p.1 positions })

/-- The member `rasterizer::load_indices(indices)`, lines 120 to 126. -/
def load_indices (r : rasterizer) (indices : List Vector3i) : ℤ × rasterizer :=
  let p := r.get_next_id
  (p.1, { p.2 with ind_buf := mapEmplace p.2.ind_buf p.1 indices })

/-- The member `rasterizer::load_colors(cols)`, lines 128 to 134. -/
def load_colors (r : rasterizer) (cols : List Vector3f) : ℤ × rasterizer :=
  let p := r.get_next_id
  (p.1, { p.2 with col_buf := mapEmplace p.2.col_buf p.1 cols })

/-- The function `to_vec4(v3, w)`, lines 136 to 139. -/
def to_vec4 (v3 : Vector3f) (w : ℚ) : Vector4f := ⟨v3.x, v3.y, v3.z, w⟩

/-- Eigen `v.head<3>()`. -/
def head3 (u : Vector4f) : Vector3f := ⟨u.x, u.y, u.z⟩

/-- The body of the loop of `draw` (lines 177 to 210) for the index triple `i`; `buf` and `col`
are the position and colour vectors, `normal` what the fresh triangle finds in its uninitialised
normals.  The result is `none` when a vector is read out of range, `some (Except.error e)`
when `setColor` ends the program, `some (Except.ok r1)` when the body completes. -/
def draw_body (r : rasterizer) (buf col : List Vector3f) (normal : Fin 3 → Vector3f)
    (i : Vector3i) : Option (Except Abort rasterizer) :=
  let mvp := (r.projection.mul r.view).mul r.model
  (vecGet buf i.x).bind fun p0 => (vecGet buf i.y).bind fun p1 => (vecGet buf i.z).bind fun p2 =>
  let v0 : Fin 3 → Vector4f :=
    ![mvp.mulVec (to_vec4 p0 1), mvp.mulVec (to_vec4 p1 1), mvp.mulVec (to_vec4 p2 1)]
  let v1 : Fin 3 → Vector4f := fun k => homogeneous_division (v0 k)
  let v : Fin 3 → Vector4f := fun k => r.viewport (v1 k)
  let t0 := Assignment2.Triangle.new normal
  let t1 := ((t0.setVertex 0 (head3 (v 0))).setVertex 1 (head3 (v 1))).setVertex 2 (head3 (v 2))
  (vecGet col i.x).bind fun col_x => (vecGet col i.y).bind fun col_y =>
  (vecGet col i.z).bind fun col_z =>
  match Assignment2.setColor t1 0 col_x.x col_x.y col_x.z with
  | (Except.error e, _) => some (Except.error e)
  | (Except.ok (), t2) =>
    match Assignment2.setColor t2 1 col_y.x col_y.y col_y.z with
    | (Except.error e, _) => some (Except.error e)
    | (Except.ok (), t3) =>
      match Assignment2.setColor t3 2 col_z.x col_z.y col_z.z with
      | (Except.error e, _) => some (Except.error e)
      | (Except.ok (), t4) => (r.rasterize_triangle t4).map Except.ok

/-- The member `rasterizer::draw(pos_buffer, ind_buffer, col_buffer, type)`, lines 165 to 212;
`normal` is as in `draw_body`. -/
def draw (r : rasterizer) (pos_buffer ind_buffer col_buffer : ℤ) (_type : Primitive)
    (normal : Fin 3 → Vector3f) : Option (Except Abort rasterizer) :=
  let b := mapIndex r.pos_buf pos_buffer
  let i := mapIndex r.ind_buf ind_buffer
  let c := mapIndex r.col_buf col_buffer
  let r0 : rasterizer := { r with pos_buf := b.2, ind_buf := i.2, col_buf := c.2 }
  i.1.foldlM
    (fun (acc : Except Abort rasterizer) tri =>
      match acc with
      | Except.error e => some (Except.error e)
      | Except.ok r1 => draw_body r1 b.1 c.1 normal tri)
    (Except.ok r0)

end rasterizer

/-! ## The Whitted ray tracer (`cpp/6/Scene.hpp`)

The numbers of the ray tracer are the elements of an ordered field `K` (exact arithmetic); the
library function `sqrtf` is an argument of the functions that call it.  `cpp/7/Scene.hpp` has the
same `reflect`, `refract` and `fresnel`, character for character. -/

namespace Assignment6

/-- Modelled from the spec: the class `Vector3f` of `Vector.hpp`, which is not among the
sources: a fixed 3-component tuple with elementwise arithmetic and a dot product. -/
structure Vector3f (K : Type) where
  x : K
  y : K
  z : K
deriving DecidableEq

/-- Modelled from the spec: the class `Vector2f` of `Vector.hpp`, which is not among the
sources. -/
structure Vector2f (K : Type) where
  x : K
  y : K
deriving DecidableEq

section

variable {K : Type} [LinearOrderedField K]

/-- Modelled from the spec: the sum `a + b` of `Vector.hpp`, elementwise. -/
def Vector3f.add (a b : Vector3f K) : Vector3f K := ⟨a.x + b.x, a.y + b.y, a.z + b.z⟩

/-- Modelled from the spec: the difference `a - b` of `Vector.hpp`, elementwise. -/
def Vector3f.sub (a b : Vector3f K) : Vector3f K := ⟨a.x - b.x, a.y - b.y, a.z - b.z⟩

/-- Modelled from the spec: the opposite `-a` of `Vector.hpp`, elementwise. -/
def Vector3f.neg (a : Vector3f K) : Vector3f K := ⟨-a.x, -a.y, -a.z⟩

/-- Modelled from the spec: the products `s * a` and `a * s` of `Vector.hpp` of a vector with a
number. -/
def Vector3f.scale (s : K) (a : Vector3f K) : Vector3f K := ⟨s * a.x, s * a.y, s * a.z⟩

/-- Modelled from the spec: the product `a * b` of `Vector.hpp` of two vectors, elementwise. -/
def Vector3f.mul (a b : Vector3f K) : Vector3f K := ⟨a.x * b.x, a.y * b.y, a.z * b.z⟩

instance : Zero (Vector3f K) := ⟨⟨0, 0, 0⟩⟩
instance : Add (Vector3f K) := ⟨Vector3f.add⟩
instance : Sub (Vector3f K) := ⟨Vector3f.sub⟩
instance : Neg (Vector3f K) := ⟨Vector3f.neg⟩
instance : Mul (Vector3f K) := ⟨Vector3f.mul⟩
instance : HMul K (Vector3f K) (Vector3f K) := ⟨Vector3f.scale⟩
instance : HMul (Vector3f K) K (Vector3f K) := ⟨fun a s => Vector3f.scale s a⟩

/-- Modelled from the spec: the function `dotProduct(a, b)` of `Vector.hpp`. -/
def dotProduct (a b : Vector3f K) : K := a.x * b.x + a.y * b.y + a.z * b.z

/-- Modelled from the spec: the function `clamp(lo, hi, v)` of `global.hpp` of assignment 6,
which is not among the sources: `v` brought into `[lo, hi]`. -/
def clamp (lo hi v : K) : K := max lo (min hi v)

/-- What the library function `sqrtf` is assumed to do on a number that is not negative: return
the root that is not negative. -/
def IsSqrt (sqrtf : K → K) : Prop := ∀ x : K, 0 ≤ x → 0 ≤ sqrtf x ∧ sqrtf x * sqrtf x = x

/-- The member `Scene::reflect(I, N)`, lines 44 to 47. -/
def reflect (I N : Vector3f K) : Vector3f K := I - (2 * dotProduct I N) * N

/-- The locals `cosi`, `eta`, `n` and `k` of `Scene::refract(I, N, ior)` when it reaches its
`return`, lines 62 to 75, in this order. -/
def refract_locals (I N : Vector3f K) (ior : K) : K × K × Vector3f K × K :=
  let cosi := clamp (-1) 1 (dotProduct I N)
  let etai : K := 1
  let etat : K := ior
  let n := N
  let s : K × K × K × Vector3f K :=
    if cosi < 0 then (-cosi, etai, etat, n) else (cosi, etat, etai, -N)
  let cosi := s.1
  let etai := s.2.1
  let etat := s.2.2.1
  let n := s.2.2.2
  let eta := etai / etat
  let k := 1 - eta * eta * (1 - cosi * cosi)
  (cosi, eta, n, k)

/-- The member `Scene::refract(I, N, ior)`, lines 60 to 77. -/
def refract (sqrtf : K → K) (I N : Vector3f K) (ior : K) : Vector3f K :=
  let l := refract_locals I N ior
  let cosi := l.1
  let eta := l.2.1
  let n := l.2.2.1
  let k := l.2.2.2
  if k < 0 then 0 else eta * I + (eta * cosi - sqrtf k) * n

/-- The member `Scene::fresnel(I, N, ior, kr)`, lines 88 to 113; the result is the value the
call leaves in `kr`.  The arithmetic is that of the field `K`; `Binary32.Assignment6.fresnel` is
the same text in `float`. -/
def fresnel (sqrtf : K → K) (I N : Vector3f K) (ior : K) : K :=
  let cosi := clamp (-1) 1 (dotProduct I N)
  let etai : K := 1
  let etat : K := ior
  let s : K × K := if cosi > 0 then (etat, etai) else (etai, etat)
  let etai := s.1
  let etat := s.2
  let sint := etai / etat * sqrtf (max 0 (1 - cosi * cosi))
  if sint ≥ 1 then
    1
  else
    let cost := sqrtf (max 0 (1 - sint * sint))
    let cosi := |cosi|
    let Rs := ((etat * cosi) - (etai * cost)) / ((etat * cosi) + (etai * cost))
    let Rp := ((etai * cosi) - (etat * cost)) / ((etai * cosi) + (etat * cost))
    (Rs * Rs + Rp * Rp) / 2

end

/-- Modelled from the spec: the enumeration of the material types (`Material.hpp` is not among
the sources). -/
inductive MaterialType where
  | DIFFUSE
  | GLOSSY
  | REFLECTION
  | REFLECTION_AND_REFRACTION
deriving DecidableEq

/-- Modelled from the spec: the fields of `Material` that `castRay` reads. -/
structure Material (K : Type) where
  m_type : MaterialType
  ior : K
  Kd : K
  Ks : K
  specularExponent : K

/-- Modelled from the spec: a ray, with its origin and its direction. -/
structure Ray (K : Type) where
  origin : Vector3f K
  direction : Vector3f K

/-- Modelled from the spec: the fields of `Intersection` that `castRay` reads; `obj` and `m`
stand for what the two pointers point to, and are looked at when `happened` only. -/
structure Intersection (K Obj : Type) where
  happened : Bool
  coords : Vector3f K
  normal : Vector3f K
  obj : Obj
  m : Material K

/-- Modelled from the spec: a light; `isAreaLight` is whether the `dynamic_cast` to `AreaLight`
of line 222 succeeds. -/
structure Light (K : Type) where
  isAreaLight : Bool
  position : Vector3f K
  intensity : Vector3f K

/-- The data members of the class `Scene` of `cpp/6/Scene.hpp`, lines 16 to 41 (the BVH is
behind `Collaborators.intersect`). -/
structure Scene (K Obj : Type) where
  width : ℤ
  height : ℤ
  fov : K
  backgroundColor : Vector3f K
  maxDepth : ℤ
  objects : List Obj
  lights : List (Light K)

/-- The functions and constants `castRay` uses that are defined in files outside the sources:
`sqrtf` and `powf` of the C library, `EPSILON` and `normalize`, the BVH query behind
`Scene::intersect` and `bvh->Intersect`, and the two members of `Object` called at lines 182 and
245 (`getSurfaceProperties` is given the object, the hit point, the ray direction and the normal
and returns the normal and the `st` coordinates it leaves). -/
structure Collaborators (K Obj : Type) where
  sqrtf : K → K
  powf : K → K → K
  EPSILON : K
  normalize : Vector3f K → Vector3f K
  intersect : Ray K → Intersection K Obj
  getSurfaceProperties : Obj → Vector3f K → Vector3f K → Vector3f K → Vector3f K × Vector2f K
  evalDiffuseColor : Obj → Vector2f K → Vector3f K

section

variable {K Obj : Type} [LinearOrderedField K]

/-- The body of the loop over the lights in the default case of `castRay`, lines 222 to 243,
for one light; the state is the pair of the locals `lightAmt` and `specularColor`. -/
def phong_light (env : Collaborators K Obj) (ray : Ray K) (m : Material K)
    (hitPoint N shadowPointOrig : Vector3f K) (acc : Vector3f K × Vector3f K) (light : Light K) :
    Vector3f K × Vector3f K :=
  if light.isAreaLight then
    acc
  else
    let lightDir := env.normalize (light.position - hitPoint)
    let LdotN := max 0 (dotProduct lightDir N)
    let inShadow := (env.intersect ⟨shadowPointOrig, lightDir⟩).happened
    let lightAmt := acc.1 + ((1 - (if inShadow then (1 : K) else 0)) * light.intensity) * LdotN
    let reflectionDirection := reflect (-lightDir) N
    let specularColor := acc.2 +
      env.powf (max 0 (-dotProduct reflectionDirection ray.direction)) m.specularExponent *
        light.intensity
    (lightAmt, specularColor)

/-- The body of the member `Scene::castRay(ray, depth)`, lines 163 to 252; the argument
`self` stands for the three recursive calls of lines 192, 193 and 205. -/
def castRay_body (env : Collaborators K Obj) (scene : Scene K Obj)
    (self : Ray K → ℤ → Option (Vector3f K)) (ray : Ray K) (depth : ℤ) :
    Option (Vector3f K) :=
  if depth > scene.maxDepth then
    some ⟨0, 0, 0⟩
  else
    let intersection := env.intersect ray
    let m := intersection.m
    let hitObject := intersection.obj
    let hitColor := scene.backgroundColor
    if intersection.happened then
      let hitPoint := intersection.coords
      let sp := env.getSurfaceProperties hitObject hitPoint ray.direction intersection.normal
      let N := sp.1
      let st := sp.2
      match m.m_type with
      | MaterialType.REFLECTION_AND_REFRACTION =>
        let reflectionDirection := env.normalize (reflect ray.direction N)
        let refractionDirection := env.normalize (refract env.sqrtf ray.direction N m.ior)
        let reflectionRayOrig :=
          if dotProduct reflectionDirection N < 0 then hitPoint - N * env.EPSILON
          else hitPoint + N * env.EPSILON
        let refractionRayOrig :=
          if dotProduct refractionDirection N < 0 then hitPoint - N * env.EPSILON
          else hitPoint + N * env.EPSILON
        (self ⟨reflectionRayOrig, reflectionDirection⟩ (depth + 1)).bind fun reflectionColor =>
        (self ⟨refractionRayOrig, refractionDirection⟩ (depth + 1)).bind fun refractionColor =>
        let kr := fresnel env.sqrtf ray.direction N m.ior
        some (reflectionColor * kr + refractionColor * (1 - kr))
      | MaterialType.REFLECTION =>
        let kr := fresnel env.sqrtf ray.direction N m.ior
        let reflectionDirection := reflect ray.direction N
        let reflectionRayOrig :=
          if dotProduct reflectionDirection N < 0 then hitPoint + N * env.EPSILON
          else hitPoint - N * env.EPSILON
        (self ⟨reflectionRayOrig, reflectionDirection⟩ (depth + 1)).map fun c => c * kr
      | _ =>
        let shadowPointOrig :=
          if dotProduct ray.direction N < 0 then hitPoint + N * env.EPSILON
          else hitPoint - N * env.EPSILON
        let sums := scene.lights.foldl (phong_light env ray m hitPoint N shadowPointOrig)
          ((0 : Vector3f K), (0 : Vector3f K))
        let lightAmt := sums.1
        let specularColor := sums.2
        some (lightAmt * (env.evalDiffuseColor hitObject st * m.Kd + specularColor * m.Ks))
    else
      some hitColor

/-- The member `Scene::castRay(ray, depth)`, lines 163 to 252.  The first argument bounds the
number of nested calls: with `0` no call can be made and there is no result. -/
def castRay (env : Collaborators K Obj) (scene : Scene K Obj) :
    ℕ → Ray K → ℤ → Option (Vector3f K)
  | 0 => fun _ _ => none
  | fuel + 1 => castRay_body env scene (castRay env scene fuel)

end

end Assignment6

/-! ## The Bézier curve exercise (`cpp/4/main.cpp`)

The coordinates are the elements of a field `K` (exact arithmetic). -/

namespace Assignment4

/-- Modelled from the spec: the OpenCV class `cv::Point2f`, which is not among the sources: a
pair of coordinates with elementwise sum and difference and a product with a number. -/
structure Point2f (K : Type) where
  x : K
  y : K
deriving DecidableEq

section

variable {K : Type} [Field K]

instance : Add (Point2f K) := ⟨fun a b => ⟨a.x + b.x, a.y + b.y⟩⟩
instance : Sub (Point2f K) := ⟨fun a b => ⟨a.x - b.x, a.y - b.y⟩⟩
instance : HMul (Point2f K) K (Point2f K) := ⟨fun a s => ⟨a.x * s, a.y * s⟩⟩
instance : HMul K (Point2f K) (Point2f K) := ⟨fun s a => ⟨s * a.x, s * a.y⟩⟩

/-- The values of `t` in the loops `for (double t = 0.0; t <= 1.0; t += 0.001)` of lines 53 and
88, over exact arithmetic: `k / 1000` for `k = 0, …, 1000`.  The rounding of the sums
`t += 0.001` in `double`, which decides whether the last value passes the test `t <= 1.0`, is
not part of this model. -/
def tValues : List K := (List.range 1001).map fun (k : ℕ) => (k : K) / 1000

/-- The point `naive_bezier` computes at lines 55 and 56 for one value of `t`; `std::pow` with
the exponents `2` and `3` is the power. -/
def naive_bezier_point (p_0 p_1 p_2 p_3 : Point2f K) (t : K) : Point2f K :=
  (1 - t) ^ 3 * p_0 + 3 * t * (1 - t) ^ 2 * p_1 + 3 * t ^ 2 * (1 - t) * p_2 + t ^ 3 * p_3

/-- The function `naive_bezier(points, window)`, lines 46 to 61, as the list of the points it
hands to `shading`, in order; there is no result when `points` has fewer than four entries
(lines 48 to 51 subscript it with `0` to `3`). -/
def naive_bezier (points : List (Point2f K)) : Option (List (Point2f K)) :=
  match points with
  | p_0 :: p_1 :: p_2 :: p_3 :: _ =>
    some (tValues.map fun t => naive_bezier_point p_0 p_1 p_2 p_3 t)
  | _ => none

/-- The function `lerp2f(a, b, t)`, lines 63 to 66. -/
def lerp2f (a b : Point2f K) (t : K) : Point2f K := a + (b - a) * t

/-- The vector `lerp_points` that the loop of `recursive_bezier` fills, lines 75 to 79: the
entry for `i` is `lerp2f(control_points[i - 1], control_points[i], t)`, `i` from `1` to
`size - 1`. -/
def lerp_points (control_points : List (Point2f K)) (t : K) : List (Point2f K) :=
  List.zipWith (fun a b => lerp2f a b t) control_points control_points.tail

/-- The function `recursive_bezier(control_points, t)`, lines 68 to 82.  The first argument
bounds the number of nested calls: with `0` no call can be made and there is no result. -/
def recursive_bezier : ℕ → List (Point2f K) → K → Option (Point2f K)
  | 0, _, _ => none
  | fuel + 1, control_points, t =>
    if control_points.length = 1 then
      control_points.getLast?
    else
      recursive_bezier fuel (lerp_points control_points t) t

/-- The function `bezier(control_points, window)`, lines 84 to 94, as the list of the points it
hands to `shading`, in order; each call of `recursive_bezier` is allowed `fuel` nested calls. -/
def bezier (fuel : ℕ) (control_points : List (Point2f K)) : Option (List (Point2f K)) :=
  tValues.mapM fun t => recursive_bezier fuel control_points t

end

end Assignment4

/-! ## The path tracer (`cpp/7/Scene.hpp`, `cpp/7/Renderer.hpp`)

The numbers are the elements of an ordered field `K` (exact arithmetic).  The random number
generator is a state of a type `Rng` that `get_random_float` and the functions that call it
pass along. -/

namespace Assignment7

/-- The class `Vector3f` of `Vector.hpp`, as in assignment 6. -/
abbrev Vector3f (K : Type) : Type := Assignment6.Vector3f K

/-- The class `Ray`, as in assignment 6. -/
abbrev Ray (K : Type) : Type := Assignment6.Ray K

/-- The enumeration of the material types, as in assignment 6. -/
abbrev MaterialType : Type := Assignment6.MaterialType

/-- Modelled from the spec: the fields of `Intersection` that `sampleLight` and `castRay` read;
`obj` and `m` stand for what the two pointers point to. -/
structure Intersection (K Obj Mat : Type) where
  happened : Bool
  coords : Vector3f K
  normal : Vector3f K
  distance : K
  obj : Obj
  m : Mat
  emit : Vector3f K

/-- The two arguments `pos` and `pdf` that `sampleLight` passes by reference to
`Object::Sample`, with the state of the random number generator; `pdf` is `none` as long as
nothing has been assigned to the `float` (line 196 declares it without a value). -/
structure LightSample (K Obj Mat Rng : Type) where
  pos : Intersection K Obj Mat
  pdf : Option K
  rng : Rng

/-- The members of `Object` that `sampleLight` calls (`Object.hpp` is not among the sources);
`Sample` may change whatever is in the state `σ`. -/
structure ObjectCaps (K Obj σ : Type) where
  hasEmit : Obj → Bool
  getArea : Obj → K
  Sample : Obj → σ → σ

/-- The data members of the class `Scene` of `cpp/7/Scene.hpp`, lines 15 to 42 (the BVH is
behind `Collaborators.intersect`, the lights are not used by the path tracer). -/
structure Scene (K Obj : Type) where
  width : ℤ
  height : ℤ
  fov : K
  backgroundColor : Vector3f K
  maxDepth : ℤ
  RussianRoulette : K
  objects : List Obj

/-- The functions `castRay` uses that are defined in files outside the sources: the BVH query
behind `Scene::intersect`, `get_random_float`, the default constructor of `Intersection`, the
members `hasEmission`, `getEmission`, `getType`, `eval`, `sample` (which draws random numbers)
and `pdf` of `Material`, and the members `norm` and `normalized` of `Vector3f`. -/
structure Collaborators (K Obj Mat Rng : Type) where
  intersect : Ray K → Intersection K Obj Mat
  get_random_float : Rng → K × Rng
  Intersection0 : Intersection K Obj Mat
  hasEmission : Mat → Bool
  getEmission : Mat → Vector3f K
  getType : Mat → MaterialType
  eval : Mat → Vector3f K → Vector3f K → Vector3f K → Vector3f K
  sample : Mat → Vector3f K → Vector3f K → Rng → Vector3f K × Rng
  pdf : Mat → Vector3f K → Vector3f K → Vector3f K → K
  norm : Vector3f K → K
  normalized : Vector3f K → Vector3f K

section

variable {K Obj Mat Rng σ : Type} [LinearOrderedField K]

/-- Modelled from the spec: the quotient `a / r` of `Vector.hpp` of a vector by a number,
elementwise. -/
instance : HDiv (Assignment6.Vector3f K) K (Assignment6.Vector3f K) :=
  ⟨fun a r => ⟨a.x / r, a.y / r, a.z / r⟩⟩

/-- The constant `EPSILON = 0.00016` of `Renderer.hpp`, line 31. -/
def EPSILON : K := 16 / 100000

/-- The first loop of `Scene::sampleLight`, lines 130 to 137: the sum of the areas of the
emissive objects. -/
def emit_area_sum (caps : ObjectCaps K Obj σ) (objects : List Obj) : K :=
  objects.foldl (fun sum o => if caps.hasEmit o then sum + caps.getArea o else sum) 0

/-- The second loop of `Scene::sampleLight`, lines 140 to 151, from the object at the head of
the list on, with the running value of `emit_area_sum`; the call of `Sample` is followed by
`break`. -/
def select_light (caps : ObjectCaps K Obj σ) (p : K) : List Obj → K → σ → σ
  | [], _, s => s
  | o :: rest, emit_area_sum, s =>
    if caps.hasEmit o then
      if p ≤ emit_area_sum + caps.getArea o then
        caps.Sample o s
      else
        select_light caps p rest (emit_area_sum + caps.getArea o) s
    else
      select_light caps p rest emit_area_sum s

/-- The member `Scene::sampleLight(pos, pdf)`, lines 128 to 152; the state `s` holds `pos`,
`pdf` and whatever `get_random_float` and `Sample` read and change. -/
def sampleLight (caps : ObjectCaps K Obj σ) (get_random_float : σ → K × σ)
    (objects : List Obj) (s : σ) : σ :=
  let emit_area_sum := emit_area_sum caps objects
  let draw := get_random_float s
  let p := draw.1 * emit_area_sum
  select_light caps p objects 0 draw.2

/-- The function `get_random_float` on the state that `sampleLight` passes along: it reads and
changes the generator only. -/
def draw_float (env : Collaborators K Obj Mat Rng) (s : LightSample K Obj Mat Rng) :
    K × LightSample K Obj Mat Rng :=
  ((env.get_random_float s.rng).1, { s with rng := (env.get_random_float s.rng).2 })

/-- The body of `case DIFFUSE` of `castRay`, lines 193 to 210, which ends without `break`: the
value it leaves in `L_dir` and the state of the generator.  There is no result when line 208
reads a `pdf_light` that `sampleLight` left without a value. -/
def case_DIFFUSE (env : Collaborators K Obj Mat Rng)
    (caps : ObjectCaps K Obj (LightSample K Obj Mat Rng)) (scene : Scene K Obj) (ray : Ray K)
    (inter_obj : Intersection K Obj Mat) (g : Rng) : Option (Vector3f K × Rng) :=
  let s := sampleLight caps (draw_float env) scene.objects ⟨env.Intersection0, none, g⟩
  let inter_light := s.pos
  let pdf_light := s.pdf
  let obj2light := inter_light.coords - inter_obj.coords
  let obj2light_dir := env.normalized obj2light
  if (env.intersect ⟨inter_obj.coords, obj2light_dir⟩).distance - env.norm obj2light
      > -EPSILON then
    pdf_light.map fun pdf_light =>
      (inter_light.emit *
        env.eval inter_obj.m ray.direction obj2light_dir inter_obj.normal *
        Assignment6.dotProduct obj2light_dir inter_obj.normal *
        Assignment6.dotProduct (-obj2light_dir) inter_light.normal /
        Assignment6.dotProduct obj2light obj2light /
        pdf_light, s.rng)
  else
    some (0, s.rng)

/-- The body of `case GLOSSY` of `castRay`, lines 212 to 235: the value it leaves in `L_indir`
and the state of the generator; `self` stands for the recursive call of line 226. -/
def case_GLOSSY (env : Collaborators K Obj Mat Rng) (scene : Scene K Obj)
    (self : Ray K → ℤ → Rng → Option (Vector3f K × Rng)) (ray : Ray K) (depth : ℤ)
    (inter_obj : Intersection K Obj Mat) (g : Rng) : Option (Vector3f K × Rng) :=
  let draw := env.get_random_float g
  if draw.1 ≤ scene.RussianRoulette then
    let sampled := env.sample inter_obj.m ray.direction inter_obj.normal draw.2
    let obj2nobj_dir := env.normalized sampled.1
    let nray : Ray K := ⟨inter_obj.coords, obj2nobj_dir⟩
    let nextObjInter := env.intersect nray
    if nextObjInter.happened && !env.hasEmission nextObjInter.m then
      let pdf := env.pdf inter_obj.m ray.direction obj2nobj_dir inter_obj.normal
      if pdf > EPSILON then
        (self nray (depth + 1) sampled.2).map fun c =>
          (c.1 *
            env.eval inter_obj.m ray.direction obj2nobj_dir inter_obj.normal *
            Assignment6.dotProduct obj2nobj_dir inter_obj.normal /
            pdf /
            scene.RussianRoulette, c.2)
      else
        some (0, sampled.2)
    else
      some (0, sampled.2)
  else
    some (0, draw.2)

/-- The part of `castRay` after the two early returns, lines 188 to 240: the `switch` on the
material type and the final sum.  Control enters at the label of the type; `case DIFFUSE` falls
through into `case GLOSSY`. -/
def shade (env : Collaborators K Obj Mat Rng)
    (caps : ObjectCaps K Obj (LightSample K Obj Mat Rng)) (scene : Scene K Obj)
    (self : Ray K → ℤ → Rng → Option (Vector3f K × Rng)) (ray : Ray K) (depth : ℤ)
    (inter_obj : Intersection K Obj Mat) (g : Rng) : Option (Vector3f K × Rng) :=
  let L_dir : Vector3f K := 0
  let L_indir : Vector3f K := 0
  match env.getType inter_obj.m with
  | Assignment6.MaterialType.DIFFUSE =>
    (case_DIFFUSE env caps scene ray inter_obj g).bind fun d =>
      (case_GLOSSY env scene self ray depth inter_obj d.2).map fun i => (d.1 + i.1, i.2)
  | Assignment6.MaterialType.GLOSSY =>
    (case_GLOSSY env scene self ray depth inter_obj g).map fun i => (L_dir + i.1, i.2)
  | _ => some (L_dir + L_indir, g)

/-- The body of the member `Scene::castRay(ray, depth)`, lines 177 to 241, with the state of
the random number generator before and after; `self` stands for the recursive call. -/
def castRay_body (env : Collaborators K Obj Mat Rng)
    (caps : ObjectCaps K Obj (LightSample K Obj Mat Rng)) (scene : Scene K Obj)
    (self : Ray K → ℤ → Rng → Option (Vector3f K × Rng)) (ray : Ray K) (depth : ℤ) (g : Rng) :
    Option (Vector3f K × Rng) :=
  let inter_obj := env.intersect ray
  if !inter_obj.happened then
    some (0, g)
  else if env.hasEmission inter_obj.m then
    some (env.getEmission inter_obj.m, g)
  else
    shade env caps scene self ray depth inter_obj g

/-- The member `Scene::castRay(ray, depth)`, lines 177 to 241.  The first argument bounds the
number of nested calls: with `0` no call can be made and there is no result. -/
def castRay (env : Collaborators K Obj Mat Rng)
    (caps : ObjectCaps K Obj (LightSample K Obj Mat Rng)) (scene : Scene K Obj) :
    ℕ → Ray K → ℤ → Rng → Option (Vector3f K × Rng)
  | 0 => fun _ _ _ => none
  | fuel + 1 => castRay_body env caps scene (castRay env caps scene fuel)

end

/-- The conversion to `int` of `std::sqrt(q)` for `q ≥ 0`, over exact arithmetic: the integer
part of the square root. -/
def sqrt_to_int (q : ℚ) : ℤ := (Nat.sqrt ⌊q⌋₊ : ℤ)

/-- The local `width` of `Renderer::Render`, lines 48 and 107, for `spp` samples on a
`scene_width` by `scene_height` image. -/
def grid_width (spp scene_width scene_height : ℤ) : ℤ :=
  sqrt_to_int (1 * (spp : ℚ) * (scene_width : ℚ) / (scene_height : ℚ))

/-- The local `height` of `Renderer::Render`, lines 49 and 108. -/
def grid_height (spp scene_width scene_height : ℤ) : ℤ :=
  sqrt_to_int (1 * (spp : ℚ) * (scene_height : ℚ) / (scene_width : ℚ))

/-- The offsets added to `i` and to `j` for sample `k` in `Renderer::Render`, lines 62 and 64
(and 126 and 128): `wstep / 2 + wstep * (k % width)` and `hstep / 2 + hstep * (k / height)`.
There is no result when `width` or `height` is `0` (the remainder and the quotient of integers
by zero are undefined). -/
def sample_offset (spp scene_width scene_height k : ℤ) : Option (ℚ × ℚ) :=
  let width := grid_width spp scene_width scene_height
  let height := grid_height spp scene_width scene_height
  let wstep : ℚ := 1 / (width : ℚ)
  let hstep : ℚ := 1 / (height : ℚ)
  if width = 0 ∨ height = 0 then
    none
  else
    some (wstep / 2 + wstep * ((Int.tmod k width : ℤ) : ℚ),
      hstep / 2 + hstep * ((Int.tdiv k height : ℤ) : ℚ))

end Assignment7

/-! ## Auxiliary notions used in the statements and proofs -/

/-- Pixel `(x, y)` is visited by the bounding-box loops of `rasterize_triangle` for `t`
(lines 231 and 233). -/
def visits (t : Triangle Vector3f) (x y : ℤ) : Prop :=
  x ∈ intRange ⌊(rasterizer.boundingBox t).1⌋ ⌈(rasterizer.boundingBox t).2.2.1⌉ ∧
    y ∈ intRange ⌊(rasterizer.boundingBox t).2.1⌋ ⌈(rasterizer.boundingBox t).2.2.2⌉

instance (t : Triangle Vector3f) (x y : ℤ) : Decidable (visits t x y) := by
  unfold visits
  infer_instance

/-- A call of one of the three loaders, with the buffer it is given. -/
inductive LoadCall where
  | positions (l : List Vector3f)
  | indices (l : List Vector3i)
  | colors (l : List Vector3f)

/-- One loader call: the id returned and the rasterizer after the call. -/
def rasterizer.load (r : rasterizer) : LoadCall → ℤ × rasterizer
  | LoadCall.positions l => r.load_positions l
  | LoadCall.indices l => r.load_indices l
  | LoadCall.colors l => r.load_colors l

/-- A sequence of loader calls: the ids returned, in call order, and the rasterizer after the
last call. -/
def rasterizer.loads (r : rasterizer) : List LoadCall → List ℤ × rasterizer
  | [] => ([], r)
  | c :: cs => ((r.load c).1 :: ((r.load c).2.loads cs).1, ((r.load c).2.loads cs).2)

/-- The buffer a loader call stores is found under key `k` in the map of its kind. -/
def rasterizer.holds (r : rasterizer) (c : LoadCall) (k : ℤ) : Prop :=
  match c with
  | LoadCall.positions l => mapFind r.pos_buf k = some l
  | LoadCall.indices l => mapFind r.ind_buf k = some l
  | LoadCall.colors l => mapFind r.col_buf k = some l

/-- No key of the three maps is at or above `next_id`: every stored buffer sits under an id that
a loader has handed out. -/
def rasterizer.IdsIssued (r : rasterizer) : Prop :=
  ∀ k : ℤ, r.next_id ≤ k →
    mapFind r.pos_buf k = none ∧ mapFind r.ind_buf k = none ∧ mapFind r.col_buf k = none

/-- The value `Scene::fresnel` computes once the two indices are in their final order: the
part of the function after the `swap`. -/
def Assignment6.fresnel_kr {K : Type} [LinearOrderedField K] (sqrtf : K → K)
    (etai etat cosi : K) : K :=
  let sint := etai / etat * sqrtf (max 0 (1 - cosi * cosi))
  if sint ≥ 1 then
    1
  else
    let cost := sqrtf (max 0 (1 - sint * sint))
    let cosi := |cosi|
    let Rs := ((etat * cosi) - (etai * cost)) / ((etat * cosi) + (etai * cost))
    let Rp := ((etai * cosi) - (etat * cost)) / ((etai * cosi) + (etat * cost))
    (Rs * Rs + Rp * Rp) / 2

/-- The map of the kind of the loader call `c` has the key `k`. -/
def rasterizer.hasKey (r : rasterizer) (c : LoadCall) (k : ℤ) : Prop :=
  match c with
  | LoadCall.positions _ => (rasterizer.mapFind r.pos_buf k).isSome = true
  | LoadCall.indices _ => (rasterizer.mapFind r.ind_buf k).isSome = true
  | LoadCall.colors _ => (rasterizer.mapFind r.col_buf k).isSome = true

/-! ## Concrete inputs used in the instances -/

/-- A 2 by 2 rasterizer without super-sampling, as the constructor leaves it (zero matrices,
zero frame buffer). -/
def raster2x2 : rasterizer :=
  rasterizer.new 2 2 0 (fun _ _ => 0) (fun _ _ => 0) (fun _ _ => 0) (fun _ => ⟨0, 0, 0⟩)

/-- The screen-space triangle `(0,0,5)`, `(2,0,5)`, `(0,2,5)` of colour `(185, 217, 238)`: on a
2 by 2 image it covers pixel `(0, 0)` only, at depth 5. -/
def triangleFar : Triangle Vector3f :=
  { v := ![⟨0, 0, 5⟩, ⟨2, 0, 5⟩, ⟨0, 2, 5⟩],
    color := fun _ => ⟨185 / 255, 217 / 255, 238 / 255⟩,
    tex_coords := fun _ => ⟨0, 0⟩, normal := fun _ => ⟨0, 0, 1⟩ }

/-- A 2 by 2 rasterizer with 2 × 2 super-sampling, as the constructor leaves it (zero
matrices, zero frame buffer). -/
def raster2x2ss2 : rasterizer :=
  rasterizer.new 2 2 2 (fun _ _ => 0) (fun _ _ => 0) (fun _ _ => 0) (fun _ => ⟨0, 0, 0⟩)

/-- A room in which every ray hits, at distance one, a wall of material `m` that does not emit;
a material is its type, the random draws are all `1/2`, the sampled direction is the normal,
and `sqrtf` is the square root behind `norm` and `normalized`. -/
def wallRoom {K : Type} [LinearOrderedField K] (sqrtf : K → K) (m : Assignment6.MaterialType) :
    Assignment7.Collaborators K ℕ Assignment6.MaterialType ℕ :=
  ⟨fun ray => ⟨true, ray.origin + ray.direction, ⟨0, 0, 1⟩, 1, 0, m, 0⟩,
    fun g => (1 / 2, g + 1),
    ⟨false, 0, 0, 0, 0, m, 0⟩,
    fun _ => false,
    fun _ => 0,
    fun t => t,
    fun _ _ _ _ => ⟨1 / 2, 1 / 2, 1 / 2⟩,
    fun _ _ N g => (N, g + 1),
    fun _ _ _ _ => 1 / 2,
    fun v => sqrtf (Assignment6.dotProduct v v),
    fun v => v / sqrtf (Assignment6.dotProduct v v)⟩

/-- A scene without objects: nothing emits, and `Sample` is never called. -/
def noLamps {K : Type} [LinearOrderedField K] :
    Assignment7.ObjectCaps K ℕ (Assignment7.LightSample K ℕ Assignment6.MaterialType ℕ) :=
  ⟨fun _ => false, fun _ => 0, fun _ s => s⟩

/-- The scene record of `wallRoom`: the defaults of lines 15 to 20 on a 784 by 784 image, with
no object in the list that `sampleLight` walks. -/
def wallScene {K : Type} [LinearOrderedField K] : Assignment7.Scene K ℕ :=
  ⟨784, 784, 40, ⟨235294 / 1000000, 67451 / 100000, 843137 / 1000000⟩, 1, 8 / 10, []⟩

/-- An object table that records the calls of `Sample`: the objects are numbers, object `0`
does not emit, object `o > 0` emits and has area `o`, and `Sample` appends the object to the
state, which is the list of the objects sampled so far. -/
def callLog : Assignment7.ObjectCaps ℚ ℕ (List ℕ) :=
  ⟨fun o => decide (o ≠ 0), fun o => (o : ℚ), fun o s => s ++ [o]⟩

/-- Two lamps of area `1` each, of radiance `(1, 1, 1)`, whose `Sample` is uniform over the
lamp: it sets `pdf` to `1 / area` and `pos.emit` to the radiance. -/
def twoLamps : Assignment7.ObjectCaps ℚ ℕ (Assignment7.LightSample ℚ ℕ Unit ℕ) :=
  ⟨fun _ => true, fun _ => 1,
    fun _ s => ⟨{ s.pos with emit := ⟨1, 1, 1⟩ }, some (1 / 1), s.rng⟩⟩

/-! ## Binary floating-point numbers (IEEE 754)

The C types `float` and `double` are the formats `binary32` and `binary64`.  A datum is a NaN,
an infinity, a signed zero or a non-zero rational number; every arithmetic operation computes
the exact result and rounds it to the format of the operation (round to nearest, ties to even),
one operation at a time, as the source does when it is compiled without fused
multiply-add. -/

/-- An IEEE 754 binary format: `prec` bits of significand (the hidden bit included) and the
exponents `emin` and `emax` of the smallest and the largest normal numbers. -/
structure Format where
  prec : ℕ
  emin : ℤ
  emax : ℤ
deriving DecidableEq, Repr

/-- The format of the C type `float`. -/
def binary32 : Format := ⟨24, -126, 127⟩

/-- The format of the C type `double`. -/
def binary64 : Format := ⟨53, -1022, 1023⟩

/-- A floating-point datum: a NaN, an infinity with its sign, a zero with its sign, or a
non-zero finite number.  The format only enters in the operations, which round. -/
inductive Flt where
  | nan
  | inf (neg : Bool)
  | zero (neg : Bool)
  | num (q : ℚ)
deriving DecidableEq, Repr

/-- Halvings of `n` until it drops below 2, at most `k` of them: `⌊log₂ n⌋` for `n ≤ k`. -/
def log2Fuel : ℕ → ℕ → ℕ
  | 0, _ => 0
  | k + 1, n => if n < 2 then 0 else log2Fuel k (n / 2) + 1

/-- Halvings, rounded up, of `n` until it drops below 2, at most `k` of them: `⌈log₂ n⌉` for
`n ≤ k`. -/
def clog2Fuel : ℕ → ℕ → ℕ
  | 0, _ => 0
  | k + 1, n => if n < 2 then 0 else clog2Fuel k ((n + 1) / 2) + 1

/-- The integer square root `⌊√n⌋` of `n < 4 ^ k`, one binary digit at a time. -/
def sqrtFuel : ℕ → ℕ → ℕ
  | 0, _ => 0
  | k + 1, n =>
    if (2 * sqrtFuel k (n / 4) + 1) * (2 * sqrtFuel k (n / 4) + 1) ≤ n then
      2 * sqrtFuel k (n / 4) + 1
    else 2 * sqrtFuel k (n / 4)

/-- The exponent `e` with `2 ^ e ≤ q < 2 ^ (e + 1)`, for `q > 0`. -/
def floorLog2 (q : ℚ) : ℤ :=
  if 1 ≤ q then (log2Fuel ⌊q⌋₊ ⌊q⌋₊ : ℤ) else -(clog2Fuel ⌈q⁻¹⌉₊ ⌈q⁻¹⌉₊ : ℤ)

/-- The integer nearest to `q`, the even one of the two when `q` is half-way. -/
def roundHalfEven (q : ℚ) : ℤ :=
  if q - ⌊q⌋ < 1 / 2 then ⌊q⌋
  else if 1 / 2 < q - ⌊q⌋ then ⌊q⌋ + 1
  else if ⌊q⌋ % 2 = 0 then ⌊q⌋ else ⌊q⌋ + 1

namespace Format

/-- The exponent of the unit in the last place of the format at `q ≠ 0`; below the normal
range it is that of the subnormal numbers. -/
def ulpExp (F : Format) (q : ℚ) : ℤ := max (floorLog2 |q|) F.emin - ((F.prec : ℤ) - 1)

/-- The multiple of the unit in the last place nearest to `q`, ties to even. -/
def roundQ (F : Format) (q : ℚ) : ℚ := (roundHalfEven (q / 2 ^ F.ulpExp q) : ℚ) * 2 ^ F.ulpExp q

/-- Rounding of the exact result `q` of an operation to the format (round to nearest, ties to
even, overflow to an infinity); `zneg` is the sign of the result when `q = 0`. -/
def round (F : Format) (q : ℚ) (zneg : Bool) : Flt :=
  if q = 0 then Flt.zero zneg
  else if (2 : ℚ) ^ (F.emax + 1) ≤ |F.roundQ q| then Flt.inf (decide (q < 0))
  else if F.roundQ q = 0 then Flt.zero (decide (q < 0))
  else Flt.num (F.roundQ q)

end Format

namespace Flt

/-- The sign bit of a datum. -/
def signBit : Flt → Bool
  | nan => false
  | inf s => s
  | zero s => s
  | num q => decide (q < 0)

/-- The value of a finite datum (and `0` for the others). -/
def val : Flt → ℚ
  | num q => q
  | _ => 0

/-- The datum is a zero or a finite non-zero number. -/
def isFinite : Flt → Bool
  | zero _ => true
  | num _ => true
  | _ => false

/-- The datum is a NaN. -/
def isNaN : Flt → Bool
  | nan => true
  | _ => false

/-- Unary minus. -/
def neg : Flt → Flt
  | nan => nan
  | inf s => inf (!s)
  | zero s => zero (!s)
  | num q => num (-q)

/-- The function `fabsf`. -/
def abs : Flt → Flt
  | nan => nan
  | inf _ => inf false
  | zero _ => zero false
  | num q => num |q|

/-- The comparison `x < y`: false when one of them is a NaN. -/
def lt : Flt → Flt → Bool
  | nan, _ => false
  | _, nan => false
  | inf s, inf s' => s && !s'
  | inf s, _ => s
  | _, inf s' => !s'
  | x, y => decide (x.val < y.val)

/-- The comparison `x <= y`: false when one of them is a NaN. -/
def le : Flt → Flt → Bool
  | nan, _ => false
  | _, nan => false
  | inf s, inf s' => s || !s'
  | inf s, _ => s
  | _, inf s' => !s'
  | x, y => decide (x.val ≤ y.val)

/-- The function `std::floor`. -/
def floor : Flt → Flt
  | num q => if ⌊q⌋ = 0 then zero false else num (⌊q⌋ : ℚ)
  | x => x

/-- The function `std::ceil`. -/
def ceil : Flt → Flt
  | num q => if ⌈q⌉ = 0 then zero (decide (q < 0)) else num (⌈q⌉ : ℚ)
  | x => x

/-- The function `std::round`: nearest integer, halves away from zero. -/
def round : Flt → Flt
  | num q => if cround q = 0 then zero (decide (q < 0)) else num (cround q : ℚ)
  | x => x

/-- Conversion to an integer type: the fractional part is discarded; the conversion of a NaN or
an infinity is undefined. -/
def trunc : Flt → Option ℤ
  | num q => some (truncate q)
  | zero _ => some 0
  | _ => none

/-- Conversion to `int`: undefined also when the truncated value is not an `int`. -/
def toInt (x : Flt) : Option ℤ :=
  x.trunc.bind fun n => if -2 ^ 31 ≤ n ∧ n < 2 ^ 31 then some n else none

end Flt

namespace Format

/-- The sum `x + y` in the format. -/
def add (F : Format) : Flt → Flt → Flt
  | Flt.nan, _ => Flt.nan
  | _, Flt.nan => Flt.nan
  | Flt.inf s, Flt.inf s' => if s = s' then Flt.inf s else Flt.nan
  | Flt.inf s, _ => Flt.inf s
  | _, Flt.inf s' => Flt.inf s'
  | x, y => F.round (x.val + y.val) (x.signBit && y.signBit)

/-- The difference `x - y` in the format. -/
def sub (F : Format) (x y : Flt) : Flt := F.add x y.neg

/-- The product `x * y` in the format. -/
def mul (F : Format) : Flt → Flt → Flt
  | Flt.nan, _ => Flt.nan
  | _, Flt.nan => Flt.nan
  | Flt.inf s, y => if y.isFinite && decide (y.val = 0) then Flt.nan else Flt.inf (xor s y.signBit)
  | x, Flt.inf s' =>
    if x.isFinite && decide (x.val = 0) then Flt.nan else Flt.inf (xor x.signBit s')
  | x, y => F.round (x.val * y.val) (xor x.signBit y.signBit)

/-- The quotient `x / y` in the format. -/
def div (F : Format) : Flt → Flt → Flt
  | Flt.nan, _ => Flt.nan
  | _, Flt.nan => Flt.nan
  | Flt.inf s, y => if y.isFinite then Flt.inf (xor s y.signBit) else Flt.nan
  | x, Flt.inf s' => Flt.zero (xor x.signBit s')
  | x, y =>
    if y.val = 0 then
      if x.val = 0 then Flt.nan else Flt.inf (xor x.signBit y.signBit)
    else F.round (x.val / y.val) (xor x.signBit y.signBit)

/-- Conversion of an integer to the format. -/
def ofInt (F : Format) (n : ℤ) : Flt := F.round (n : ℚ) false

/-- A decimal literal of the format: the number of the format nearest to `q`. -/
def lit (F : Format) (q : ℚ) : Flt := F.round q false

/-- Conversion to the format of a datum of a wider format. -/
def convert (F : Format) : Flt → Flt
  | Flt.num q => F.round q false
  | x => x

/-- The square root in the format, correctly rounded (`sqrtf` for `binary32`). -/
def sqrt (F : Format) : Flt → Flt
  | Flt.nan => Flt.nan
  | Flt.inf s => if s then Flt.nan else Flt.inf false
  | Flt.zero s => Flt.zero s
  | Flt.num q =>
    if q < 0 then Flt.nan
    else
      let u : ℤ := max (floorLog2 q / 2) F.emin - ((F.prec : ℤ) - 1)
      let n : ℕ := sqrtFuel (log2Fuel ⌊q / 4 ^ u⌋₊ ⌊q / 4 ^ u⌋₊ + 1) ⌊q / 4 ^ u⌋₊
      let mid : ℚ := ((n : ℚ) + 1 / 2) * ((n : ℚ) + 1 / 2)
      let m : ℕ :=
        if q / 4 ^ u < mid then n
        else if mid < q / 4 ^ u then n + 1
        else if n % 2 = 0 then n else n + 1
      Flt.num ((m : ℚ) * 2 ^ u)

end Format

/-- Arithmetic written with `+`, `-`, `*`, `/` on `Flt` is that of the C type `float`. -/
instance : Add Flt := ⟨binary32.add⟩
instance : Sub Flt := ⟨binary32.sub⟩
instance : Mul Flt := ⟨binary32.mul⟩
instance : Div Flt := ⟨binary32.div⟩
instance : Neg Flt := ⟨Flt.neg⟩
instance : LT Flt := ⟨fun x y => Flt.lt x y = true⟩
instance : LE Flt := ⟨fun x y => Flt.le x y = true⟩

instance (x y : Flt) : Decidable (x < y) := by
  show Decidable (Flt.lt x y = true)
  infer_instance

instance (x y : Flt) : Decidable (x ≤ y) := by
  show Decidable (Flt.le x y = true)
  infer_instance

namespace Flt

/-- The function `std::min(a, b)`: `b` when `b < a`, else `a`. -/
def min (a b : Flt) : Flt := if b < a then b else a

/-- The function `std::max(a, b)`: `b` when `a < b`, else `a`. -/
def max (a b : Flt) : Flt := if a < b then b else a

end Flt

/-- A number of the format `F`: an integer significand of less than `prec` bits times a power
of two that is not below the subnormal unit, of magnitude below `2 ^ (emax + 1)`. -/
def Format.Rep (F : Format) (q : ℚ) : Prop :=
  ∃ m e : ℤ, q = (m : ℚ) * 2 ^ e ∧ |m| < 2 ^ F.prec ∧ F.emin - ((F.prec : ℤ) - 1) ≤ e ∧
    |q| < 2 ^ (F.emax + 1)

/-- The datum `x` is finite and its value is `q`. -/
def Flt.Is (x : Flt) (q : ℚ) : Prop := x.isFinite = true ∧ x.val = q

/-! ## The triangle record and the rasterizer in binary32

The same members as above, with every `float` a datum of `binary32` and every operation rounded
as the source rounds it: operands of type `int` are converted to `float` first, an expression
with a `double` literal is computed in `binary64` and converted when it is stored. -/

namespace Binary32

/-- The type `Eigen::Vector2f`. -/
structure Vector2f where
  x : Flt
  y : Flt
deriving DecidableEq, Repr

/-- The type `Eigen::Vector3f`. -/
structure Vector3f where
  x : Flt
  y : Flt
  z : Flt
deriving DecidableEq, Repr

/-- The type `Eigen::Vector4f`. -/
structure Vector4f where
  x : Flt
  y : Flt
  z : Flt
  w : Flt
deriving DecidableEq, Repr

namespace Vector3f

/-- Eigen `a.cross(b)`. -/
def cross (a b : Vector3f) : Vector3f :=
  ⟨a.y * b.z - a.z * b.y, a.z * b.x - a.x * b.z, a.x * b.y - a.y * b.x⟩

/-- Eigen `a.dot(b)`: the three products are added by the unrolled reduction of Eigen, the
first to the sum of the other two. -/
def dot (a b : Vector3f) : Flt := a.x * b.x + (a.y * b.y + a.z * b.z)

/-- Eigen `a + b`. -/
def add (a b : Vector3f) : Vector3f := ⟨a.x + b.x, a.y + b.y, a.z + b.z⟩

/-- Eigen `a * s` for a scalar `s`. -/
def mulScalar (a : Vector3f) (s : Flt) : Vector3f := ⟨a.x * s, a.y * s, a.z * s⟩

/-- Eigen `a / s` for a scalar `s`. -/
def divScalar (a : Vector3f) (s : Flt) : Vector3f := ⟨a.x / s, a.y / s, a.z / s⟩

end Vector3f

/-- The function `insideTriangle(x, y, _v)` of `rasterizer.hpp`, lines 141 to 155. -/
def insideTriangle (x y : Flt) (_v : Fin 3 → Vector3f) : Bool :=
  let v : Fin 3 → Vector3f := fun i => ⟨(_v i).x, (_v i).y, Flt.num 1⟩
  let f0 := (v 1).cross (v 0)
  let f1 := (v 2).cross (v 1)
  let f2 := (v 0).cross (v 2)
  let p : Vector3f := ⟨x, y, Flt.num 1⟩
  if (Flt.zero false < p.dot f0 * f0.dot (v 2)) ∧ (Flt.zero false < p.dot f1 * f1.dot (v 0)) ∧
      (Flt.zero false < p.dot f2 * f2.dot (v 1)) then
    true
  else
    false

/-- The function `computeBarycentric2D(x, y, v)` of `rasterizer.hpp`, lines 157 to 163. -/
def computeBarycentric2D (x y : Flt) (v : Fin 3 → Vector3f) : Flt × Flt × Flt :=
  let c1 := (x * ((v 1).y - (v 2).y) + ((v 2).x - (v 1).x) * y + (v 1).x * (v 2).y
      - (v 2).x * (v 1).y) /
    ((v 0).x * ((v 1).y - (v 2).y) + ((v 2).x - (v 1).x) * (v 0).y + (v 1).x * (v 2).y
      - (v 2).x * (v 1).y)
  let c2 := (x * ((v 2).y - (v 0).y) + ((v 0).x - (v 2).x) * y + (v 2).x * (v 0).y
      - (v 0).x * (v 2).y) /
    ((v 1).x * ((v 2).y - (v 0).y) + ((v 0).x - (v 2).x) * (v 1).y + (v 2).x * (v 0).y
      - (v 0).x * (v 2).y)
  let c3 := (x * ((v 0).y - (v 1).y) + ((v 1).x - (v 0).x) * y + (v 0).x * (v 1).y
      - (v 1).x * (v 0).y) /
    ((v 2).x * ((v 0).y - (v 1).y) + ((v 1).x - (v 0).x) * (v 2).y + (v 0).x * (v 1).y
      - (v 1).x * (v 0).y)
  (c1, c2, c3)

/-- The class `Triangle` with vertex type `V` (`Vector3f` in assignments 1 and 2, `Vector4f` in
assignment 3). -/
structure Triangle (V : Type) where
  v : Fin 3 → V
  color : Fin 3 → Vector3f
  tex_coords : Fin 3 → Vector2f
  normal : Fin 3 → Vector3f

namespace Triangle

variable {V : Type}

/-- The member `Triangle::setVertex(ind, ver)`. -/
def setVertex (t : Triangle V) (ind : Fin 3) (ver : V) : Triangle V :=
  { t with v := Function.update t.v ind ver }

/-- The member `Triangle::setNormal(ind, n)`. -/
def setNormal (t : Triangle V) (ind : Fin 3) (n : Vector3f) : Triangle V :=
  { t with normal := Function.update t.normal ind n }

/-- The member `Triangle::setColor(ind, r, g, b)`, the same text in the three files up to what
the guard does when it fires, which is the argument `fail`.  The comparisons are made in
`double` after the exact conversion of the `float` arguments, the quotients `(float)r / 255.`
are computed in `double` and converted to `float` when the vector is built.  A comparison with
a NaN is false. -/
def setColor (fail : Abort) (t : Triangle V) (ind : Fin 3) (r g b : Flt) :
    Except Abort Unit × Triangle V :=
  if (r < Flt.zero false) ∨ (Flt.num 255 < r) ∨ (g < Flt.zero false) ∨ (Flt.num 255 < g) ∨
      (b < Flt.zero false) ∨ (Flt.num 255 < b) then
    (Except.error fail, t)
  else
    (Except.ok (),
      { t with color := Function.update t.color ind (Vector3f.mk
          (binary32.convert (binary64.div r (Flt.num 255)))
          (binary32.convert (binary64.div g (Flt.num 255)))
          (binary32.convert (binary64.div b (Flt.num 255)))) })

/-- The member `Triangle::setTexCoord(ind, s, t)` of assignments 1 and 2. -/
def setTexCoord (t : Triangle V) (ind : Fin 3) (s t' : Flt) : Triangle V :=
  { t with tex_coords := Function.update t.tex_coords ind ⟨s, t'⟩ }

/-- The member `Triangle::toVector4()` of assignments 1 and 2. -/
def toVector4 (t : Triangle Vector3f) : Fin 3 → Vector4f :=
  fun i => ⟨(t.v i).x, (t.v i).y, (t.v i).z, Flt.num 1⟩

end Triangle

namespace Assignment1

/-- The constructor `Triangle::Triangle()` of `cpp/1/Triangle.hpp`; it leaves `normal`
uninitialised, so the values found there are an argument. -/
def Triangle.new (normal : Fin 3 → Vector3f) : Triangle Vector3f :=
  { v := fun _ => ⟨Flt.zero false, Flt.zero false, Flt.zero false⟩,
    color := fun _ => ⟨Flt.zero false, Flt.zero false, Flt.zero false⟩,
    tex_coords := fun _ => ⟨Flt.zero false, Flt.zero false⟩,
    normal := normal }

/-- The member `Triangle::setColor` of `cpp/1/Triangle.hpp`, lines 55 to 65. -/
def setColor (t : Triangle Vector3f) (ind : Fin 3) (r g b : Flt) :
    Except Abort Unit × Triangle Vector3f :=
  Triangle.setColor GAMES101.Assignment1.invalidColor t ind r g b

end Assignment1

namespace Assignment2

/-- The constructor `Triangle::Triangle()` of `cpp/2/Triangle.hpp`; it leaves `normal`
uninitialised, so the values found there are an argument. -/
def Triangle.new (normal : Fin 3 → Vector3f) : Triangle Vector3f :=
  { v := fun _ => ⟨Flt.zero false, Flt.zero false, Flt.zero false⟩,
    color := fun _ => ⟨Flt.zero false, Flt.zero false, Flt.zero false⟩,
    tex_coords := fun _ => ⟨Flt.zero false, Flt.zero false⟩,
    normal := normal }

/-- The member `Triangle::setColor` of `cpp/2/Triangle.hpp`, lines 58 to 71. -/
def setColor (t : Triangle Vector3f) (ind : Fin 3) (r g b : Flt) :
    Except Abort Unit × Triangle Vector3f :=
  Triangle.setColor GAMES101.Assignment2.invalidColor t ind r g b

/-- The member `Triangle::getColor()` of `cpp/2/Triangle.hpp`, line 28: `color[0] * 255`, the
`int` converted to `float`. -/
def getColor (t : Triangle Vector3f) : Vector3f := (t.color 0).mulScalar (binary32.ofInt 255)

end Assignment2

namespace Assignment3

/-- The constructor `Triangle::Triangle()` of `cpp/3/Triangle.hpp`; it leaves `normal`
uninitialised, so the values found there are an argument. -/
def Triangle.new (normal : Fin 3 → Vector3f) : Triangle Vector4f :=
  { v := fun _ => ⟨Flt.zero false, Flt.zero false, Flt.zero false, Flt.num 1⟩,
    color := fun _ => ⟨Flt.zero false, Flt.zero false, Flt.zero false⟩,
    tex_coords := fun _ => ⟨Flt.zero false, Flt.zero false⟩,
    normal := normal }

/-- The member `Triangle::setColor` of `cpp/3/Triangle.hpp`, lines 62 to 75. -/
def setColor (t : Triangle Vector4f) (ind : Fin 3) (r g b : Flt) :
    Except Abort Unit × Triangle Vector4f :=
  Triangle.setColor GAMES101.Assignment3.invalidColor t ind r g b

/-- The member `Triangle::setTexCoord(ind, uv)` of `cpp/3/Triangle.hpp`. -/
def setTexCoord (t : Triangle Vector4f) (ind : Fin 3) (uv : Vector2f) : Triangle Vector4f :=
  { t with tex_coords := Function.update t.tex_coords ind uv }

/-- The member `Triangle::setNormals(normals)` of `cpp/3/Triangle.hpp`. -/
def setNormals (t : Triangle Vector4f) (normals : Fin 3 → Vector3f) : Triangle Vector4f :=
  ((t.setNormal 0 (normals 0)).setNormal 1 (normals 1)).setNormal 2 (normals 2)

/-- The member `Triangle::setColors(colors)` of `cpp/3/Triangle.hpp`, lines 97 to 103: three
calls of `setColor` in a row, the first failing one ending the call. -/
def setColors (t : Triangle Vector4f) (colors : Fin 3 → Vector3f) :
    Except Abort Unit × Triangle Vector4f :=
  match setColor t 0 (colors 0).x (colors 0).y (colors 0).z with
  | (Except.error e, t0) => (Except.error e, t0)
  | (Except.ok (), t0) =>
    match setColor t0 1 (colors 1).x (colors 1).y (colors 1).z with
    | (Except.error e, t1) => (Except.error e, t1)
    | (Except.ok (), t1) => setColor t1 2 (colors 2).x (colors 2).y (colors 2).z

end Assignment3

/-- The type `Eigen::Matrix4f`, entry `(i, j)` in row `i` and column `j`. -/
abbrev Matrix4f : Type := Fin 4 → Fin 4 → Flt

/-- The data members of the class `rst::rasterizer`, lines 63 and 90 to 108.  A `std::map` is the
list of its key and value pairs. -/
structure rasterizer where
  col_st : List (Flt × Flt × Flt)
  model : Matrix4f
  view : Matrix4f
  projection : Matrix4f
  pos_buf : List (ℤ × List Vector3f)
  ind_buf : List (ℤ × List Vector3i)
  col_buf : List (ℤ × List Vector3f)
  frame_buf : List Vector3f
  depth_buf : List Flt
  color_buf : List Vector3f
  width : ℤ
  height : ℤ
  super_sample : ℤ
  next_id : ℤ

namespace rasterizer

/-- The member `rasterizer::get_index(x, y)`, lines 333 to 340, in `int` arithmetic. -/
def get_index (r : rasterizer) (x y : ℤ) : ℤ :=
  if r.super_sample > 0 then
    (r.height * r.super_sample - 1 - y) * r.width * r.super_sample + x
  else
    (r.height - 1 - y) * r.width + x

/-- The index `ind` computed by `rasterizer::set_pixel`, line 345, a `float`: `height - 1` is
an `int`, then each operation converts its `int` operand to `float` and rounds. -/
def pixel_index (r : rasterizer) (point : Vector3f) : Flt :=
  (binary32.ofInt (r.height - 1) - point.y) * binary32.ofInt r.width + point.x

/-- The member `rasterizer::set_pixel(point, color)`, lines 342 to 347.  Subscripting
`frame_buf` with the `float` index discards its fractional part. -/
def set_pixel (r : rasterizer) (point color : Vector3f) : Option rasterizer :=
  (r.pixel_index point).trunc.bind fun ind =>
    (vecSet r.frame_buf ind color).map fun fb => { r with frame_buf := fb }

/-- The member `rasterizer::clear(buff)`, lines 306 to 316. -/
def clear (r : rasterizer) (buff : Buffers) : rasterizer :=
  let r1 : rasterizer :=
    if Buffers.and buff Buffers.Color = Buffers.Color then
      { r with frame_buf := vecFill r.frame_buf ⟨Flt.zero false, Flt.zero false, Flt.zero false⟩ }
    else r
  if Buffers.and buff Buffers.Depth = Buffers.Depth then
    { r1 with depth_buf := vecFill r1.depth_buf (Flt.inf false) }
  else r1

/-- The depth interpolated by `rasterize_triangle` at the point `(px, py)` (lines 255 to 258 and
275 to 278): `v` is `t.toVector4()`, the weights are those of `computeBarycentric2D`; the
quotient `1.0 / (…)` is computed in `double` and converted to `float`. -/
def z_interpolated (t : Triangle Vector3f) (px py : Flt) : Flt :=
  let v := t.toVector4
  let bary := computeBarycentric2D px py t.v
  let alpha := bary.1
  let beta := bary.2.1
  let gamma := bary.2.2
  let w_reciprocal : Flt :=
    binary32.convert (binary64.div (Flt.num 1) (alpha / (v 0).w + beta / (v 1).w + gamma / (v 2).w))
  let z : Flt := alpha * (v 0).z / (v 0).w + beta * (v 1).z / (v 1).w + gamma * (v 2).z / (v 2).w
  z * w_reciprocal

/-- The body of the innermost loop of the super-sampling branch of `rasterize_triangle` (lines
244 to 264) for pixel `(x, y)` and sub-sample `(i, j)`; the state is the rasterizer together with
the local accumulator `color`. -/
def sample_body (t : Triangle Vector3f) (x y i j : ℤ) (st : rasterizer × Vector3f) :
    Option (rasterizer × Vector3f) :=
  let r := st.1
  let color := st.2
  let sample_x := r.super_sample
  let sample_y := r.super_sample
  let cx : Flt := Flt.num 1 / binary32.ofInt sample_x * Flt.num (1 / 2)
  let cy : Flt := Flt.num 1 / binary32.ofInt sample_y * Flt.num (1 / 2)
  let dx : Flt := Flt.num 1 / binary32.ofInt sample_x * binary32.ofInt i
  let dy : Flt := Flt.num 1 / binary32.ofInt sample_y * binary32.ofInt j
  let xx : Flt := binary32.ofInt x + dx
  let yy : Flt := binary32.ofInt y + dy
  (xx * binary32.ofInt sample_x).round.toInt.bind fun ix =>
  (yy * binary32.ofInt sample_y).round.toInt.bind fun iy =>
  let id := r.get_index ix iy
  if insideTriangle (xx + cx) (yy + cy) t.v = false then
    (vecGet r.color_buf id).map fun c => (r, color.add c)
  else
    let z := z_interpolated t xx yy
    (vecGet r.depth_buf id).bind fun d =>
      if z < d then
        (vecSet r.depth_buf id z).bind fun db =>
          (vecSet r.color_buf id (Assignment2.getColor t)).bind fun cb =>
            (vecGet cb id).map fun c => ({ r with depth_buf := db, color_buf := cb }, color.add c)
      else
        (vecGet r.color_buf id).map fun c => (r, color.add c)

/-- The body of the pixel loop of `rasterize_triangle` (lines 235 to 286) for pixel `(x, y)`. -/
def pixel_body (t : Triangle Vector3f) (r : rasterizer) (x y : ℤ) : Option rasterizer :=
  if r.super_sample > 0 then
    ((countUp r.super_sample).foldlM
        (fun st i => (countUp r.super_sample).foldlM (fun st' j => sample_body t x y i j st') st)
        (r, (⟨Flt.zero false, Flt.zero false, Flt.zero false⟩ : Vector3f))).bind fun st =>
      let color := st.2.divScalar
        (Flt.num 1 * binary32.ofInt r.super_sample * binary32.ofInt r.super_sample)
      st.1.set_pixel ⟨binary32.ofInt x, binary32.ofInt y, Flt.num 1⟩ color
  else
    if insideTriangle (binary32.ofInt x + Flt.num (1 / 2)) (binary32.ofInt y + Flt.num (1 / 2))
        t.v = false then
      some r
    else
      let z := z_interpolated t (binary32.ofInt x) (binary32.ofInt y)
      let id := r.get_index x y
      (vecGet r.depth_buf id).bind fun d =>
        if z < d then
          (r.set_pixel ⟨binary32.ofInt x, binary32.ofInt y, Flt.num 1⟩
              (Assignment2.getColor t)).bind fun r1 =>
            (vecSet r1.depth_buf id z).map fun db => { r1 with depth_buf := db }
        else
          some r

/-- The bounding box computed by `rasterize_triangle`, lines 220 to 228, as
`(minX, minY, maxX, maxY)`. -/
def boundingBox (t : Triangle Vector3f) : Flt × Flt × Flt × Flt :=
  let v := t.toVector4
  [v 0, v 1, v 2].foldl
    (fun b vec =>
      (Flt.min b.1 vec.x, Flt.min b.2.1 vec.y, Flt.max b.2.2.1 vec.x, Flt.max b.2.2.2 vec.y))
    ((v 0).x, (v 0).y, (v 0).x, (v 0).y)

/-- The bounds `int(std::floor(minX))`, `int(std::ceil(maxX))`, `int(std::floor(minY))` and
`int(std::ceil(maxY))` of the two loops of `rasterize_triangle`, lines 231 and 233, in this
order; the conversion of a bound that is not finite or not an `int` is undefined. -/
def loopBounds (t : Triangle Vector3f) : Option (ℤ × ℤ × ℤ × ℤ) :=
  let b := boundingBox t
  b.1.floor.toInt.bind fun x0 => b.2.2.1.ceil.toInt.bind fun x1 =>
  b.2.1.floor.toInt.bind fun y0 => b.2.2.2.ceil.toInt.bind fun y1 => some (x0, x1, y0, y1)

/-- The member `rasterizer::rasterize_triangle(t)`, lines 215 to 289. -/
def rasterize_triangle (r : rasterizer) (t : Triangle Vector3f) : Option rasterizer :=
  (loopBounds t).bind fun b =>
    (intRange b.1 b.2.1).foldlM
      (fun r1 x => (intRange b.2.2.1 b.2.2.2).foldlM (fun r2 y => pixel_body t r2 x y) r1) r

/-- The constant `f1 = (50 - 0.1) / 2.0` of `draw`, line 171: computed in `double` from the
`double` nearest to `0.1`, then converted to `float`. -/
def f1 : Flt :=
  binary32.convert
    (binary64.div (binary64.sub (binary64.ofInt 50) (binary64.lit (1 / 10))) (Flt.num 2))

/-- The constant `f2 = (50 + 0.1) / 2.0` of `draw`, line 172. -/
def f2 : Flt :=
  binary32.convert
    (binary64.div (binary64.add (binary64.ofInt 50) (binary64.lit (1 / 10))) (Flt.num 2))

/-- The viewport transformation of `draw`, lines 190 to 192, applied to one vertex: `x` and `y`
are computed in `double` (the literals `0.5` and `1.0`) and converted to `float` when they are
stored, `z` is computed in `float`. -/
def viewport (r : rasterizer) (vert : Vector4f) : Vector4f :=
  { vert with
    x := binary32.convert (binary64.mul (binary64.mul (Flt.num (1 / 2)) (binary64.ofInt r.width))
      (binary64.add vert.x (Flt.num 1)))
    y := binary32.convert (binary64.mul (binary64.mul (Flt.num (1 / 2)) (binary64.ofInt r.height))
      (binary64.add vert.y (Flt.num 1)))
    z := vert.z * f1 + f2 }

/-- The constructor `rasterizer::rasterizer(w, h, ss)`, lines 318 to 331.  The matrices and the
elements `frame_buf.resize` creates are not initialised by it, so what they hold is an argument
(`garbage k` for element `k`); `col_st`, the three maps and `color_buf` start empty. -/
def new (w h ss : ℤ) (model view projection : Matrix4f) (garbage : ℕ → Vector3f) : rasterizer :=
  { col_st := [], model := model, view := view, projection := projection,
    pos_buf := [], ind_buf := [], col_buf := [],
    frame_buf := (List.range (w * h).toNat).map garbage,
    depth_buf :=
      if ss = 0 then List.replicate (w * h).toNat (Flt.inf false)
      else List.replicate (w * h * ss * ss).toNat (Flt.inf false),
    color_buf :=
      if ss = 0 then []
      else List.replicate (w * h * ss * ss).toNat ⟨Flt.zero false, Flt.zero false, Flt.zero false⟩,
    width := w, height := h, super_sample := ss, next_id := 0 }

end rasterizer

namespace Assignment6

/-- Modelled from the spec: the function `dotProduct(a, b)` of `Vector.hpp`, which is not among
the sources: the three products added from left to right. -/
def dotProduct (a b : Vector3f) : Flt := a.x * b.x + a.y * b.y + a.z * b.z

/-- Modelled from the spec: the function `clamp(lo, hi, v)` of `global.hpp` of assignment 6,
which is not among the sources: `std::max(lo, std::min(hi, v))`. -/
def clamp (lo hi v : Flt) : Flt := Flt.max lo (Flt.min hi v)

/-- The member `Scene::fresnel(I, N, ior, kr)`, lines 88 to 113: the value it leaves in `kr`.
The function `sqrtf` is the correctly rounded square root. -/
def fresnel (I N : Vector3f) (ior : Flt) : Flt :=
  let cosi := clamp (binary32.ofInt (-1)) (binary32.ofInt 1) (dotProduct I N)
  let etai : Flt := binary32.ofInt 1
  let etat : Flt := ior
  let p : Flt × Flt := if Flt.zero false < cosi then (etat, etai) else (etai, etat)
  let etai := p.1
  let etat := p.2
  let sint := etai / etat * binary32.sqrt (Flt.max (Flt.zero false) (binary32.ofInt 1 - cosi * cosi))
  if binary32.ofInt 1 ≤ sint then
    binary32.ofInt 1
  else
    let cost := binary32.sqrt (Flt.max (Flt.zero false) (binary32.ofInt 1 - sint * sint))
    let cosi := cosi.abs
    let Rs := ((etat * cosi) - (etai * cost)) / ((etat * cosi) + (etai * cost))
    let Rp := ((etai * cosi) - (etat * cost)) / ((etai * cosi) + (etat * cost))
    (Rs * Rs + Rp * Rp) / binary32.ofInt 2

end Assignment6

/-! ### Notions used in the statements on the `binary32` model -/

/-- A colour component that is a number of `[0, 1]`. -/
def inUnit (c : Flt) : Prop := c.isFinite = true ∧ 0 ≤ c.val ∧ c.val ≤ 1

/-- A colour whose three components are numbers of `[0, 1]`. -/
def Vector3f.inUnitCube (c : Vector3f) : Prop := inUnit c.x ∧ inUnit c.y ∧ inUnit c.z

/-- A colour each component of which is a number of `[0, 1]` or a NaN. -/
def Vector3f.inUnitCubeOrNaN (c : Vector3f) : Prop :=
  (inUnit c.x ∨ c.x = Flt.nan) ∧ (inUnit c.y ∨ c.y = Flt.nan) ∧ (inUnit c.z ∨ c.z = Flt.nan)

/-- None of the three components is a NaN. -/
def Vector3f.noNaN (c : Vector3f) : Prop := c.x ≠ Flt.nan ∧ c.y ≠ Flt.nan ∧ c.z ≠ Flt.nan

/-- The triangles of assignment 1 obtained from the constructor by calls of the setters that
return normally; with `numbers` set, the colour setter is never given a NaN. -/
inductive Assignment1.Reachable (numbers : Bool) : Triangle Vector3f → Prop where
  | new (normal : Fin 3 → Vector3f) : Assignment1.Reachable numbers (Assignment1.Triangle.new normal)
  | setVertex {t : Triangle Vector3f} (ind : Fin 3) (ver : Vector3f) :
      Assignment1.Reachable numbers t → Assignment1.Reachable numbers (t.setVertex ind ver)
  | setNormal {t : Triangle Vector3f} (ind : Fin 3) (n : Vector3f) :
      Assignment1.Reachable numbers t → Assignment1.Reachable numbers (t.setNormal ind n)
  | setColor {t : Triangle Vector3f} (ind : Fin 3) (r g b : Flt) :
      Assignment1.Reachable numbers t → (Assignment1.setColor t ind r g b).1 = Except.ok () →
      (numbers = true → Vector3f.noNaN ⟨r, g, b⟩) →
      Assignment1.Reachable numbers (Assignment1.setColor t ind r g b).2
  | setTexCoord {t : Triangle Vector3f} (ind : Fin 3) (s t' : Flt) :
      Assignment1.Reachable numbers t → Assignment1.Reachable numbers (t.setTexCoord ind s t')

/-- The triangles of assignment 3 obtained from the constructor by calls of the setters that
return normally; with `numbers` set, the colour setters are never given a NaN. -/
inductive Assignment3.Reachable (numbers : Bool) : Triangle Vector4f → Prop where
  | new (normal : Fin 3 → Vector3f) : Assignment3.Reachable numbers (Assignment3.Triangle.new normal)
  | setVertex {t : Triangle Vector4f} (ind : Fin 3) (ver : Vector4f) :
      Assignment3.Reachable numbers t → Assignment3.Reachable numbers (t.setVertex ind ver)
  | setNormal {t : Triangle Vector4f} (ind : Fin 3) (n : Vector3f) :
      Assignment3.Reachable numbers t → Assignment3.Reachable numbers (t.setNormal ind n)
  | setColor {t : Triangle Vector4f} (ind : Fin 3) (r g b : Flt) :
      Assignment3.Reachable numbers t → (Assignment3.setColor t ind r g b).1 = Except.ok () →
      (numbers = true → Vector3f.noNaN ⟨r, g, b⟩) →
      Assignment3.Reachable numbers (Assignment3.setColor t ind r g b).2
  | setNormals {t : Triangle Vector4f} (normals : Fin 3 → Vector3f) :
      Assignment3.Reachable numbers t → Assignment3.Reachable numbers (Assignment3.setNormals t normals)
  | setColors {t : Triangle Vector4f} (colors : Fin 3 → Vector3f) :
      Assignment3.Reachable numbers t → (Assignment3.setColors t colors).1 = Except.ok () →
      (numbers = true → ∀ i, (colors i).noNaN) →
      Assignment3.Reachable numbers (Assignment3.setColors t colors).2
  | setTexCoord {t : Triangle Vector4f} (ind : Fin 3) (uv : Vector2f) :
      Assignment3.Reachable numbers t → Assignment3.Reachable numbers (Assignment3.setTexCoord t ind uv)

/-- The numbers that `set_pixel` meets when it computes the index of the integer point
`(x, y)` are all integers of magnitude at most `2 ^ 24`, which `binary32` represents exactly:
`height - 1`, `y`, their difference, `width`, the product, `x` and the sum. -/
def rasterizer.IndexExact (r : rasterizer) (x y : ℤ) : Prop :=
  |r.height - 1| ≤ 2 ^ 24 ∧ |y| ≤ 2 ^ 24 ∧ |r.height - 1 - y| ≤ 2 ^ 24 ∧ |r.width| ≤ 2 ^ 24 ∧
    |(r.height - 1 - y) * r.width| ≤ 2 ^ 24 ∧ |x| ≤ 2 ^ 24 ∧
    |(r.height - 1 - y) * r.width + x| ≤ 2 ^ 24

/-- A `w` by `h` rasterizer without super-sampling as the constructor leaves it, with zero
matrices and a zero frame buffer. -/
def raster (w h : ℤ) : rasterizer :=
  rasterizer.new w h 0 (fun _ _ => Flt.zero false) (fun _ _ => Flt.zero false)
    (fun _ _ => Flt.zero false) (fun _ => ⟨Flt.zero false, Flt.zero false, Flt.zero false⟩)

/-- Pixel `(x, y)` is visited by the bounding-box loops of `rasterize_triangle` for `t`
(lines 231 and 233). -/
def visits (t : Triangle Vector3f) (x y : ℤ) : Prop :=
  match rasterizer.loopBounds t with
  | some b => (b.1 ≤ x ∧ x ≤ b.2.1) ∧ (b.2.2.1 ≤ y ∧ y ≤ b.2.2.2)
  | none => False

instance (t : Triangle Vector3f) (x y : ℤ) : Decidable (visits t x y) := by
  unfold visits
  cases rasterizer.loopBounds t <;> infer_instance

/-- The sample point `(x + 0.5, y + 0.5)` of pixel `(x, y)` passes the coverage test of
triangle `t` (the test of line 272). -/
def passes (t : Triangle Vector3f) (x y : ℤ) : Prop :=
  insideTriangle (binary32.ofInt x + Flt.num (1 / 2)) (binary32.ofInt y + Flt.num (1 / 2)) t.v
    = true

instance (t : Triangle Vector3f) (x y : ℤ) : Decidable (passes t x y) := by
  unfold passes
  infer_instance

/-- Pixel `(x, y)` is covered by `t`: the loops reach it and its sample point passes the
coverage test. -/
def covers (t : Triangle Vector3f) (x y : ℤ) : Prop := visits t x y ∧ passes t x y

instance (t : Triangle Vector3f) (x y : ℤ) : Decidable (covers t x y) := by
  unfold covers
  infer_instance

/-- Every pixel covered by `t` lies inside a `w` by `h` image. -/
def coversOnlyInRange (t : Triangle Vector3f) (w h : ℤ) : Prop :=
  ∀ x y : ℤ, covers t x y → (0 ≤ x ∧ x < w) ∧ (0 ≤ y ∧ y < h)

/-- The depth `rasterize_triangle` interpolates for pixel `(x, y)`: at the corner `(x, y)` of the
pixel (line 275). -/
def depth_at (t : Triangle Vector3f) (x y : ℤ) : Flt :=
  rasterizer.z_interpolated t (binary32.ofInt x) (binary32.ofInt y)

/-- A rasterizer without super-sampling whose frame and depth buffers have the size
`width · height` the constructor gives them, for a `w` by `h` image. -/
def rasterizer.WellSized (w h : ℤ) (r : rasterizer) : Prop :=
  r.super_sample = 0 ∧ r.width = w ∧ r.height = h ∧
    (r.frame_buf.length : ℤ) = w * h ∧ (r.depth_buf.length : ℤ) = w * h

/-- The effect of the pixel body without super-sampling on a pixel the loops reach, when no
access is out of range: the depth test at `get_index x y`, writing colour and depth when it
passes. -/
def rasterizer.depth_step (t : Triangle Vector3f) (r : rasterizer) (x y : ℤ) : rasterizer :=
  if covers t x y ∧
      depth_at t x y < (r.depth_buf.get? (r.get_index x y).toNat).getD (Flt.inf false) then
    { r with
      frame_buf := r.frame_buf.set (r.get_index x y).toNat (Assignment2.getColor t)
      depth_buf := r.depth_buf.set (r.get_index x y).toNat (depth_at t x y) }
  else r

/-- What the depth test of triangle `t` at pixel `(x, y)` does to the pair of the colour and the
depth stored for that pixel. -/
def depth_test (t : Triangle Vector3f) (x y : ℤ)
    (o : Option Vector3f × Option Flt) : Option Vector3f × Option Flt :=
  if covers t x y ∧ depth_at t x y < o.2.getD (Flt.inf false) then
    (some (Assignment2.getColor t), some (depth_at t x y))
  else o

/-- The depth buffer of `r'` against that of `r`, entry by entry: an entry is the same datum or
one that compares strictly below it; the super-sampling factor is the same. -/
def rasterizer.DepthNotRaised (r r' : rasterizer) : Prop :=
  r'.super_sample = r.super_sample ∧
  ∀ (i : ℤ) (d : Flt), vecGet r.depth_buf i = some d →
    ∃ d', vecGet r'.depth_buf i = some d' ∧ (d' = d ∨ d' < d)

end Binary32

/-- The datum is an integer of magnitude at most `B`. -/
def Flt.IsInt (B : ℤ) (x : Flt) : Prop :=
  x.isFinite = true ∧ ∃ n : ℤ, x.val = (n : ℚ) ∧ |n| ≤ B

namespace Binary32

/-- The values of the components of a vector. -/
def Vector3f.exact (a : Vector3f) : GAMES101.Vector3f := ⟨a.x.val, a.y.val, a.z.val⟩

/-- A screen-space triangle with the vertices `v` whose colour `color[0]` is set by
`setColor(0, r, g, b)` on a triangle as the constructor leaves it. -/
def paint (v : Fin 3 → Vector3f) (r g b : Flt) : Triangle Vector3f :=
  (Assignment2.setColor
    { Assignment2.Triangle.new (fun _ => ⟨Flt.zero false, Flt.zero false, Flt.num 1⟩) with v := v }
    0 r g b).2

/-- The screen-space triangle `(0,0,5)`, `(2,0,5)`, `(0,2,5)` of colour `(185, 217, 238)`: on a
2 by 2 image it covers pixel `(0, 0)` only, at depth 5. -/
def triangleFar : Triangle Vector3f :=
  paint ![⟨Flt.zero false, Flt.zero false, Flt.num 5⟩, ⟨Flt.num 2, Flt.zero false, Flt.num 5⟩,
    ⟨Flt.zero false, Flt.num 2, Flt.num 5⟩] (Flt.num 185) (Flt.num 217) (Flt.num 238)

/-- The screen-space triangle `(0,0,3)`, `(2,0,3)`, `(0,2,3)` of colour `(217, 238, 185)`: on a
2 by 2 image it covers pixel `(0, 0)` only, at depth 3. -/
def triangleNear : Triangle Vector3f :=
  paint ![⟨Flt.zero false, Flt.zero false, Flt.num 3⟩, ⟨Flt.num 2, Flt.zero false, Flt.num 3⟩,
    ⟨Flt.zero false, Flt.num 2, Flt.num 3⟩] (Flt.num 217) (Flt.num 238) (Flt.num 185)

/-- The screen-space triangle `(0,0,4)`, `(3,1.5,1)`, `(3,3.75,1)` of colour `(217, 238, 185)`.
It reaches beyond the right edge of a 2 by 2 image. -/
def triangleWide : Triangle Vector3f :=
  paint ![⟨Flt.zero false, Flt.zero false, Flt.num 4⟩, ⟨Flt.num 3, Flt.num (3 / 2), Flt.num 1⟩,
    ⟨Flt.num 3, Flt.num (15 / 4), Flt.num 1⟩] (Flt.num 217) (Flt.num 238) (Flt.num 185)

/-- The screen-space triangle `(0,0,5)`, `(3,1.5,-1)`, `(3,3.75,-1)` of colour
`(185, 217, 238)`: the same outline as `triangleWide`. -/
def triangleWideFar : Triangle Vector3f :=
  paint ![⟨Flt.zero false, Flt.zero false, Flt.num 5⟩, ⟨Flt.num 3, Flt.num (3 / 2), Flt.num (-1)⟩,
    ⟨Flt.num 3, Flt.num (15 / 4), Flt.num (-1)⟩] (Flt.num 185) (Flt.num 217) (Flt.num 238)

/-- The screen-space triangle `(0.25,0.25,1)`, `(2,0.25,8)`, `(0.25,2,8)` of colour
`(217, 238, 185)`: it contains the sample point `(0.5, 0.5)` of pixel `(0, 0)` but not the
corner `(0, 0)` of that pixel. -/
def triangleOffset : Triangle Vector3f :=
  paint ![⟨Flt.num (1 / 4), Flt.num (1 / 4), Flt.num 1⟩, ⟨Flt.num 2, Flt.num (1 / 4), Flt.num 8⟩,
    ⟨Flt.num (1 / 4), Flt.num 2, Flt.num 8⟩] (Flt.num 217) (Flt.num 238) (Flt.num 185)

/-- The screen-space triangle `(2,1,1)`, `(3,1,1)`, `(2,3,1)` of colour `(217, 238, 185)`: it
lies to the right of a 2 by 2 image; the only pixel it covers is `(2, 1)`. -/
def triangleBeyond : Triangle Vector3f :=
  paint ![⟨Flt.num 2, Flt.num 1, Flt.num 1⟩, ⟨Flt.num 3, Flt.num 1, Flt.num 1⟩,
    ⟨Flt.num 2, Flt.num 3, Flt.num 1⟩] (Flt.num 217) (Flt.num 238) (Flt.num 185)

/-- The average claim C4 speaks of: the sum of the `N × N` entries of `color_buf` of the
sub-samples of pixel `(x, y)`, sub-sample `(i, j)` at `get_index(x·N + i, y·N + j)`, added in the
order of the loops and divided by `1.0f * N * N` (an entry outside the buffer leaves no
value). -/
def rasterizer.sample_average (r : rasterizer) (x y : ℤ) : Option Vector3f :=
  ((countUp r.super_sample).foldlM
      (fun c i => (countUp r.super_sample).foldlM
        (fun c' j =>
          (vecGet r.color_buf
            (r.get_index (x * r.super_sample + i) (y * r.super_sample + j))).map
              fun e => c'.add e) c)
      (⟨Flt.zero false, Flt.zero false, Flt.zero false⟩ : Vector3f)).map fun c =>
    c.divScalar (Flt.num 1 * binary32.ofInt r.super_sample * binary32.ofInt r.super_sample)

/-- A 1 by 3 rasterizer (one column, three rows) with 2 × 2 super-sampling, as the constructor
leaves it (zero matrices, zero frame buffer). -/
def raster1x3ss2 : rasterizer :=
  rasterizer.new 1 3 2 (fun _ _ => Flt.zero false) (fun _ _ => Flt.zero false)
    (fun _ _ => Flt.zero false) (fun _ => ⟨Flt.zero false, Flt.zero false, Flt.zero false⟩)

/-- The screen-space triangle `(0,1,1)`, `(1,1,1)`, `(0.5,2,1)` of colour `(217, 238, 185)`; its
vertices lie in the 1 by 3 image and its bounding-box loop visits the pixels `(0,1)`, `(0,2)`,
`(1,1)`, `(1,2)`. -/
def triangleApex : Triangle Vector3f :=
  paint ![⟨Flt.zero false, Flt.num 1, Flt.num 1⟩, ⟨Flt.num 1, Flt.num 1, Flt.num 1⟩,
    ⟨Flt.num (1 / 2), Flt.num 2, Flt.num 1⟩] (Flt.num 217) (Flt.num 238) (Flt.num 185)

end Binary32

/-! ## Lemmas on the coverage test -/

/-- Claim C6 (framebuffer clear): after `clear(Color | Depth)`, whatever the rasterizer state
before (super-sampling on or off), every entry of `frame_buf` is `(0,0,0)`, every entry of
`depth_buf` is `+∞`, and both buffers keep their lengths. -/
theorem clear_color_depth (r : rasterizer) :
    (∀ c ∈ (r.clear (Buffers.or Buffers.Color Buffers.Depth)).frame_buf,
      c = (⟨0, 0, 0⟩ : Vector3f)) ∧
    (∀ d ∈ (r.clear (Buffers.or Buffers.Color Buffers.Depth)).depth_buf, d = (⊤ : WithTop ℚ)) ∧
    (r.clear (Buffers.or Buffers.Color Buffers.Depth)).frame_buf.length = r.frame_buf.length ∧
    (r.clear (Buffers.or Buffers.Color Buffers.Depth)).depth_buf.length = r.depth_buf.length := by
  have hc : Buffers.and (Buffers.or Buffers.Color Buffers.Depth) Buffers.Color = Buffers.Color := by
    decide
  have hd : Buffers.and (Buffers.or Buffers.Color Buffers.Depth) Buffers.Depth = Buffers.Depth := by
    decide
  simp only [rasterizer.clear, hc, hd, if_true, vecFill, List.length_map]
  refine ⟨?_, ?_, trivial, trivial⟩
  · intro c hmem
    obtain ⟨_, _, rfl⟩ := List.mem_map.1 hmem
    rfl
  · intro d hmem
    obtain ⟨_, _, rfl⟩ := List.mem_map.1 hmem
    rfl

/-- Discarding the fractional part of an integer leaves it as it is. -/
theorem truncate_intCast (n : ℤ) : truncate (n : ℚ) = n := by
  unfold truncate
  split <;> simp

/-- The row-major index is injective on the columns `0 ≤ x < w`. -/
theorem index_injective (w a b x x' : ℤ) (hx : 0 ≤ x ∧ x < w) (hx' : 0 ≤ x' ∧ x' < w)
    (h : a * w + x = b * w + x') : a = b ∧ x = x' := by
  have hw : 0 < w := lt_of_le_of_lt hx.1 hx.2
  have e1 : (a * w + x) % w = x := by
    rw [add_comm, Int.add_mul_emod_self]
    exact Int.emod_eq_of_lt hx.1 hx.2
  have e2 : (b * w + x') % w = x' := by
    rw [add_comm, Int.add_mul_emod_self]
    exact Int.emod_eq_of_lt hx'.1 hx'.2
  have hxx : x = x' := by rw [← e1, ← e2, h]
  subst hxx
  have h3 : a * w = b * w := by linarith
  exact ⟨mul_right_cancel₀ (ne_of_gt hw) h3, rfl⟩

/-! ## The colour setter -/

/-- The guard of `setColor` fires exactly on a component outside `[0, 255]`, and then the
triangle is left as it was. -/
theorem Triangle.setColor_error_iff {V : Type} (fail : Abort) (t : Triangle V) (ind : Fin 3)
    (r g b : ℚ) :
    ((Triangle.setColor fail t ind r g b).1 = Except.error fail ↔
      (r < 0 ∨ r > 255) ∨ (g < 0 ∨ g > 255) ∨ (b < 0 ∨ b > 255)) ∧
    ((Triangle.setColor fail t ind r g b).1 = Except.ok () ∨
      (Triangle.setColor fail t ind r g b).1 = Except.error fail) ∧
    ((Triangle.setColor fail t ind r g b).1 = Except.error fail →
      (Triangle.setColor fail t ind r g b).2 = t) := by
  unfold Triangle.setColor
  by_cases h : (r < 0) ∨ (r > 255) ∨ (g < 0) ∨ (g > 255) ∨ (b < 0) ∨ (b > 255)
  · rw [if_pos h]
    refine ⟨⟨fun _ => ?_, fun _ => rfl⟩, Or.inr rfl, fun _ => rfl⟩
    tauto
  · rw [if_neg h]
    refine ⟨⟨fun h' => ?_, fun h' => ?_⟩, Or.inl rfl, fun h' => ?_⟩
    · exact absurd h' (by simp)
    · exact absurd (by tauto) h
    · exact absurd h' (by simp)

/-- Claim C9 (invalid colour): in each of the three `Triangle.hpp`, `setColor(ind, r, g, b)`
fails if and only if one of `r`, `g`, `b` is below 0 or above 255 (otherwise it returns
normally), and when it fails the triangle, its stored colours included, is as before the
call. -/
theorem setColor_fails_iff (ind : Fin 3) (r g b : ℚ) :
    (∀ t : Triangle Vector3f,
      ((∃ e, (Assignment1.setColor t ind r g b).1 = Except.error e) ↔
        (r < 0 ∨ r > 255) ∨ (g < 0 ∨ g > 255) ∨ (b < 0 ∨ b > 255)) ∧
      ((¬ ∃ e, (Assignment1.setColor t ind r g b).1 = Except.error e) →
        (Assignment1.setColor t ind r g b).1 = Except.ok ()) ∧
      ((∃ e, (Assignment1.setColor t ind r g b).1 = Except.error e) →
        (Assignment1.setColor t ind r g b).2 = t)) ∧
    (∀ t : Triangle Vector3f,
      ((∃ e, (Assignment2.setColor t ind r g b).1 = Except.error e) ↔
        (r < 0 ∨ r > 255) ∨ (g < 0 ∨ g > 255) ∨ (b < 0 ∨ b > 255)) ∧
      ((¬ ∃ e, (Assignment2.setColor t ind r g b).1 = Except.error e) →
        (Assignment2.setColor t ind r g b).1 = Except.ok ()) ∧
      ((∃ e, (Assignment2.setColor t ind r g b).1 = Except.error e) →
        (Assignment2.setColor t ind r g b).2 = t)) ∧
    (∀ t : Triangle Vector4f,
      ((∃ e, (Assignment3.setColor t ind r g b).1 = Except.error e) ↔
        (r < 0 ∨ r > 255) ∨ (g < 0 ∨ g > 255) ∨ (b < 0 ∨ b > 255)) ∧
      ((¬ ∃ e, (Assignment3.setColor t ind r g b).1 = Except.error e) →
        (Assignment3.setColor t ind r g b).1 = Except.ok ()) ∧
      ((∃ e, (Assignment3.setColor t ind r g b).1 = Except.error e) →
        (Assignment3.setColor t ind r g b).2 = t)) := by
  have key : ∀ (V : Type) (fail : Abort) (t : Triangle V),
      ((∃ e, (Triangle.setColor fail t ind r g b).1 = Except.error e) ↔
        (r < 0 ∨ r > 255) ∨ (g < 0 ∨ g > 255) ∨ (b < 0 ∨ b > 255)) ∧
      ((¬ ∃ e, (Triangle.setColor fail t ind r g b).1 = Except.error e) →
        (Triangle.setColor fail t ind r g b).1 = Except.ok ()) ∧
      ((∃ e, (Triangle.setColor fail t ind r g b).1 = Except.error e) →
        (Triangle.setColor fail t ind r g b).2 = t) := by
    intro V fail t
    obtain ⟨h1, h2, h3⟩ := Triangle.setColor_error_iff fail t ind r g b
    have hex : (∃ e, (Triangle.setColor fail t ind r g b).1 = Except.error e) ↔
        (Triangle.setColor fail t ind r g b).1 = Except.error fail := by
      constructor
      · rintro ⟨e, he⟩
        rcases h2 with h | h
        · rw [h] at he; exact absurd he (by simp)
        · exact h
      · intro h; exact ⟨fail, h⟩
    refine ⟨hex.trans h1, fun hn => ?_, fun he => h3 (hex.1 he)⟩
    rcases h2 with h | h
    · exact h
    · exact absurd (hex.2 h) hn
  exact ⟨fun t => key _ _ t, fun t => key _ _ t, fun t => key _ _ t⟩

/-- Instance of `setColor_fails_iff`: the colour `(256, 0, 0)` makes `setColor` of assignment 1
throw, and the freshly constructed triangle is as before the call. -/
theorem setColor_fails_iff_witness :
    (∃ e, (Assignment1.setColor (Assignment1.Triangle.new fun _ => ⟨0, 0, 1⟩) 0 256 0 0).1
      = Except.error e) ∧
    (Assignment1.setColor (Assignment1.Triangle.new fun _ => ⟨0, 0, 1⟩) 0 256 0 0).2
      = Assignment1.Triangle.new fun _ => ⟨0, 0, 1⟩ :=
  have h := (setColor_fails_iff 0 256 0 0).1 (Assignment1.Triangle.new fun _ => ⟨0, 0, 1⟩)
  ⟨h.1.2 (Or.inl (Or.inr (by decide!))), h.2.2 (h.1.2 (Or.inl (Or.inr (by decide!))))⟩

/-! ## Rasterization without super-sampling -/

/-- A monadic fold whose steps all succeed is the pure fold of their results. -/
theorem foldlM_eq_some_foldl {σ α : Type} (f : σ → α → Option σ) (step : σ → α → σ)
    (Inv : σ → Prop) (hstep : ∀ s a, Inv s → f s a = some (step s a))
    (hinv : ∀ s a, Inv s → Inv (step s a)) (L : List α) :
    ∀ s, Inv s → L.foldlM f s = some (L.foldl step s) ∧ Inv (L.foldl step s) := by
  induction L with
  | nil => intro s hs; exact ⟨rfl, hs⟩
  | cons a L ih =>
    intro s hs
    rw [List.foldlM_cons, hstep s a hs]
    exact ih (step s a) (hinv s a hs)

/-- An observation that only the step at `a₀` changes, and then by an idempotent map `g`, is
changed by a fold exactly when `a₀` occurs in the list. -/
theorem foldl_obs {σ α β : Type} [DecidableEq α] (step : σ → α → σ) (obs : σ → β)
    (Inv : σ → Prop) (g : β → β) (a₀ : α)
    (hinv : ∀ s a, Inv s → Inv (step s a))
    (hne : ∀ s a, Inv s → a ≠ a₀ → obs (step s a) = obs s)
    (heq : ∀ s, Inv s → obs (step s a₀) = g (obs s))
    (hg : ∀ b, g (g b) = g b) (L : List α) :
    ∀ s, Inv s → obs (L.foldl step s) = if a₀ ∈ L then g (obs s) else obs s := by
  induction L with
  | nil => intro s _; simp
  | cons a L ih =>
    intro s hs
    rw [List.foldl_cons, ih (step s a) (hinv s a hs)]
    by_cases ha : a = a₀
    · subst ha
      rw [heq s hs, hg]
      simp
    · rw [hne s a hs ha]
      have : (a₀ ∈ a :: L) ↔ a₀ ∈ L := by
        simp only [List.mem_cons]
        constructor
        · rintro (h | h)
          · exact absurd h.symm ha
          · exact h
        · exact Or.inr
      simp only [this]

/-- Membership in the values of a `for` loop over `a..b`. -/
theorem mem_intRange (a b x : ℤ) : x ∈ intRange a b ↔ a ≤ x ∧ x ≤ b := by
  unfold intRange
  simp only [List.mem_map, List.mem_range]
  constructor
  · rintro ⟨k, hk, rfl⟩
    have h1 : (k : ℤ) < b + 1 - a := Int.lt_toNat.mp hk
    have h2 : (0 : ℤ) ≤ (k : ℤ) := Int.natCast_nonneg k
    constructor <;> linarith
  · intro h
    have h0 : 0 ≤ x - a := by linarith [h.1]
    refine ⟨(x - a).toNat, ?_, ?_⟩
    · rw [Int.lt_toNat, Int.toNat_of_nonneg h0]
      linarith [h.2]
    · rw [Int.toNat_of_nonneg h0]
      ring

/-- An in-range pixel has its row-major index inside the buffer. -/
theorem index_in_range (w h x y : ℤ) (hx : 0 ≤ x ∧ x < w) (hy : 0 ≤ y ∧ y < h) :
    0 ≤ (h - 1 - y) * w + x ∧ (h - 1 - y) * w + x < w * h := by
  have hw : 0 ≤ w := by linarith [hx.1, hx.2]
  constructor
  · have : 0 ≤ (h - 1 - y) * w := mul_nonneg (by linarith [hy.2]) hw
    linarith [hx.1]
  · have : 0 ≤ y * w := mul_nonneg hy.1 hw
    nlinarith [hx.2]

/-- Reading a vector at an index inside its range. -/
theorem vecGet_eq_get? {α : Type} (buf : List α) (i : ℤ) (h0 : 0 ≤ i) :
    vecGet buf i = buf.get? i.toNat := by
  unfold vecGet
  rw [if_pos h0]

/-- Writing a vector at an index inside its range. -/
theorem vecSet_eq_some {α : Type} (buf : List α) (i : ℤ) (a : α) (h0 : 0 ≤ i)
    (h1 : i < buf.length) : vecSet buf i a = some (buf.set i.toNat a) := by
  unfold vecSet
  rw [if_pos ⟨h0, h1⟩]

/-- An index inside the range of a vector, as a natural number. -/
theorem toNat_lt_length {α : Type} (buf : List α) (i : ℤ) (h0 : 0 ≤ i)
    (h1 : i < buf.length) : i.toNat < buf.length := by
  have := Int.toNat_of_nonneg h0
  omega

/-- An entry inside the range of a vector can be read. -/
theorem vecGet_isSome {α : Type} (buf : List α) (i : ℤ) (h0 : 0 ≤ i) (h1 : i < buf.length) :
    ∃ a, vecGet buf i = some a := by
  have hlt := toNat_lt_length buf i h0 h1
  exact ⟨buf[i.toNat], by
    rw [vecGet_eq_get? _ _ h0, List.get?_eq_getElem?, List.getElem?_eq_getElem hlt]⟩

/-- Reading back the entry just written. -/
theorem vecGet_set_self {α : Type} (buf : List α) (i : ℤ) (a : α) (h0 : 0 ≤ i)
    (h1 : i < buf.length) : vecGet (buf.set i.toNat a) i = some a := by
  have hlt := toNat_lt_length buf i h0 h1
  rw [vecGet_eq_get? _ _ h0, List.get?_eq_getElem?]
  simp [hlt]

/-- Reading an entry other than the one just written. -/
theorem vecGet_set_ne {α : Type} (buf : List α) (i k : ℤ) (a : α) (h0 : 0 ≤ i) (hne : k ≠ i) :
    vecGet (buf.set i.toNat a) k = vecGet buf k := by
  unfold vecGet
  split
  · rename_i hk
    have hdiff : i.toNat ≠ k.toNat := by
      intro heq
      apply hne
      rw [← Int.toNat_of_nonneg hk, ← Int.toNat_of_nonneg h0, heq]
    rw [List.get?_eq_getElem?, List.get?_eq_getElem?, List.getElem?_set_ne hdiff]
  · rfl

/-! ## Buffer ids -/

/-- A key found before `emplace` is found after it, with the same value. -/
theorem mapFind_emplace_of_some {β : Type} (m : List (ℤ × β)) (k j : ℤ) (b c : β)
    (h : rasterizer.mapFind m j = some c) : rasterizer.mapFind (rasterizer.mapEmplace m k b) j = some c := by
  unfold rasterizer.mapEmplace
  split
  · exact h
  · unfold rasterizer.mapFind at h ⊢
    rw [List.find?_append]
    cases hf : List.find? (fun e => decide (e.1 = j)) m with
    | none => rw [hf] at h; exact absurd h (by simp)
    | some e => rw [hf] at h; simpa using h

/-- After `emplace` on an absent key the key holds the value given. -/
theorem mapFind_emplace_self {β : Type} (m : List (ℤ × β)) (k : ℤ) (b : β)
    (h : rasterizer.mapFind m k = none) : rasterizer.mapFind (rasterizer.mapEmplace m k b) k = some b := by
  unfold rasterizer.mapEmplace
  rw [h]
  unfold rasterizer.mapFind at h ⊢
  rw [List.find?_append]
  cases hf : List.find? (fun e => decide (e.1 = k)) m with
  | none => simp
  | some e => rw [hf] at h; exact absurd h (by simp)

/-- The call `emplace` on key `k` leaves the lookup of every other key as it was. -/
theorem mapFind_emplace_ne {β : Type} (m : List (ℤ × β)) (k j : ℤ) (b : β) (hne : j ≠ k) :
    rasterizer.mapFind (rasterizer.mapEmplace m k b) j = rasterizer.mapFind m j := by
  unfold rasterizer.mapEmplace
  split
  · rfl
  · unfold rasterizer.mapFind
    rw [List.find?_append]
    cases hf : List.find? (fun e => decide (e.1 = j)) m with
    | none =>
      have : ¬ k = j := fun h => hne h.symm
      simp [this]
    | some e => simp

/-- Each loader returns `next_id` and increments it. -/
theorem load_id (r : rasterizer) (c : LoadCall) :
    (r.load c).1 = r.next_id ∧ (r.load c).2.next_id = r.next_id + 1 := by
  cases c <;> exact ⟨rfl, rfl⟩

/-- The ids returned by a sequence of loader calls count up from `next_id`. -/
theorem loads_ids (cs : List LoadCall) : ∀ r : rasterizer,
    (r.loads cs).1 = (List.range cs.length).map (fun (n : ℕ) => r.next_id + (n : ℤ)) ∧
    (r.loads cs).2.next_id = r.next_id + (cs.length : ℤ) := by
  induction cs with
  | nil => intro r; simp [rasterizer.loads]
  | cons c cs ih =>
    intro r
    obtain ⟨h1, h2⟩ := ih (r.load c).2
    obtain ⟨e1, e2⟩ := load_id r c
    constructor
    · show (r.load c).1 :: ((r.load c).2.loads cs).1 = _
      rw [h1, e1, e2, List.length_cons, List.range_succ_eq_map, List.map_cons, List.map_map]
      simp only [Nat.cast_zero, add_zero, List.cons.injEq, true_and]
      apply List.map_congr_left
      intro n _
      simp only [Function.comp, Nat.cast_succ]
      ring
    · show ((r.load c).2.loads cs).2.next_id = _
      rw [h2, e2, List.length_cons]
      push_cast
      ring

/-- A loader call keeps every stored buffer, keeps all keys below `next_id`, and stores the
buffer it is given under the id it returns. -/
theorem load_spec (r : rasterizer) (c : LoadCall) :
    ((∀ k b, rasterizer.mapFind r.pos_buf k = some b → rasterizer.mapFind (r.load c).2.pos_buf k = some b) ∧
      (∀ k b, rasterizer.mapFind r.ind_buf k = some b → rasterizer.mapFind (r.load c).2.ind_buf k = some b) ∧
      (∀ k b, rasterizer.mapFind r.col_buf k = some b → rasterizer.mapFind (r.load c).2.col_buf k = some b)) ∧
    (∀ k, k ≠ (r.load c).1 →
      rasterizer.mapFind (r.load c).2.pos_buf k = rasterizer.mapFind r.pos_buf k ∧
      rasterizer.mapFind (r.load c).2.ind_buf k = rasterizer.mapFind r.ind_buf k ∧
      rasterizer.mapFind (r.load c).2.col_buf k = rasterizer.mapFind r.col_buf k) ∧
    (r.IdsIssued → (r.load c).2.IdsIssued ∧ (r.load c).2.holds c (r.load c).1) := by
  cases c with
  | positions l =>
    refine ⟨⟨fun k b h => mapFind_emplace_of_some _ _ _ _ _ h, fun k b h => h, fun k b h => h⟩,
      fun k hk => ⟨mapFind_emplace_ne _ _ _ _ hk, rfl, rfl⟩, fun hi => ⟨?_, ?_⟩⟩
    · intro k hk
      have hk' : r.next_id ≤ k := by
        have : r.next_id + 1 ≤ k := hk
        linarith
      have hne : k ≠ r.next_id := by
        have : r.next_id + 1 ≤ k := hk
        intro h; rw [h] at this; linarith
      obtain ⟨a, b, c⟩ := hi k hk'
      exact ⟨(mapFind_emplace_ne _ _ _ _ hne).trans a, b, c⟩
    · exact mapFind_emplace_self _ _ _ (hi r.next_id le_rfl).1
  | indices l =>
    refine ⟨⟨fun k b h => h, fun k b h => mapFind_emplace_of_some _ _ _ _ _ h, fun k b h => h⟩,
      fun k hk => ⟨rfl, mapFind_emplace_ne _ _ _ _ hk, rfl⟩, fun hi => ⟨?_, ?_⟩⟩
    · intro k hk
      have hk' : r.next_id ≤ k := by
        have : r.next_id + 1 ≤ k := hk
        linarith
      have hne : k ≠ r.next_id := by
        have : r.next_id + 1 ≤ k := hk
        intro h; rw [h] at this; linarith
      obtain ⟨a, b, c⟩ := hi k hk'
      exact ⟨a, (mapFind_emplace_ne _ _ _ _ hne).trans b, c⟩
    · exact mapFind_emplace_self _ _ _ (hi r.next_id le_rfl).2.1
  | colors l =>
    refine ⟨⟨fun k b h => h, fun k b h => h, fun k b h => mapFind_emplace_of_some _ _ _ _ _ h⟩,
      fun k hk => ⟨rfl, rfl, mapFind_emplace_ne _ _ _ _ hk⟩, fun hi => ⟨?_, ?_⟩⟩
    · intro k hk
      have hk' : r.next_id ≤ k := by
        have : r.next_id + 1 ≤ k := hk
        linarith
      have hne : k ≠ r.next_id := by
        have : r.next_id + 1 ≤ k := hk
        intro h; rw [h] at this; linarith
      obtain ⟨a, b, c⟩ := hi k hk'
      exact ⟨a, b, (mapFind_emplace_ne _ _ _ _ hne).trans c⟩
    · exact mapFind_emplace_self _ _ _ (hi r.next_id le_rfl).2.2

/-- A sequence of loader calls keeps all keys below `next_id`. -/
theorem loads_idsIssued (cs : List LoadCall) : ∀ r : rasterizer, r.IdsIssued →
    (r.loads cs).2.IdsIssued := by
  induction cs with
  | nil => intro r h; exact h
  | cons c cs ih =>
    intro r h
    exact ih _ ((load_spec r c).2.2 h).1

/-- The constructor leaves the three maps empty and `next_id` at zero. -/
theorem new_idsIssued (w h ss : ℤ) (m v p : Matrix4f) (g : ℕ → Vector3f) :
    (rasterizer.new w h ss m v p g).IdsIssued ∧ (rasterizer.new w h ss m v p g).next_id = 0 :=
  ⟨fun _ _ => ⟨rfl, rfl, rfl⟩, rfl⟩

/-! ## Unchecked buffer ids and pixel coordinates -/

/-- Subscripting a map with an absent key leaves the key with an empty buffer. -/
theorem mapIndex_absent {β : Type} (m : List (ℤ × List β)) (k : ℤ)
    (h : rasterizer.mapFind m k = none) :
    (rasterizer.mapIndex m k).1 = [] ∧ rasterizer.mapFind (rasterizer.mapIndex m k).2 k = some [] := by
  unfold rasterizer.mapIndex
  rw [h]
  refine ⟨rfl, ?_⟩
  unfold rasterizer.mapFind at h ⊢
  rw [List.find?_append]
  cases hf : List.find? (fun e => decide (e.1 = k)) m with
  | none => simp
  | some e => rw [hf] at h; exact absurd h (by simp)

/-- Subscripting a map with a present key returns its buffer and leaves the map as it is. -/
theorem mapIndex_present {β : Type} (m : List (ℤ × List β)) (k : ℤ) (b : List β)
    (h : rasterizer.mapFind m k = some b) :
    rasterizer.mapIndex m k = (b, m) := by
  unfold rasterizer.mapIndex
  rw [h]

/-- Claim C12, amended (invalid buffer ids): `draw` does not check its ids; an id that is not
a key of its map is inserted there with an empty buffer.  When the index id is not a key of
`ind_buf`, or its buffer is empty, no triangle is drawn: whatever the position and colour ids,
`draw` completes normally and leaves `frame_buf`, `depth_buf` and `color_buf` unchanged. -/
theorem draw_without_triangles (r : rasterizer) (pos ind col : ℤ) (type : Primitive)
    (normal : Fin 3 → Vector3f)
    (h : rasterizer.mapFind r.ind_buf ind = none ∨ rasterizer.mapFind r.ind_buf ind = some []) :
    ∃ r' : rasterizer, r.draw pos ind col type normal = some (Except.ok r') ∧
      r'.frame_buf = r.frame_buf ∧ r'.depth_buf = r.depth_buf ∧ r'.color_buf = r.color_buf ∧
      (rasterizer.mapFind r.pos_buf pos = none → rasterizer.mapFind r'.pos_buf pos = some []) ∧
      (rasterizer.mapFind r.ind_buf ind = none → rasterizer.mapFind r'.ind_buf ind = some []) ∧
      (rasterizer.mapFind r.col_buf col = none → rasterizer.mapFind r'.col_buf col = some []) := by
  have hi : (rasterizer.mapIndex r.ind_buf ind).1 = [] := by
    rcases h with h | h
    · exact (mapIndex_absent _ _ h).1
    · rw [mapIndex_present _ _ _ h]
  refine ⟨{ r with pos_buf := (rasterizer.mapIndex r.pos_buf pos).2,
                   ind_buf := (rasterizer.mapIndex r.ind_buf ind).2,
                   col_buf := (rasterizer.mapIndex r.col_buf col).2 }, ?_, rfl, rfl, rfl,
    fun hp => (mapIndex_absent _ _ hp).2, fun hp => (mapIndex_absent _ _ hp).2,
    fun hp => (mapIndex_absent _ _ hp).2⟩
  unfold rasterizer.draw
  simp only [hi, List.foldlM_nil]
  rfl

/-- Instance of `draw_without_triangles`: a draw with three ids on a rasterizer that has issued
none. -/
theorem draw_without_triangles_witness :
    ∃ r' : rasterizer,
      raster2x2.draw 7 8 9 Primitive.Triangle (fun _ => ⟨0, 0, 1⟩) = some (Except.ok r') ∧
      r'.frame_buf = raster2x2.frame_buf ∧ r'.depth_buf = raster2x2.depth_buf ∧
      r'.color_buf = raster2x2.color_buf ∧
      (rasterizer.mapFind raster2x2.pos_buf 7 = none → rasterizer.mapFind r'.pos_buf 7 = some []) ∧
      (rasterizer.mapFind raster2x2.ind_buf 8 = none → rasterizer.mapFind r'.ind_buf 8 = some []) ∧
      (rasterizer.mapFind raster2x2.col_buf 9 = none → rasterizer.mapFind r'.col_buf 9 = some []) :=
  draw_without_triangles raster2x2 7 8 9 Primitive.Triangle (fun _ => ⟨0, 0, 1⟩) (Or.inl rfl)

/-- Counterexample to claim C12 as stated: the fresh 2 by 2 rasterizer has issued no id
(`next_id = 0`, the three maps are empty), and `draw` with the ids 0, 0, 0 completes normally
instead of failing. -/
theorem draw_unissued_counterexample :
    raster2x2.next_id = 0 ∧ rasterizer.mapFind raster2x2.pos_buf 0 = none ∧
    rasterizer.mapFind raster2x2.ind_buf 0 = none ∧ rasterizer.mapFind raster2x2.col_buf 0 = none ∧
    ∃ r' : rasterizer,
      raster2x2.draw 0 0 0 Primitive.Triangle (fun _ => ⟨0, 0, 1⟩) = some (Except.ok r') :=
  ⟨rfl, rfl, rfl, rfl, ⟨_, rfl⟩⟩

/-! ## Degenerate triangles and the edge of the image -/

/-- Claim C15 fails on the code: on the 2 by 2 image with 2 × 2 super-sampling, whose buffers
have the sizes 4, 16 and 16 the constructor gives them, the triangle `(0,0)`, `(2,0)`, `(0,2)` has
its vertices in `[0, width] × [0, height]`.  The bounding-box loop visits pixel `(0, 2)`, above
the image, whose first sub-sample has index `get_index(0, 4) = −4`; the sub-sample is not
covered, so line 252 reads `color_buf[−4]`, and the run does not return normally. -/
theorem supersample_out_of_range :
    (∀ i : Fin 3, (0 ≤ (triangleFar.v i).x ∧ (triangleFar.v i).x ≤ (raster2x2ss2.width : ℚ)) ∧
      (0 ≤ (triangleFar.v i).y ∧ (triangleFar.v i).y ≤ (raster2x2ss2.height : ℚ))) ∧
    (raster2x2ss2.super_sample = 2 ∧ raster2x2ss2.frame_buf.length = 4 ∧
      raster2x2ss2.depth_buf.length = 16 ∧ raster2x2ss2.color_buf.length = 16) ∧
    visits triangleFar 0 2 ∧
    raster2x2ss2.get_index (0 * 2 + 0) (2 * 2 + 0) = -4 ∧
    insideTriangle (0 + 1 / 2 * (1 / 2)) (2 + 1 / 2 * (1 / 2)) triangleFar.v = false ∧
    vecGet raster2x2ss2.color_buf (-4) = none ∧
    (raster2x2ss2.rasterize_triangle triangleFar).isSome = false := by
  refine ⟨by decide!, by decide, by decide!, by decide, by decide!, by decide, by decide!⟩

/-! ## Reflectance and refraction -/

namespace Assignment6

section

variable {K : Type} [LinearOrderedField K]

/-- The function `fresnel` swaps the two indices when the clamped cosine is positive. -/
theorem fresnel_eq (sqrtf : K → K) (I N : Vector3f K) (ior : K) :
    fresnel sqrtf I N ior =
      if clamp (-1) 1 (dotProduct I N) > 0 then
        fresnel_kr sqrtf ior 1 (clamp (-1) 1 (dotProduct I N))
      else fresnel_kr sqrtf 1 ior (clamp (-1) 1 (dotProduct I N)) := by
  unfold fresnel fresnel_kr
  by_cases h : clamp (-1) 1 (dotProduct I N) > 0
  · simp only [h, if_true]
  · simp only [h, if_false]

/-- The square of a quotient `(p - q) / (p + q)` of numbers that are not negative is at most
one. -/
theorem ratio_sq_le_one (p q : K) (hp : 0 ≤ p) (hq : 0 < q) :
    (p - q) / (p + q) * ((p - q) / (p + q)) ≤ 1 := by
  have hpq : 0 < p + q := by linarith
  rw [div_mul_div_comm, div_le_one (mul_pos hpq hpq)]
  nlinarith [mul_nonneg hp hq.le]

/-- The reflectance is a fraction, for two positive indices. -/
theorem fresnel_kr_range {sqrtf : K → K} (hs : IsSqrt sqrtf) (etai etat c : K)
    (hi : 0 < etai) (ht : 0 < etat) :
    0 ≤ fresnel_kr sqrtf etai etat c ∧ fresnel_kr sqrtf etai etat c ≤ 1 := by
  unfold fresnel_kr
  simp only []
  split_ifs with h
  · exact ⟨zero_le_one, le_refl _⟩
  · set sint := etai / etat * sqrtf (max 0 (1 - c * c)) with hsint
    have h1 : sint < 1 := not_le.1 h
    have h0 : 0 ≤ sint :=
      mul_nonneg (div_pos hi ht).le (hs _ (le_max_left _ _)).1
    have hpos : 0 < 1 - sint * sint := by nlinarith
    obtain ⟨hc0, hc1⟩ := hs (max 0 (1 - sint * sint)) (le_max_left _ _)
    set cost := sqrtf (max 0 (1 - sint * sint)) with hcost
    rw [max_eq_right hpos.le] at hc1
    have hcpos : 0 < cost := by
      rcases eq_or_lt_of_le hc0 with h' | h'
      · rw [← h'] at hc1
        simp at hc1
        linarith
      · exact h'
    have ha : 0 ≤ |c| := abs_nonneg c
    have hRs := ratio_sq_le_one (etat * |c|) (etai * cost) (mul_nonneg ht.le ha) (mul_pos hi hcpos)
    have hRp := ratio_sq_le_one (etai * |c|) (etat * cost) (mul_nonneg hi.le ha) (mul_pos ht hcpos)
    constructor
    · have := mul_self_nonneg ((etat * |c| - etai * cost) / (etat * |c| + etai * cost))
      have := mul_self_nonneg ((etai * |c| - etat * cost) / (etai * |c| + etat * cost))
      linarith
    · linarith

/-- Claim C16 (the reflectance is a fraction): for every refractive index `ior > 0` and all
vectors `I` and `N` (unit or not: the cosine is clamped), with a `sqrtf` that returns the root
that is not negative, the value `fresnel(I, N, ior, kr)` leaves in `kr` satisfies
`0 ≤ kr ≤ 1`. -/
theorem fresnel_is_fraction {sqrtf : K → K} (hs : IsSqrt sqrtf) (I N : Vector3f K) (ior : K)
    (hior : 0 < ior) :
    0 ≤ fresnel sqrtf I N ior ∧ fresnel sqrtf I N ior ≤ 1 := by
  rw [fresnel_eq]
  split_ifs
  · exact fresnel_kr_range hs ior 1 _ hior zero_lt_one
  · exact fresnel_kr_range hs 1 ior _ zero_lt_one hior

/-- The real square root is a `sqrtf` in the sense of `IsSqrt`. -/
theorem isSqrt_real : IsSqrt Real.sqrt :=
  fun x hx => ⟨Real.sqrt_nonneg x, Real.mul_self_sqrt hx⟩

/-- An instance of `fresnel_is_fraction`: the real square root, head-on incidence on glass. -/
theorem fresnel_is_fraction_witness :
    IsSqrt Real.sqrt ∧ (0 : ℝ) < 3 / 2 ∧
    0 ≤ fresnel Real.sqrt ⟨0, 0, -1⟩ ⟨0, 0, 1⟩ (3 / 2) ∧
    fresnel Real.sqrt ⟨0, 0, -1⟩ ⟨0, 0, 1⟩ (3 / 2) ≤ 1 :=
  ⟨isSqrt_real, by norm_num, fresnel_is_fraction isSqrt_real ⟨0, 0, -1⟩ ⟨0, 0, 1⟩ (3 / 2) (by norm_num)⟩

end
end Assignment6

namespace Assignment6

section

variable {K Obj : Type} [LinearOrderedField K]

/-! ## Termination of the Whitted ray tracer -/

/-- A call with `depth > maxDepth` returns `(0, 0, 0)`, whatever the scene contains and
whatever the recursive calls would do. -/
theorem castRay_body_black (env : Collaborators K Obj) (scene : Scene K Obj)
    (self : Ray K → ℤ → Option (Vector3f K)) (ray : Ray K) (depth : ℤ)
    (h : scene.maxDepth < depth) : castRay_body env scene self ray depth = some ⟨0, 0, 0⟩ := by
  unfold castRay_body
  rw [if_pos h]

/-- The body of `castRay` at `depth` uses its recursive calls at `depth + 1` only. -/
theorem castRay_body_congr (env : Collaborators K Obj) (scene : Scene K Obj)
    (f g : Ray K → ℤ → Option (Vector3f K)) (ray : Ray K) (depth : ℤ)
    (h : ∀ R : Ray K, f R (depth + 1) = g R (depth + 1)) :
    castRay_body env scene f ray depth = castRay_body env scene g ray depth := by
  unfold castRay_body
  simp only [h]

/-- The body of `castRay` returns when its recursive calls at `depth + 1` return. -/
theorem castRay_body_returns (env : Collaborators K Obj) (scene : Scene K Obj)
    (self : Ray K → ℤ → Option (Vector3f K)) (ray : Ray K) (depth : ℤ)
    (h : depth ≤ scene.maxDepth → ∀ R : Ray K, ∃ c, self R (depth + 1) = some c) :
    ∃ c, castRay_body env scene self ray depth = some c := by
  by_cases h1 : depth > scene.maxDepth
  · exact ⟨_, castRay_body_black env scene self ray depth h1⟩
  · have h' := h (not_lt.1 h1)
    cases hh : (env.intersect ray).happened
    · simp only [castRay_body, h1, hh, if_false, Bool.false_eq_true]
      exact ⟨_, rfl⟩
    · cases hm : (env.intersect ray).m.m_type
      · simp only [castRay_body, h1, hh, hm, if_false, if_true]
        exact ⟨_, rfl⟩
      · simp only [castRay_body, h1, hh, hm, if_false, if_true]
        exact ⟨_, rfl⟩
      · simp only [castRay_body, h1, hh, hm, if_false, if_true]
        obtain ⟨c1, e1⟩ := h' ⟨_, _⟩
        rw [e1]
        exact ⟨_, rfl⟩
      · simp only [castRay_body, h1, hh, hm, if_false, if_true]
        obtain ⟨c1, e1⟩ := h' ⟨_, _⟩
        rw [e1]
        obtain ⟨c2, e2⟩ := h' ⟨_, _⟩
        simp only [Option.some_bind]
        rw [e2]
        exact ⟨_, rfl⟩

/-- The body of `castRay` keeps its result when its recursive calls at `depth + 1` keep
theirs. -/
theorem castRay_body_mono (env : Collaborators K Obj) (scene : Scene K Obj)
    (f g : Ray K → ℤ → Option (Vector3f K)) (ray : Ray K) (depth : ℤ)
    (hfg : ∀ (R : Ray K) (c : Vector3f K), f R (depth + 1) = some c → g R (depth + 1) = some c)
    (c : Vector3f K) (h : castRay_body env scene f ray depth = some c) :
    castRay_body env scene g ray depth = some c := by
  by_cases h1 : depth > scene.maxDepth
  · rw [castRay_body_black env scene _ ray depth h1] at h ⊢
    exact h
  · cases hh : (env.intersect ray).happened
    · simp only [castRay_body, h1, hh, if_false, Bool.false_eq_true] at h ⊢
      exact h
    · cases hm : (env.intersect ray).m.m_type
      · simp only [castRay_body, h1, hh, hm, if_false, if_true] at h ⊢
        exact h
      · simp only [castRay_body, h1, hh, hm, if_false, if_true] at h ⊢
        exact h
      · simp only [castRay_body, h1, hh, hm, if_false, if_true] at h ⊢
        obtain ⟨c1, e1, h⟩ := Option.map_eq_some'.1 h
        rw [hfg _ _ e1]
        exact congrArg some h
      · simp only [castRay_body, h1, hh, hm, if_false, if_true] at h ⊢
        obtain ⟨c1, e1, h⟩ := Option.bind_eq_some.1 h
        obtain ⟨c2, e2, h⟩ := Option.bind_eq_some.1 h
        rw [hfg _ _ e1, Option.some_bind, hfg _ _ e2]
        exact h

/-- The function `castRay` returns when it is allowed `maxDepth - depth + 2` nested calls, and
at least one. -/
theorem castRay_returns (env : Collaborators K Obj) (scene : Scene K Obj) (fuel : ℕ) :
    ∀ (ray : Ray K) (depth : ℤ), 1 ≤ fuel → scene.maxDepth - depth + 2 ≤ (fuel : ℤ) →
      ∃ c, castRay env scene fuel ray depth = some c := by
  induction fuel with
  | zero =>
    intro ray depth h
    omega
  | succ n ih =>
    intro ray depth _ h2
    show ∃ c, castRay_body env scene (castRay env scene n) ray depth = some c
    apply castRay_body_returns
    intro hd R
    apply ih R (depth + 1)
    · omega
    · push_cast at h2
      omega

/-- A result of `castRay` is not changed by allowing one more nested call. -/
theorem castRay_fuel_succ (env : Collaborators K Obj) (scene : Scene K Obj) (fuel : ℕ) :
    ∀ (ray : Ray K) (depth : ℤ) (c : Vector3f K), castRay env scene fuel ray depth = some c →
      castRay env scene (fuel + 1) ray depth = some c := by
  induction fuel with
  | zero =>
    intro ray depth c h
    exact absurd h (by simp [castRay])
  | succ n ih =>
    intro ray depth c h
    exact castRay_body_mono env scene (castRay env scene n) (castRay env scene (n + 1)) ray depth
      (fun R c' => ih R (depth + 1) c') c h

/-- A result of `castRay` is not changed by allowing more nested calls. -/
theorem castRay_fuel_mono (env : Collaborators K Obj) (scene : Scene K Obj) (fuel : ℕ)
    (ray : Ray K) (depth : ℤ) (c : Vector3f K) (h : castRay env scene fuel ray depth = some c)
    (more : ℕ) : castRay env scene (fuel + more) ray depth = some c := by
  induction more with
  | zero => exact h
  | succ n ih => exact castRay_fuel_succ env scene (fuel + n) ray depth c ih

/-- Claim C20 (`castRay` terminates): for every scene, with whatever the functions it calls
return, every ray and every depth, the body of `castRay` at `depth` uses its recursive calls
at `depth + 1` only; a call with `depth > maxDepth` returns `(0, 0, 0)` whatever `intersect`,
the other functions and the contents of the scene are; and a call allowed `fuel` nested calls, with `fuel` at least
`maxDepth - depth + 2` and at least one (the call itself), returns a colour, the same with any
larger allowance. -/
theorem castRay_terminates (env : Collaborators K Obj) (scene : Scene K Obj) (ray : Ray K)
    (depth : ℤ) (fuel : ℕ) (hfuel : 1 ≤ fuel ∧ scene.maxDepth - depth + 2 ≤ (fuel : ℤ)) :
    (∀ f g : Ray K → ℤ → Option (Vector3f K), (∀ R : Ray K, f R (depth + 1) = g R (depth + 1)) →
      castRay_body env scene f ray depth = castRay_body env scene g ray depth) ∧
    (scene.maxDepth < depth → ∀ (env' : Collaborators K Obj) (scene' : Scene K Obj),
      scene'.maxDepth = scene.maxDepth → castRay env' scene' fuel ray depth = some ⟨0, 0, 0⟩) ∧
    ∃ c, castRay env scene fuel ray depth = some c ∧
      ∀ more : ℕ, castRay env scene (fuel + more) ray depth = some c := by
  refine ⟨fun f g h => castRay_body_congr env scene f g ray depth h, ?_, ?_⟩
  · intro hd env' scene' hs
    obtain ⟨n, rfl⟩ : ∃ n, fuel = n + 1 := ⟨fuel - 1, by omega⟩
    exact castRay_body_black env' scene' _ ray depth (by rw [hs]; exact hd)
  · obtain ⟨c, hc⟩ := castRay_returns env scene fuel ray depth hfuel.1 hfuel.2
    exact ⟨c, hc, castRay_fuel_mono env scene fuel ray depth c hc⟩

/-- An instance of `castRay_terminates`: a hall of mirrors over the real numbers (every ray
hits a `REFLECTION` material) with `maxDepth = 5`; a primary ray returns within `7` nested
calls. -/
theorem castRay_terminates_witness :
    (1 ≤ 7 ∧ (5 : ℤ) - 0 + 2 ≤ ((7 : ℕ) : ℤ)) ∧
    ∃ c : Vector3f ℝ,
      castRay
        (⟨Real.sqrt, fun x y => x ^ y, 1 / 100000,
          fun v => (1 / Real.sqrt (dotProduct v v)) * v,
          fun ray => ⟨true, ray.origin + ray.direction, ⟨0, 0, 1⟩, (),
            ⟨MaterialType.REFLECTION, 3 / 2, 0, 0, 0⟩⟩,
          fun _ _ _ N => (N, ⟨0, 0⟩), fun _ _ => ⟨1 / 2, 1 / 2, 1 / 2⟩⟩ : Collaborators ℝ Unit)
        ⟨1280, 960, 90, ⟨47 / 200, 27 / 40, 211 / 250⟩, 5, [()], []⟩ 7
        ⟨⟨0, 0, 0⟩, ⟨0, 0, -1⟩⟩ 0 = some c :=
  ⟨by decide,
    (castRay_terminates _ _ _ 0 7 (by decide)).2.2.imp fun _ h => h.1⟩

end
end Assignment6

namespace Assignment7

/-! ## The path tracer -/

section

variable {K Obj Mat Rng : Type} [LinearOrderedField K]

/-- The sum of the zero vector and a vector is that vector. -/
theorem vector_zero_add (a : Vector3f K) : (0 : Vector3f K) + a = a := by
  cases a
  show Assignment6.Vector3f.mk (0 + _) (0 + _) (0 + _) = _
  simp

/-- On a ray whose nearest hit is a surface that does not emit, `castRay` reaches the `switch`
of line 190. -/
theorem castRay_body_shade (env : Collaborators K Obj Mat Rng)
    (caps : ObjectCaps K Obj (LightSample K Obj Mat Rng)) (scene : Scene K Obj)
    (self : Ray K → ℤ → Rng → Option (Vector3f K × Rng)) (ray : Ray K) (depth : ℤ) (g : Rng)
    (hhit : (env.intersect ray).happened = true)
    (hne : env.hasEmission (env.intersect ray).m = false) :
    castRay_body env caps scene self ray depth g =
      shade env caps scene self ray depth (env.intersect ray) g := by
  unfold castRay_body
  simp only [hhit, hne, Bool.not_true, Bool.false_eq_true, if_false]

/-- The body of `case GLOSSY` reads from the scene the constant `RussianRoulette` only. -/
theorem case_GLOSSY_scene (env : Collaborators K Obj Mat Rng) (scene scene' : Scene K Obj)
    (hRR : scene'.RussianRoulette = scene.RussianRoulette)
    (self : Ray K → ℤ → Rng → Option (Vector3f K × Rng)) (ray : Ray K) (depth : ℤ)
    (inter_obj : Intersection K Obj Mat) (g : Rng) :
    case_GLOSSY env scene' self ray depth inter_obj g =
      case_GLOSSY env scene self ray depth inter_obj g := by
  unfold case_GLOSSY
  rw [hRR]

/-- Claim C21 (the three kinds of material in the path tracer): on a ray whose nearest hit is a
surface that does not emit, `castRay` returns the value of lines 188 to 240.  For the type
`DIFFUSE` this is `L_dir + L_indir`, with `L_dir` left by the body of `case DIFFUSE` and
`L_indir` by the body of `case GLOSSY`, run after it.  For the type `GLOSSY` it is the
`L_indir` left by the body of `case GLOSSY` alone, run on the generator as `castRay` received
it; the result is the same whatever the objects of the scene and their `hasEmit`, `getArea`
and `Sample` are, which `sampleLight` would call.  For every other type it is the zero vector,
and the generator is left as it was. -/
theorem castRay_by_material (env : Collaborators K Obj Mat Rng)
    (caps : ObjectCaps K Obj (LightSample K Obj Mat Rng)) (scene : Scene K Obj)
    (self : Ray K → ℤ → Rng → Option (Vector3f K × Rng)) (ray : Ray K) (depth : ℤ) (g : Rng)
    (hhit : (env.intersect ray).happened = true)
    (hne : env.hasEmission (env.intersect ray).m = false) :
    (∀ fuel : ℕ, castRay env caps scene (fuel + 1) ray depth g =
      castRay_body env caps scene (castRay env caps scene fuel) ray depth g) ∧
    (env.getType (env.intersect ray).m = Assignment6.MaterialType.DIFFUSE →
      castRay_body env caps scene self ray depth g =
        (case_DIFFUSE env caps scene ray (env.intersect ray) g).bind fun L_dir =>
          (case_GLOSSY env scene self ray depth (env.intersect ray) L_dir.2).map fun L_indir =>
            (L_dir.1 + L_indir.1, L_indir.2)) ∧
    (env.getType (env.intersect ray).m = Assignment6.MaterialType.GLOSSY →
      castRay_body env caps scene self ray depth g =
        case_GLOSSY env scene self ray depth (env.intersect ray) g ∧
      ∀ (caps' : ObjectCaps K Obj (LightSample K Obj Mat Rng)) (scene' : Scene K Obj),
        scene'.RussianRoulette = scene.RussianRoulette →
        castRay_body env caps' scene' self ray depth g =
          castRay_body env caps scene self ray depth g) ∧
    (env.getType (env.intersect ray).m ≠ Assignment6.MaterialType.DIFFUSE →
      env.getType (env.intersect ray).m ≠ Assignment6.MaterialType.GLOSSY →
      castRay_body env caps scene self ray depth g = some (0, g)) := by
  have glossy : ∀ (caps' : ObjectCaps K Obj (LightSample K Obj Mat Rng)) (scene' : Scene K Obj),
      env.getType (env.intersect ray).m = Assignment6.MaterialType.GLOSSY →
      castRay_body env caps' scene' self ray depth g =
        case_GLOSSY env scene' self ray depth (env.intersect ray) g := by
    intro caps' scene' ht
    rw [castRay_body_shade env caps' scene' self ray depth g hhit hne]
    unfold shade
    simp only [ht]
    cases case_GLOSSY env scene' self ray depth (env.intersect ray) g with
    | none => rfl
    | some i =>
      simp only [Option.map_some']
      rw [vector_zero_add]
  refine ⟨fun _ => rfl, ?_, ?_, ?_⟩
  · intro ht
    rw [castRay_body_shade env caps scene self ray depth g hhit hne]
    unfold shade
    simp only [ht]
  · intro ht
    refine ⟨glossy caps scene ht, ?_⟩
    intro caps' scene' hRR
    rw [glossy caps scene ht, glossy caps' scene' ht]
    exact case_GLOSSY_scene env scene scene' hRR self ray depth _ g
  · intro h1 h2
    rw [castRay_body_shade env caps scene self ray depth g hhit hne]
    unfold shade
    cases ht : env.getType (env.intersect ray).m with
    | DIFFUSE => exact absurd ht h1
    | GLOSSY => exact absurd ht h2
    | REFLECTION =>
      simp only []
      rw [vector_zero_add]
    | REFLECTION_AND_REFRACTION =>
      simp only []
      rw [vector_zero_add]

/-- An instance of `castRay_by_material`: a room of `GLOSSY` walls over the real numbers; the
value `castRay` returns for a primary ray is the `L_indir` of `case GLOSSY`. -/
theorem castRay_by_material_witness :
    ((wallRoom Real.sqrt Assignment6.MaterialType.GLOSSY).intersect
      ⟨⟨0, 0, 0⟩, ⟨0, 0, 1⟩⟩).happened = true ∧
    (wallRoom Real.sqrt Assignment6.MaterialType.GLOSSY).hasEmission
      ((wallRoom Real.sqrt Assignment6.MaterialType.GLOSSY).intersect
        ⟨⟨0, 0, 0⟩, ⟨0, 0, 1⟩⟩).m = false ∧
    castRay_body (wallRoom Real.sqrt Assignment6.MaterialType.GLOSSY) noLamps wallScene
        (fun _ _ g => some (0, g)) ⟨⟨0, 0, 0⟩, ⟨0, 0, 1⟩⟩ 0 0 =
      case_GLOSSY (wallRoom Real.sqrt Assignment6.MaterialType.GLOSSY) wallScene
        (fun _ _ g => some (0, g)) ⟨⟨0, 0, 0⟩, ⟨0, 0, 1⟩⟩ 0
        ((wallRoom Real.sqrt Assignment6.MaterialType.GLOSSY).intersect
          ⟨⟨0, 0, 0⟩, ⟨0, 0, 1⟩⟩) 0 :=
  ⟨rfl, rfl,
    ((castRay_by_material (wallRoom Real.sqrt Assignment6.MaterialType.GLOSSY) noLamps wallScene
      (fun _ _ g => some (0, g)) ⟨⟨0, 0, 0⟩, ⟨0, 0, 1⟩⟩ 0 0 rfl rfl).2.2.1 rfl).1⟩

/-- The body of `case GLOSSY` makes its recursive call on a ray whose nearest hit is a surface
that does not emit. -/
theorem case_GLOSSY_congr (env : Collaborators K Obj Mat Rng) (scene : Scene K Obj)
    (self self' : Ray K → ℤ → Rng → Option (Vector3f K × Rng)) (ray : Ray K) (depth : ℤ)
    (inter_obj : Intersection K Obj Mat) (g : Rng)
    (h : ∀ (R : Ray K) (g' : Rng), (env.intersect R).happened = true →
      env.hasEmission (env.intersect R).m = false →
      self' R (depth + 1) g' = self R (depth + 1) g') :
    case_GLOSSY env scene self' ray depth inter_obj g =
      case_GLOSSY env scene self ray depth inter_obj g := by
  unfold case_GLOSSY
  simp only []
  by_cases h1 : (env.get_random_float g).1 ≤ scene.RussianRoulette
  · rw [if_pos h1, if_pos h1]
    by_cases h2 : ((env.intersect ⟨inter_obj.coords, env.normalized
        (env.sample inter_obj.m ray.direction inter_obj.normal (env.get_random_float g).2).1⟩).happened &&
        !env.hasEmission (env.intersect ⟨inter_obj.coords, env.normalized
          (env.sample inter_obj.m ray.direction inter_obj.normal
            (env.get_random_float g).2).1⟩).m) = true
    · rw [if_pos h2, if_pos h2]
      have h2' := h2
      simp only [Bool.and_eq_true, Bool.not_eq_true'] at h2'
      rw [h _ _ h2'.1 h2'.2]
    · rw [if_neg h2, if_neg h2]
  · rw [if_neg h1, if_neg h1]

/-- The body of `castRay` makes its recursive call on a ray whose nearest hit is a surface that
does not emit. -/
theorem path_body_congr (env : Collaborators K Obj Mat Rng)
    (caps : ObjectCaps K Obj (LightSample K Obj Mat Rng)) (scene : Scene K Obj)
    (self self' : Ray K → ℤ → Rng → Option (Vector3f K × Rng)) (ray : Ray K) (depth : ℤ)
    (g : Rng)
    (h : ∀ (R : Ray K) (g' : Rng), (env.intersect R).happened = true →
      env.hasEmission (env.intersect R).m = false →
      self' R (depth + 1) g' = self R (depth + 1) g') :
    castRay_body env caps scene self' ray depth g =
      castRay_body env caps scene self ray depth g := by
  unfold castRay_body shade
  simp only [case_GLOSSY_congr env scene self self' ray depth _ _ h]

/-- Claim C22 (emission is returned for the primary ray only): in the path tracer the value
`L_indir` left by the body of `case GLOSSY` is zero when the sampled ray misses the scene or
its nearest hit emits; the body of `castRay` makes its recursive call, at `depth + 1`, only on
a ray whose nearest hit is a surface that does not emit; on such a ray `castRay` passes its two
early returns and returns the value of lines 188 to 240; so in a run of `castRay` every
recursive call can be replaced by the part of `castRay` after the early returns, and the
emission of line 186 is returned by the outermost call only. -/
theorem emission_only_for_primary (env : Collaborators K Obj Mat Rng)
    (caps : ObjectCaps K Obj (LightSample K Obj Mat Rng)) (scene : Scene K Obj)
    (self : Ray K → ℤ → Rng → Option (Vector3f K × Rng)) (ray : Ray K) (depth : ℤ) (g : Rng) :
    (∀ inter_obj : Intersection K Obj Mat,
      ((env.intersect ⟨inter_obj.coords, env.normalized
          (env.sample inter_obj.m ray.direction inter_obj.normal
            (env.get_random_float g).2).1⟩).happened = false ∨
        env.hasEmission (env.intersect ⟨inter_obj.coords, env.normalized
          (env.sample inter_obj.m ray.direction inter_obj.normal
            (env.get_random_float g).2).1⟩).m = true) →
      ∃ g', case_GLOSSY env scene self ray depth inter_obj g = some (0, g')) ∧
    (∀ self' : Ray K → ℤ → Rng → Option (Vector3f K × Rng),
      (∀ (R : Ray K) (g' : Rng), (env.intersect R).happened = true →
        env.hasEmission (env.intersect R).m = false →
        self' R (depth + 1) g' = self R (depth + 1) g') →
      castRay_body env caps scene self' ray depth g =
        castRay_body env caps scene self ray depth g) ∧
    (∀ (R : Ray K) (d : ℤ) (g' : Rng), (env.intersect R).happened = true →
      env.hasEmission (env.intersect R).m = false →
      castRay_body env caps scene self R d g' =
        shade env caps scene self R d (env.intersect R) g') ∧
    (∀ fuel : ℕ, castRay env caps scene (fuel + 2) ray depth g =
      castRay_body env caps scene
        (fun R d g' =>
          if (env.intersect R).happened = true ∧ env.hasEmission (env.intersect R).m = false then
            shade env caps scene (castRay env caps scene fuel) R d (env.intersect R) g'
          else none)
        ray depth g) := by
  refine ⟨?_, fun self' h => path_body_congr env caps scene self self' ray depth g h,
    fun R d g' h1 h2 => castRay_body_shade env caps scene self R d g' h1 h2, ?_⟩
  · intro inter_obj hmiss
    unfold case_GLOSSY
    simp only []
    by_cases h1 : (env.get_random_float g).1 ≤ scene.RussianRoulette
    · rw [if_pos h1]
      have h2 : ¬ ((env.intersect ⟨inter_obj.coords, env.normalized
          (env.sample inter_obj.m ray.direction inter_obj.normal
            (env.get_random_float g).2).1⟩).happened &&
          !env.hasEmission (env.intersect ⟨inter_obj.coords, env.normalized
            (env.sample inter_obj.m ray.direction inter_obj.normal
              (env.get_random_float g).2).1⟩).m) = true := by
        simp only [Bool.and_eq_true, Bool.not_eq_true']
        rintro ⟨a, b⟩
        rcases hmiss with h | h
        · rw [h] at a
          exact absurd a (by simp)
        · rw [h] at b
          exact absurd b (by simp)
      rw [if_neg h2]
      exact ⟨_, rfl⟩
    · rw [if_neg h1]
      exact ⟨_, rfl⟩
  · intro fuel
    show castRay_body env caps scene (castRay env caps scene (fuel + 1)) ray depth g = _
    symm
    apply path_body_congr
    intro R g' h1 h2
    rw [if_pos ⟨h1, h2⟩]
    show _ = castRay_body env caps scene (castRay env caps scene fuel) R (depth + 1) g'
    rw [castRay_body_shade env caps scene _ R (depth + 1) g' h1 h2]

end
end Assignment7

namespace Assignment7

/-! ## Light selection -/

section

variable {K Obj Mat Rng σ : Type} [LinearOrderedField K]

/-- The sum of the first loop of `sampleLight`, started from `a` instead of `0`. -/
theorem emit_area_foldl (caps : ObjectCaps K Obj σ) (objects : List Obj) (a : K) :
    objects.foldl (fun sum o => if caps.hasEmit o then sum + caps.getArea o else sum) a =
      a + emit_area_sum caps objects := by
  unfold emit_area_sum
  induction objects generalizing a with
  | nil => simp
  | cons o rest ih =>
    simp only [List.foldl_cons]
    rw [ih, ih (if caps.hasEmit o = true then 0 + caps.getArea o else 0)]
    split_ifs <;> ring

/-- The emissive area of a list with one more object in front. -/
theorem emit_area_sum_cons (caps : ObjectCaps K Obj σ) (o : Obj) (rest : List Obj) :
    emit_area_sum caps (o :: rest) =
      (if caps.hasEmit o then caps.getArea o else 0) + emit_area_sum caps rest := by
  have h := emit_area_foldl caps rest (if caps.hasEmit o = true then 0 + caps.getArea o else 0)
  unfold emit_area_sum at h ⊢
  simp only [List.foldl_cons]
  rw [h]
  split_ifs <;> ring

/-- Without emissive objects the emissive area is zero. -/
theorem emit_area_sum_none (caps : ObjectCaps K Obj σ) (objects : List Obj)
    (h : ∀ o ∈ objects, caps.hasEmit o = false) : emit_area_sum caps objects = 0 := by
  induction objects with
  | nil => rfl
  | cons o rest ih =>
    rw [emit_area_sum_cons, ih (fun o' ho' => h o' (List.mem_cons_of_mem _ ho')),
      h o (List.mem_cons_self _ _)]
    simp

/-- Without emissive objects the second loop of `sampleLight` calls `Sample` on none. -/
theorem select_light_none (caps : ObjectCaps K Obj σ) (p : K) (objects : List Obj)
    (h : ∀ o ∈ objects, caps.hasEmit o = false) (acc : K) (s : σ) :
    select_light caps p objects acc s = s := by
  induction objects generalizing acc with
  | nil => rfl
  | cons o rest ih =>
    unfold select_light
    rw [h o (List.mem_cons_self _ _)]
    simp only [Bool.false_eq_true, if_false]
    exact ih (fun o' ho' => h o' (List.mem_cons_of_mem _ ho')) acc

/-- The second loop of `sampleLight` calls `Sample` once, on the first emissive object at which
the running sum reaches `p`, when there is such an object. -/
theorem select_light_spec (caps : ObjectCaps K Obj σ) (p : K) (objects : List Obj) :
    ∀ (acc : K) (s : σ),
      (∃ k o, objects[k]? = some o ∧ caps.hasEmit o = true ∧
        p ≤ acc + emit_area_sum caps (objects.take (k + 1))) →
      ∃ k o, objects[k]? = some o ∧ caps.hasEmit o = true ∧
        p ≤ acc + emit_area_sum caps (objects.take (k + 1)) ∧
        (∀ j o', j < k → objects[j]? = some o' → caps.hasEmit o' = true →
          acc + emit_area_sum caps (objects.take (j + 1)) < p) ∧
        select_light caps p objects acc s = caps.Sample o s := by
  induction objects with
  | nil =>
    rintro acc s ⟨k, o, h, -⟩
    simp at h
  | cons o₁ rest ih =>
    rintro acc s ⟨k, o, hk, ho, hp⟩
    by_cases he : caps.hasEmit o₁ = true
    · by_cases hp₁ : p ≤ acc + caps.getArea o₁
      · refine ⟨0, o₁, List.getElem?_cons_zero, he, ?_, ?_, ?_⟩
        · rw [List.take_succ_cons, List.take_zero, emit_area_sum_cons, if_pos he]
          simpa [emit_area_sum] using hp₁
        · intro j o' hj
          omega
        · unfold select_light
          rw [if_pos he, if_pos hp₁]
      · cases k with
        | zero =>
          simp only [List.getElem?_cons_zero, Option.some.injEq] at hk
          subst hk
          rw [List.take_succ_cons, List.take_zero, emit_area_sum_cons, if_pos he] at hp
          exact absurd (by simpa [emit_area_sum] using hp) hp₁
        | succ k' =>
          rw [List.getElem?_cons_succ] at hk
          rw [List.take_succ_cons, emit_area_sum_cons, if_pos he, ← add_assoc] at hp
          obtain ⟨k₂, o₂, h1, h2, h3, h4, h5⟩ := ih (acc + caps.getArea o₁) s ⟨k', o, hk, ho, hp⟩
          refine ⟨k₂ + 1, o₂, by rw [List.getElem?_cons_succ]; exact h1, h2, ?_, ?_, ?_⟩
          · rw [List.take_succ_cons, emit_area_sum_cons, if_pos he, ← add_assoc]
            exact h3
          · intro j o' hj hj' ho'
            cases j with
            | zero =>
              rw [List.take_succ_cons, List.take_zero, emit_area_sum_cons, if_pos he]
              simpa [emit_area_sum] using not_le.1 hp₁
            | succ j' =>
              rw [List.getElem?_cons_succ] at hj'
              rw [List.take_succ_cons, emit_area_sum_cons, if_pos he, ← add_assoc]
              exact h4 j' o' (by omega) hj' ho'
          · unfold select_light
            rw [if_pos he, if_neg hp₁]
            exact h5
    · cases k with
      | zero =>
        simp only [List.getElem?_cons_zero, Option.some.injEq] at hk
        subst hk
        exact absurd ho he
      | succ k' =>
        rw [List.getElem?_cons_succ] at hk
        rw [List.take_succ_cons, emit_area_sum_cons, if_neg he, zero_add] at hp
        obtain ⟨k₂, o₂, h1, h2, h3, h4, h5⟩ := ih acc s ⟨k', o, hk, ho, hp⟩
        refine ⟨k₂ + 1, o₂, by rw [List.getElem?_cons_succ]; exact h1, h2, ?_, ?_, ?_⟩
        · rw [List.take_succ_cons, emit_area_sum_cons, if_neg he, zero_add]
          exact h3
        · intro j o' hj hj' ho'
          cases j with
          | zero =>
            simp only [List.getElem?_cons_zero, Option.some.injEq] at hj'
            subst hj'
            exact absurd ho' he
          | succ j' =>
            rw [List.getElem?_cons_succ] at hj'
            rw [List.take_succ_cons, emit_area_sum_cons, if_neg he, zero_add]
            exact h4 j' o' (by omega) hj' ho'
        · unfold select_light
          rw [if_neg he]
          exact h5

/-- With an emissive object in the list, the running sum at the last emissive object is the
whole emissive area. -/
theorem emit_area_reached (caps : ObjectCaps K Obj σ) (objects : List Obj)
    (h : ∃ o ∈ objects, caps.hasEmit o = true) :
    ∃ k o, objects[k]? = some o ∧ caps.hasEmit o = true ∧
      emit_area_sum caps (objects.take (k + 1)) = emit_area_sum caps objects := by
  induction objects with
  | nil =>
    obtain ⟨o, ho, -⟩ := h
    simp at ho
  | cons o₁ rest ih =>
    by_cases hr : ∃ o ∈ rest, caps.hasEmit o = true
    · obtain ⟨k, o, h1, h2, h3⟩ := ih hr
      refine ⟨k + 1, o, by rw [List.getElem?_cons_succ]; exact h1, h2, ?_⟩
      rw [List.take_succ_cons, emit_area_sum_cons, emit_area_sum_cons, h3]
    · have hr' : ∀ o ∈ rest, caps.hasEmit o = false := by
        intro o ho
        by_contra hc
        exact hr ⟨o, ho, by simpa using hc⟩
      obtain ⟨o, ho, he⟩ := h
      rcases List.mem_cons.1 ho with rfl | ho'
      · refine ⟨0, o, List.getElem?_cons_zero, he, ?_⟩
        rw [List.take_succ_cons, List.take_zero, emit_area_sum_cons, emit_area_sum_cons,
          emit_area_sum_none caps rest hr']
        rfl
      · rw [hr' o ho'] at he
        exact absurd he (by simp)

/-- With an emissive object in the scene and a draw `p` of at most the emissive area,
`sampleLight` is one call of `Sample`, on the first emissive object at which the cumulative
emissive area reaches `p`. -/
theorem sampleLight_selects (caps : ObjectCaps K Obj σ) (get_random_float : σ → K × σ)
    (objects : List Obj) (s : σ) (hex : ∃ o ∈ objects, caps.hasEmit o = true)
    (hp : (get_random_float s).1 * emit_area_sum caps objects ≤ emit_area_sum caps objects) :
    ∃ k o, objects[k]? = some o ∧ caps.hasEmit o = true ∧
      (get_random_float s).1 * emit_area_sum caps objects ≤
        emit_area_sum caps (objects.take (k + 1)) ∧
      (∀ j o', j < k → objects[j]? = some o' → caps.hasEmit o' = true →
        emit_area_sum caps (objects.take (j + 1)) <
          (get_random_float s).1 * emit_area_sum caps objects) ∧
      sampleLight caps get_random_float objects s = caps.Sample o (get_random_float s).2 := by
  obtain ⟨k, o, h1, h2, h3⟩ := emit_area_reached caps objects hex
  obtain ⟨k', o', g1, g2, g3, g4, g5⟩ :=
    select_light_spec caps ((get_random_float s).1 * emit_area_sum caps objects) objects 0
      (get_random_float s).2 ⟨k, o, h1, h2, by rw [zero_add, h3]; exact hp⟩
  refine ⟨k', o', g1, g2, by rw [zero_add] at g3; exact g3, ?_, g5⟩
  intro j o'' hj hj' ho''
  have := g4 j o'' hj hj' ho''
  rw [zero_add] at this
  exact this

/-- Claim C23 (light selection): write `A` for the sum of the areas of the emissive objects
and `p` for the product of the random draw and `A`.  When the scene has an emissive object and
`p ≤ A`, `sampleLight` has the effect of one call of `Sample`, on the emissive object of least
index `k` whose cumulative emissive area up to and including `k` is at least `p` (whatever
`Sample` does to the state: it is called once, on that object, after the draw).  With no
emissive object `sampleLight` calls `Sample` on none: the state is the one the draw leaves. -/
theorem light_selection (caps : ObjectCaps K Obj σ) (get_random_float : σ → K × σ)
    (objects : List Obj) (s : σ) :
    ((∃ o ∈ objects, caps.hasEmit o = true) →
      (get_random_float s).1 * emit_area_sum caps objects ≤ emit_area_sum caps objects →
      ∃ k o, objects[k]? = some o ∧ caps.hasEmit o = true ∧
        (get_random_float s).1 * emit_area_sum caps objects ≤
          emit_area_sum caps (objects.take (k + 1)) ∧
        (∀ j o', j < k → objects[j]? = some o' → caps.hasEmit o' = true →
          emit_area_sum caps (objects.take (j + 1)) <
            (get_random_float s).1 * emit_area_sum caps objects) ∧
        sampleLight caps get_random_float objects s = caps.Sample o (get_random_float s).2) ∧
    ((∀ o ∈ objects, caps.hasEmit o = false) →
      sampleLight caps get_random_float objects s = (get_random_float s).2) := by
  constructor
  · exact sampleLight_selects caps get_random_float objects s
  · intro h
    exact select_light_none caps _ objects h 0 _

/-- An instance of `light_selection`: the objects `0` (not emissive), `1` and `2` (of areas
`1` and `2`) and the draw `1/2`, so that `p = 3/2`; `Sample` is called once, on object `2`. -/
theorem light_selection_witness :
    (∃ o ∈ [0, 1, 2], callLog.hasEmit o = true) ∧
    (1 / 2 : ℚ) * emit_area_sum callLog [0, 1, 2] ≤ emit_area_sum callLog [0, 1, 2] ∧
    sampleLight callLog (fun s => (1 / 2, s)) [0, 1, 2] [] = [2] ∧
    ∃ (k : ℕ) (o : ℕ), [0, 1, 2][k]? = some o ∧ callLog.hasEmit o = true ∧
      sampleLight callLog (fun s => (1 / 2, s)) [0, 1, 2] [] = callLog.Sample o [] :=
  have hex : ∃ o ∈ [0, 1, 2], callLog.hasEmit o = true := ⟨1, by decide, by decide⟩
  have hp : (1 / 2 : ℚ) * emit_area_sum callLog [0, 1, 2] ≤ emit_area_sum callLog [0, 1, 2] := by
    decide!
  ⟨hex, hp, by decide!,
    ((light_selection callLog (fun s => (1 / 2, s)) [0, 1, 2] []).1 hex hp).imp
      fun _ h => h.imp fun _ h' => ⟨h'.1, h'.2.1, h'.2.2.2.2⟩⟩

/-- With one emissive object only, the emissive area is the area of that object. -/
theorem emit_area_single (caps : ObjectCaps K Obj σ) (objects : List Obj) :
    ∀ (k : ℕ) (o : Obj), objects[k]? = some o → caps.hasEmit o = true →
      (∀ (j : ℕ) (o' : Obj), objects[j]? = some o' → caps.hasEmit o' = true → j = k) →
      emit_area_sum caps objects = caps.getArea o := by
  induction objects with
  | nil =>
    intro k o h
    simp at h
  | cons o₁ rest ih =>
    intro k o hk ho hu
    cases k with
    | zero =>
      simp only [List.getElem?_cons_zero, Option.some.injEq] at hk
      subst hk
      have hr : ∀ o' ∈ rest, caps.hasEmit o' = false := by
        intro o' ho'
        by_contra hc
        obtain ⟨j, hj⟩ := List.getElem?_of_mem ho'
        have := hu (j + 1) o' (by rw [List.getElem?_cons_succ]; exact hj) (by simpa using hc)
        omega
      rw [emit_area_sum_cons, if_pos ho, emit_area_sum_none caps rest hr, add_zero]
    | succ k' =>
      rw [List.getElem?_cons_succ] at hk
      have h₁ : ¬ caps.hasEmit o₁ = true := by
        intro hc
        have := hu 0 o₁ List.getElem?_cons_zero hc
        omega
      rw [emit_area_sum_cons, if_neg h₁, zero_add]
      apply ih k' o hk ho
      intro j o' hj ho'
      have := hu (j + 1) o' (by rw [List.getElem?_cons_succ]; exact hj) ho'
      omega

/-- Claim C24, amended (the density `sampleLight` returns): let each object's `Sample` be
uniform over its own area, that is, set `pdf` to `1 / getArea()` and `pos.emit` to the
radiance the object emits.  On a scene whose total emissive area `A` is positive, with a
random draw of at most `1`, `sampleLight` leaves in `pos.emit` the radiance of the selected
object and in `pdf` the value `1 / (area of the selected object)`; this is `1 / A` when the
selected object is the only emissive object of the scene. -/
theorem sampled_density (caps : ObjectCaps K Obj (LightSample K Obj Mat Rng))
    (get_random_float : LightSample K Obj Mat Rng → K × LightSample K Obj Mat Rng)
    (emission : Obj → Vector3f K) (objects : List Obj) (s : LightSample K Obj Mat Rng)
    (huniform : ∀ o s', (caps.Sample o s').pdf = some (1 / caps.getArea o) ∧
      (caps.Sample o s').pos.emit = emission o)
    (hA : 0 < emit_area_sum caps objects) (hdraw : (get_random_float s).1 ≤ 1) :
    ∃ (k : ℕ) (o : Obj), objects[k]? = some o ∧ caps.hasEmit o = true ∧
      sampleLight caps get_random_float objects s = caps.Sample o (get_random_float s).2 ∧
      (sampleLight caps get_random_float objects s).pos.emit = emission o ∧
      (sampleLight caps get_random_float objects s).pdf = some (1 / caps.getArea o) ∧
      ((∀ (j : ℕ) (o' : Obj), objects[j]? = some o' → caps.hasEmit o' = true → j = k) →
        (sampleLight caps get_random_float objects s).pdf =
          some (1 / emit_area_sum caps objects)) := by
  have hex : ∃ o ∈ objects, caps.hasEmit o = true := by
    by_contra hc
    have hn : ∀ o ∈ objects, caps.hasEmit o = false := by
      intro o ho
      by_contra hc'
      exact hc ⟨o, ho, by simpa using hc'⟩
    rw [emit_area_sum_none caps objects hn] at hA
    exact lt_irrefl _ hA
  have hp : (get_random_float s).1 * emit_area_sum caps objects ≤ emit_area_sum caps objects := by
    calc (get_random_float s).1 * emit_area_sum caps objects
        ≤ 1 * emit_area_sum caps objects := mul_le_mul_of_nonneg_right hdraw hA.le
      _ = emit_area_sum caps objects := one_mul _
  obtain ⟨k, o, h1, h2, -, -, h5⟩ := sampleLight_selects caps get_random_float objects s hex hp
  refine ⟨k, o, h1, h2, h5, ?_, ?_, ?_⟩
  · rw [h5]
    exact (huniform o _).2
  · rw [h5]
    exact (huniform o _).1
  · intro hu
    rw [h5, (huniform o _).1, emit_area_single caps objects k o h1 h2 hu]

end

/-- An instance of `sampled_density`: the two lamps of area `1` and the draw `1/2`; the
selected lamp is the first one and `pdf` is `1 / 1`. -/
theorem sampled_density_witness :
    (∀ o s', (twoLamps.Sample o s').pdf = some (1 / twoLamps.getArea o) ∧
      (twoLamps.Sample o s').pos.emit = (⟨1, 1, 1⟩ : Vector3f ℚ)) ∧
    0 < emit_area_sum twoLamps [0, 1] ∧ (1 / 2 : ℚ) ≤ 1 ∧
    ∃ (k : ℕ) (o : ℕ), [0, 1][k]? = some o ∧
      (sampleLight twoLamps (fun s => (1 / 2, s)) [0, 1]
        ⟨⟨false, 0, 0, 0, 0, (), 0⟩, none, 0⟩).pdf = some (1 / twoLamps.getArea o) :=
  have hu : ∀ o s', (twoLamps.Sample o s').pdf = some (1 / twoLamps.getArea o) ∧
      (twoLamps.Sample o s').pos.emit = (⟨1, 1, 1⟩ : Vector3f ℚ) := fun _ _ => ⟨rfl, rfl⟩
  have hA : 0 < emit_area_sum twoLamps [0, 1] := by decide!
  ⟨hu, hA, by norm_num,
    (sampled_density twoLamps (fun s => (1 / 2, s)) (fun _ => ⟨1, 1, 1⟩) [0, 1]
      ⟨⟨false, 0, 0, 0, 0, (), 0⟩, none, 0⟩ hu hA (by norm_num)).imp
      fun _ h => h.imp fun _ h' => ⟨h'.1, h'.2.2.2.2.1⟩⟩

/-- Claim C24 fails as stated: a scene with two lamps of area `1` each has the emissive area
`A = 2`; each lamp's `Sample` is uniform over the lamp (`pdf = 1 / area`); after `sampleLight`
with the draw `1/2`, `pdf` is `1`, not `1/A = 1/2`. -/
theorem sampled_density_counterexample :
    (∀ o s', (twoLamps.Sample o s').pdf = some (1 / twoLamps.getArea o)) ∧
    (twoLamps.hasEmit 0 = true ∧ twoLamps.hasEmit 1 = true) ∧
    emit_area_sum twoLamps [0, 1] = 2 ∧
    (sampleLight twoLamps (fun s => (1 / 2, s)) [0, 1]
      ⟨⟨false, 0, 0, 0, 0, (), 0⟩, none, 0⟩).pdf = some 1 ∧
    (sampleLight twoLamps (fun s => (1 / 2, s)) [0, 1]
      ⟨⟨false, 0, 0, 0, 0, (), 0⟩, none, 0⟩).pdf ≠ some (1 / emit_area_sum twoLamps [0, 1]) := by
  refine ⟨fun _ _ => rfl, ⟨rfl, rfl⟩, by decide!, by decide!, by decide!⟩

end Assignment7

namespace Assignment7

/-! ## The grid of sub-pixel samples -/

/-- The number `sqrt_to_int q` is the integer part of the real square root of `q`. -/
theorem sqrt_to_int_spec (q : ℚ) (hq : 0 ≤ q) :
    ((sqrt_to_int q : ℤ) : ℝ) ≤ Real.sqrt (q : ℝ) ∧
      Real.sqrt (q : ℝ) < ((sqrt_to_int q : ℤ) : ℝ) + 1 := by
  unfold sqrt_to_int
  have hq' : (0 : ℝ) ≤ (q : ℝ) := by exact_mod_cast hq
  have h1 : ((⌊q⌋₊ : ℕ) : ℝ) ≤ (q : ℝ) := by
    have := Nat.floor_le hq
    exact_mod_cast this
  have h2 : (q : ℝ) < ((⌊q⌋₊ : ℕ) : ℝ) + 1 := by
    have := Nat.lt_floor_add_one q
    exact_mod_cast this
  constructor
  · apply Real.le_sqrt_of_sq_le
    have := Nat.sqrt_le' ⌊q⌋₊
    have h3 : (((Nat.sqrt ⌊q⌋₊ : ℕ) : ℝ)) ^ 2 ≤ ((⌊q⌋₊ : ℕ) : ℝ) := by exact_mod_cast this
    push_cast
    linarith
  · have := Nat.lt_succ_sqrt' ⌊q⌋₊
    have h3 : ((⌊q⌋₊ : ℕ) : ℝ) + 1 ≤ (((Nat.sqrt ⌊q⌋₊ : ℕ) : ℝ) + 1) ^ 2 := by
      have h4 : ⌊q⌋₊ + 1 ≤ (Nat.sqrt ⌊q⌋₊).succ ^ 2 := this
      exact_mod_cast h4
    push_cast
    rw [Real.sqrt_lt' (by positivity)]
    linarith

/-- On a square image with `n · n` samples per pixel the grid has `n` columns and `n` rows. -/
theorem grid_square (n : ℕ) (s : ℤ) (hs : 1 ≤ s) :
    grid_width ((n * n : ℕ) : ℤ) s s = (n : ℤ) ∧ grid_height ((n * n : ℕ) : ℤ) s s = (n : ℤ) := by
  have hs' : (s : ℚ) ≠ 0 := by
    have : (0 : ℚ) < (s : ℚ) := by exact_mod_cast (by omega : 0 < s)
    exact this.ne'
  have e : 1 * (((n * n : ℕ) : ℤ) : ℚ) * (s : ℚ) / (s : ℚ) = ((n * n : ℕ) : ℚ) := by
    field_simp
  unfold grid_width grid_height sqrt_to_int
  rw [e, Nat.floor_natCast, Nat.sqrt_eq]
  exact ⟨rfl, rfl⟩

/-- The offsets of sample `k = b · n + a` on a square image with `n · n` samples per pixel:
the centre of cell `(a, b)` of the `n` by `n` grid. -/
theorem sample_offset_square (n : ℕ) (hn : 1 ≤ n) (s : ℤ) (hs : 1 ≤ s) (a b : ℤ)
    (ha : 0 ≤ a ∧ a < n) (hb : 0 ≤ b) :
    sample_offset ((n * n : ℕ) : ℤ) s s (b * n + a) =
      some (((a : ℚ) + 1 / 2) / (n : ℚ), ((b : ℚ) + 1 / 2) / (n : ℚ)) := by
  obtain ⟨hw, hh⟩ := grid_square n s hs
  have hn0 : (n : ℤ) ≠ 0 := by omega
  have hnq : (n : ℚ) ≠ 0 := by exact_mod_cast (by omega : n ≠ 0)
  have hk : 0 ≤ b * (n : ℤ) + a := by nlinarith [ha.1]
  unfold sample_offset
  simp only [hw, hh]
  rw [if_neg (by simp [hn0])]
  rw [Int.tmod_eq_emod hk (by omega), Int.tdiv_eq_ediv hk (by omega)]
  have e1 : (b * (n : ℤ) + a) % (n : ℤ) = a := by
    rw [Int.add_comm, Int.add_mul_emod_self]
    exact Int.emod_eq_of_lt ha.1 ha.2
  have e2 : (b * (n : ℤ) + a) / (n : ℤ) = b := by
    rw [Int.add_comm, Int.add_mul_ediv_right _ _ hn0, Int.ediv_eq_zero_of_lt ha.1 ha.2, zero_add]
  rw [e1, e2]
  congr 1
  simp only [Int.cast_natCast, Prod.mk.injEq]
  constructor <;> field_simp <;> ring

/-- Sample `k` of a square image with `n · n` samples per pixel lies in cell
`(k mod n, k div n)` of the grid. -/
theorem sample_cell (n : ℕ) (hn : 1 ≤ n) (k : ℤ) (hk : 0 ≤ k ∧ k < ((n * n : ℕ) : ℤ)) :
    (0 ≤ k % (n : ℤ) ∧ k % (n : ℤ) < n) ∧ (0 ≤ k / (n : ℤ) ∧ k / (n : ℤ) < n) ∧
      k = k / (n : ℤ) * n + k % (n : ℤ) := by
  have hn0 : (0 : ℤ) < n := by omega
  refine ⟨⟨Int.emod_nonneg k hn0.ne', Int.emod_lt_of_pos k hn0⟩,
    ⟨Int.ediv_nonneg hk.1 hn0.le, ?_⟩, ?_⟩
  · apply Int.ediv_lt_of_lt_mul hn0
    have := hk.2
    push_cast at this
    exact this
  · have := Int.ediv_add_emod k (n : ℤ)
    linarith [mul_comm (n : ℤ) (k / (n : ℤ))]

/-- Claim C25, amended (the grid of sub-pixel samples): in `Renderer::Render`, on a square
image (`scene.width = scene.height ≥ 1`) and with `spp = n · n` samples per pixel, `n ≥ 1`,
the locals `width` and `height` are both `n`; for `k = 0, …, spp − 1` the offsets
`(wstep/2 + wstep·(k mod width), hstep/2 + hstep·(k div height))` are defined, are the centre
`((a + 1/2)/n, (b + 1/2)/n)` of cell `(a, b) = (k mod n, k div n)` of the `n` by `n` grid, lie
in `[0,1) × [0,1)`, and are pairwise distinct; and every cell of the grid holds the offsets of
one `k`. -/
theorem sample_grid (n : ℕ) (hn : 1 ≤ n) (s : ℤ) (hs : 1 ≤ s) :
    (grid_width ((n * n : ℕ) : ℤ) s s = (n : ℤ) ∧ grid_height ((n * n : ℕ) : ℤ) s s = (n : ℤ)) ∧
    (∀ k : ℤ, 0 ≤ k ∧ k < ((n * n : ℕ) : ℤ) →
      ∃ x y : ℚ, sample_offset ((n * n : ℕ) : ℤ) s s k = some (x, y) ∧
        x = (((k % (n : ℤ) : ℤ) : ℚ) + 1 / 2) / (n : ℚ) ∧
        y = (((k / (n : ℤ) : ℤ) : ℚ) + 1 / 2) / (n : ℚ) ∧
        (0 ≤ x ∧ x < 1) ∧ (0 ≤ y ∧ y < 1)) ∧
    (∀ k k' : ℤ, 0 ≤ k ∧ k < ((n * n : ℕ) : ℤ) → 0 ≤ k' ∧ k' < ((n * n : ℕ) : ℤ) →
      sample_offset ((n * n : ℕ) : ℤ) s s k = sample_offset ((n * n : ℕ) : ℤ) s s k' → k = k') ∧
    (∀ a b : ℤ, 0 ≤ a ∧ a < n → 0 ≤ b ∧ b < n →
      ∃ k : ℤ, (0 ≤ k ∧ k < ((n * n : ℕ) : ℤ)) ∧
        sample_offset ((n * n : ℕ) : ℤ) s s k =
          some (((a : ℚ) + 1 / 2) / (n : ℚ), ((b : ℚ) + 1 / 2) / (n : ℚ))) := by
  have hnq : (0 : ℚ) < (n : ℚ) := by exact_mod_cast (by omega : 0 < n)
  have key : ∀ k : ℤ, 0 ≤ k ∧ k < ((n * n : ℕ) : ℤ) →
      sample_offset ((n * n : ℕ) : ℤ) s s k =
        some ((((k % (n : ℤ) : ℤ) : ℚ) + 1 / 2) / (n : ℚ),
          (((k / (n : ℤ) : ℤ) : ℚ) + 1 / 2) / (n : ℚ)) := by
    intro k hk
    obtain ⟨ha, hb, e⟩ := sample_cell n hn k hk
    have := sample_offset_square n hn s hs (k % (n : ℤ)) (k / (n : ℤ)) ha hb.1
    rw [← e] at this
    exact this
  have unit : ∀ c : ℤ, 0 ≤ c ∧ c < n →
      0 ≤ ((c : ℚ) + 1 / 2) / (n : ℚ) ∧ ((c : ℚ) + 1 / 2) / (n : ℚ) < 1 := by
    intro c hc
    have h0 : (0 : ℚ) ≤ (c : ℚ) := by exact_mod_cast hc.1
    have h1 : (c : ℚ) + 1 ≤ (n : ℚ) := by exact_mod_cast (by omega : c + 1 ≤ (n : ℤ))
    constructor
    · positivity
    · rw [div_lt_one hnq]
      linarith
  refine ⟨grid_square n s hs, ?_, ?_, ?_⟩
  · intro k hk
    obtain ⟨ha, hb, -⟩ := sample_cell n hn k hk
    exact ⟨_, _, key k hk, rfl, rfl, unit _ ha, unit _ hb⟩
  · intro k k' hk hk' h
    rw [key k hk, key k' hk'] at h
    simp only [Option.some.injEq, Prod.mk.injEq] at h
    obtain ⟨h1, h2⟩ := h
    have e1 : k % (n : ℤ) = k' % (n : ℤ) := by
      have := (div_left_inj' hnq.ne').1 h1
      exact_mod_cast add_right_cancel this
    have e2 : k / (n : ℤ) = k' / (n : ℤ) := by
      have := (div_left_inj' hnq.ne').1 h2
      exact_mod_cast add_right_cancel this
    obtain ⟨-, -, e⟩ := sample_cell n hn k hk
    obtain ⟨-, -, e'⟩ := sample_cell n hn k' hk'
    rw [e, e', e1, e2]
  · intro a b ha hb
    refine ⟨b * n + a, ⟨by nlinarith [ha.1, hb.1], ?_⟩, sample_offset_square n hn s hs a b ha hb.1⟩
    push_cast
    nlinarith [ha.2, hb.2, ha.1, hb.1]

/-- An instance of `sample_grid`: 16 samples per pixel on a 784 by 784 image, a 4 by 4 grid;
sample 6 lies at the centre of cell `(2, 1)`. -/
theorem sample_grid_witness :
    (1 ≤ 4 ∧ (1 : ℤ) ≤ 784) ∧
    grid_width 16 784 784 = 4 ∧ grid_height 16 784 784 = 4 ∧
    sample_offset 16 784 784 6 = some (5 / 8, 3 / 8) :=
  ⟨by decide, (sample_grid 4 (by decide) 784 (by decide)).1.1,
    (sample_grid 4 (by decide) 784 (by decide)).1.2, by decide!⟩

/-- Claim C25 fails as stated.  With `spp = 1` on a 1280 by 960 image the local `height` is
`⌊√(960/1280)⌋ = 0`, so `hstep` and `k / height` are not defined.  With `spp = 2` on a square
image the grid is 1 by 1, and sample `1` has the offsets `(1/2, 3/2)`, outside the pixel.  With
`spp = 12` on a 4 by 3 image the grid is 4 by 3, and sample `11` has the offsets
`(7/8, 7/6)`, outside the pixel. -/
theorem sample_grid_counterexample :
    (grid_width 1 1280 960 = 1 ∧ grid_height 1 1280 960 = 0 ∧
      sample_offset 1 1280 960 0 = none) ∧
    (grid_width 2 784 784 = 1 ∧ grid_height 2 784 784 = 1 ∧
      sample_offset 2 784 784 1 = some (1 / 2, 3 / 2) ∧ ¬ ((3 : ℚ) / 2 < 1)) ∧
    (grid_width 12 4 3 = 4 ∧ grid_height 12 4 3 = 3 ∧
      sample_offset 12 4 3 11 = some (7 / 8, 7 / 6) ∧ ¬ ((7 : ℚ) / 6 < 1)) := by
  refine ⟨⟨by decide!, by decide!, by decide!⟩, ⟨by decide!, by decide!, by decide!, by norm_num⟩,
    ⟨by decide!, by decide!, by decide!, by norm_num⟩⟩

end Assignment7

namespace Assignment4

/-! ## The Bézier curve -/

section

variable {K : Type} [Field K]

/-- Two points with equal coordinates are equal. -/
theorem Point2f.eq_of_coordinates {F : Type} (a b : Point2f F) (hx : a.x = b.x) (hy : a.y = b.y) :
    a = b := by
  cases a
  cases b
  simp only [Point2f.mk.injEq]
  exact ⟨hx, hy⟩

/-- On four control points `recursive_bezier` returns after four nested calls, with the value
of the cubic Bernstein polynomial. -/
theorem recursive_bezier_four (p0 p1 p2 p3 : Point2f K) (t : K) (more : ℕ) :
    recursive_bezier (4 + more) [p0, p1, p2, p3] t =
      some (naive_bezier_point p0 p1 p2 p3 t) := by
  have e : 4 + more = more + 1 + 1 + 1 + 1 := by ring
  rw [e]
  simp only [recursive_bezier, lerp_points, List.length_cons, List.length_nil, List.tail_cons,
    List.zipWith_cons_cons, List.zipWith_nil_right, List.zipWith_nil_left]
  norm_num
  apply Point2f.eq_of_coordinates
  · show _ = (1 - t) ^ 3 * p0.x + 3 * t * (1 - t) ^ 2 * p1.x + 3 * t ^ 2 * (1 - t) * p2.x
      + t ^ 3 * p3.x
    simp only [lerp2f]
    show (p0.x + (p1.x - p0.x) * t + ((p1.x + (p2.x - p1.x) * t) - (p0.x + (p1.x - p0.x) * t)) * t)
      + (((p1.x + (p2.x - p1.x) * t) + ((p2.x + (p3.x - p2.x) * t) - (p1.x + (p2.x - p1.x) * t)) * t)
        - (p0.x + (p1.x - p0.x) * t + ((p1.x + (p2.x - p1.x) * t) - (p0.x + (p1.x - p0.x) * t)) * t))
        * t = _
    ring
  · show _ = (1 - t) ^ 3 * p0.y + 3 * t * (1 - t) ^ 2 * p1.y + 3 * t ^ 2 * (1 - t) * p2.y
      + t ^ 3 * p3.y
    simp only [lerp2f]
    show (p0.y + (p1.y - p0.y) * t + ((p1.y + (p2.y - p1.y) * t) - (p0.y + (p1.y - p0.y) * t)) * t)
      + (((p1.y + (p2.y - p1.y) * t) + ((p2.y + (p3.y - p2.y) * t) - (p1.y + (p2.y - p1.y) * t)) * t)
        - (p0.y + (p1.y - p0.y) * t + ((p1.y + (p2.y - p1.y) * t) - (p0.y + (p1.y - p0.y) * t)) * t))
        * t = _
    ring

/-- A loop whose every step succeeds collects the results of all its steps. -/
theorem mapM_some {α β : Type} (f : α → β) (l : List α) :
    l.mapM (fun a => some (f a)) = some (l.map f) := by
  induction l with
  | nil => rfl
  | cons a l ih =>
    rw [List.mapM_cons, ih]
    rfl

/-- Claim C27 (de Casteljau equals the Bernstein form): for every four control points and
every parameter `t`, over exact arithmetic, `recursive_bezier` returns within four nested calls
(and with any larger allowance) the point
`(1−t)³·p0 + 3t(1−t)²·p1 + 3t²(1−t)·p2 + t³·p3` that `naive_bezier` computes for `t`; hence
`bezier` and `naive_bezier` hand the same points to `shading`, in the same order. -/
theorem de_casteljau_is_bernstein (p0 p1 p2 p3 : Point2f K) (t : K) (more : ℕ) :
    recursive_bezier (4 + more) [p0, p1, p2, p3] t = some (naive_bezier_point p0 p1 p2 p3 t) ∧
    naive_bezier_point p0 p1 p2 p3 t =
      ⟨(1 - t) ^ 3 * p0.x + 3 * t * (1 - t) ^ 2 * p1.x + 3 * t ^ 2 * (1 - t) * p2.x
          + t ^ 3 * p3.x,
        (1 - t) ^ 3 * p0.y + 3 * t * (1 - t) ^ 2 * p1.y + 3 * t ^ 2 * (1 - t) * p2.y
          + t ^ 3 * p3.y⟩ ∧
    bezier (4 + more) [p0, p1, p2, p3] = naive_bezier [p0, p1, p2, p3] ∧
    ∃ l : List (Point2f K), naive_bezier [p0, p1, p2, p3] = some l ∧ l.length = 1001 := by
  refine ⟨recursive_bezier_four p0 p1 p2 p3 t more, rfl, ?_, ⟨_, rfl, ?_⟩⟩
  · unfold bezier naive_bezier
    simp only [recursive_bezier_four]
    exact mapM_some _ _
  · simp [tValues]

end

/-- Claim C26, amended (the midpoint of the demonstration curve): on the control points
`(100,100)`, `(200,500)`, `(500,500)`, `(600,100)` at `t = 1/2`, `recursive_bezier` returns
within four nested calls (and with any larger allowance) the point `(350, 400)`, so that its
`x` and `y` are both within one pixel of `(350, 400)`. -/
theorem bezier_midpoint (more : ℕ) :
    ∃ p : Point2f ℚ,
      recursive_bezier (4 + more)
        [(⟨100, 100⟩ : Point2f ℚ), ⟨200, 500⟩, ⟨500, 500⟩, ⟨600, 100⟩] (1 / 2) = some p ∧
      p = ⟨350, 400⟩ ∧ |p.x - 350| ≤ 1 ∧ |p.y - 400| ≤ 1 := by
  refine ⟨⟨350, 400⟩, ?_, rfl, by norm_num, by norm_num⟩
  rw [recursive_bezier_four]
  decide!

/-- Claim C26 fails as stated: on the four control points of the demonstration, at `t = 1/2`,
`recursive_bezier` returns `(350, 400)`, whose `y` is `50` away from `350`. -/
theorem bezier_midpoint_counterexample :
    ∃ p : Point2f ℚ,
      recursive_bezier 4 [(⟨100, 100⟩ : Point2f ℚ), ⟨200, 500⟩, ⟨500, 500⟩, ⟨600, 100⟩] (1 / 2) =
        some p ∧
      p = ⟨350, 400⟩ ∧ |p.x - 350| ≤ 1 ∧ ¬ |p.y - 350| ≤ 1 := by
  refine ⟨⟨350, 400⟩, by decide!, rfl, by norm_num, by norm_num⟩

end Assignment4

/-! ## The frame of `clear`, and accesses without super-sampling -/

/-- Claim C29 (`clear` changes only the buffers named by its mask): `clear(Color)` leaves
`depth_buf` unchanged and `clear(Depth)` leaves `frame_buf` unchanged; more generally a mask
without the `Color` bit leaves `frame_buf` unchanged and a mask without the `Depth` bit leaves
`depth_buf` unchanged; and for every mask `clear` leaves `color_buf`, the three maps of loaded
buffers, `next_id`, the three matrices and the sizes unchanged. -/
theorem clear_frame (r : rasterizer) (mask : Buffers) :
    (r.clear Buffers.Color).depth_buf = r.depth_buf ∧
    (r.clear Buffers.Depth).frame_buf = r.frame_buf ∧
    (Buffers.and mask Buffers.Color ≠ Buffers.Color → (r.clear mask).frame_buf = r.frame_buf) ∧
    (Buffers.and mask Buffers.Depth ≠ Buffers.Depth → (r.clear mask).depth_buf = r.depth_buf) ∧
    (r.clear mask).color_buf = r.color_buf ∧
    ((r.clear mask).pos_buf = r.pos_buf ∧ (r.clear mask).ind_buf = r.ind_buf ∧
      (r.clear mask).col_buf = r.col_buf) ∧
    (r.clear mask).next_id = r.next_id ∧
    ((r.clear mask).model = r.model ∧ (r.clear mask).view = r.view ∧
      (r.clear mask).projection = r.projection) ∧
    ((r.clear mask).width = r.width ∧ (r.clear mask).height = r.height ∧
      (r.clear mask).super_sample = r.super_sample) := by
  have hC : ¬ Buffers.and Buffers.Color Buffers.Depth = Buffers.Depth := by decide
  have hD : ¬ Buffers.and Buffers.Depth Buffers.Color = Buffers.Color := by decide
  refine ⟨?_, ?_, ?_, ?_, ?_, ⟨?_, ?_, ?_⟩, ?_, ⟨?_, ?_, ?_⟩, ?_, ?_, ?_⟩
  · unfold rasterizer.clear
    simp only [hC, if_false]
    split_ifs <;> rfl
  · unfold rasterizer.clear
    simp only [hD, if_false]
    split_ifs <;> rfl
  · intro h
    unfold rasterizer.clear
    simp only [h, if_false]
    split_ifs <;> rfl
  · intro h
    unfold rasterizer.clear
    simp only [h, if_false]
    split_ifs <;> rfl
  all_goals
    unfold rasterizer.clear
    simp only []
    split_ifs <;> rfl

/-! ## Monotonicity of the depth buffer -/

/-- A successful write `buf[i] = a` is in range and gives the list with entry `i` replaced. -/
theorem vecSet_some {α : Type} (buf buf' : List α) (i : ℤ) (a : α)
    (h : vecSet buf i a = some buf') :
    (0 ≤ i ∧ i < (buf.length : ℤ)) ∧ buf' = buf.set i.toNat a := by
  unfold vecSet at h
  split_ifs at h with hc
  exact ⟨hc, (Option.some.inj h).symm⟩

/-- A loop whose steps are each related to their start by a reflexive and transitive relation
relates its end to its start. -/
theorem foldlM_rel {σ α : Type} (R : σ → σ → Prop) (P : σ → Prop) (f : σ → α → Option σ)
    (hrefl : ∀ s, R s s) (htrans : ∀ s s' s'', R s s' → R s' s'' → R s s'')
    (hstep : ∀ s a s', P s → f s a = some s' → R s s' ∧ P s') (L : List α) :
    ∀ s s', P s → L.foldlM f s = some s' → R s s' ∧ P s' := by
  induction L with
  | nil =>
    intro s s' hP h
    obtain rfl : s = s' := Option.some.inj h
    exact ⟨hrefl s, hP⟩
  | cons a L ih =>
    intro s s' hP h
    rw [List.foldlM_cons] at h
    cases hf : f s a with
    | none =>
      rw [hf] at h
      exact absurd h (by simp)
    | some s₁ =>
      rw [hf] at h
      obtain ⟨h1, hP1⟩ := hstep s a s₁ hP hf
      obtain ⟨h2, hP2⟩ := ih s₁ s' hP1 h
      exact ⟨htrans s s₁ s' h1 h2, hP2⟩

namespace Assignment4

/-! ## Termination of the de Casteljau recursion -/

section

variable {K : Type} [Field K]

/-- The vector `lerp_points` has one entry less than `control_points`. -/
theorem length_lerp_points (control_points : List (Point2f K)) (t : K) :
    (lerp_points control_points t).length = control_points.length - 1 := by
  unfold lerp_points
  rw [List.length_zipWith, List.length_tail]
  omega

/-- One call of `recursive_bezier` on a list that has not exactly one entry is the call on
`lerp_points`. -/
theorem recursive_bezier_step (control_points : List (Point2f K)) (t : K)
    (h : control_points.length ≠ 1) (fuel : ℕ) :
    recursive_bezier (fuel + 1) control_points t =
      recursive_bezier fuel (lerp_points control_points t) t := by
  rw [recursive_bezier, if_neg h]

/-- On the empty list `recursive_bezier` calls itself on the empty list, without end. -/
theorem recursive_bezier_nil (t : K) (fuel : ℕ) :
    recursive_bezier fuel ([] : List (Point2f K)) t = none := by
  induction fuel with
  | zero => rfl
  | succ n ih =>
    rw [recursive_bezier_step [] t (by simp) n]
    exact ih

/-- On a single control point `recursive_bezier` returns that point. -/
theorem recursive_bezier_single (p : Point2f K) (t : K) (fuel : ℕ) :
    recursive_bezier (fuel + 1) [p] t = some p := by
  rw [recursive_bezier, if_pos (by simp)]
  rfl

/-- On a list of `n + 1` control points `recursive_bezier` returns within `n + 1` nested calls,
and not within fewer. -/
theorem recursive_bezier_depth (t : K) (n : ℕ) :
    ∀ control_points : List (Point2f K), control_points.length = n + 1 →
      ∃ p, ∀ fuel : ℕ,
        (n + 1 ≤ fuel → recursive_bezier fuel control_points t = some p) ∧
        (fuel < n + 1 → recursive_bezier fuel control_points t = none) := by
  induction n with
  | zero =>
    intro l hl
    obtain ⟨p, rfl⟩ := List.length_eq_one.1 hl
    refine ⟨p, fun fuel => ⟨fun h => ?_, fun h => ?_⟩⟩
    · obtain ⟨f, rfl⟩ : ∃ f, fuel = f + 1 := ⟨fuel - 1, by omega⟩
      exact recursive_bezier_single p t f
    · obtain rfl : fuel = 0 := by omega
      rfl
  | succ n ih =>
    intro l hl
    have hlen : (lerp_points l t).length = n + 1 := by
      rw [length_lerp_points, hl]
      omega
    obtain ⟨p, hp⟩ := ih (lerp_points l t) hlen
    refine ⟨p, fun fuel => ⟨fun h => ?_, fun h => ?_⟩⟩
    · obtain ⟨f, rfl⟩ : ∃ f, fuel = f + 1 := ⟨fuel - 1, by omega⟩
      rw [recursive_bezier_step l t (by omega) f]
      exact (hp f).1 (by omega)
    · cases fuel with
      | zero => rfl
      | succ f =>
        rw [recursive_bezier_step l t (by omega) f]
        exact (hp f).2 (by omega)

/-- Claim C32 (`recursive_bezier` terminates): for every non-empty list of `n` control points
and every `t`, `recursive_bezier` returns a point within `n` nested calls (the call itself and
`n − 1` recursive calls) and with any larger allowance, and does not return within fewer; a
call on a list that has not exactly one entry is the call on `lerp_points`, which has one entry
less; on a single control point the point itself is returned; and on the empty list no
allowance is enough: the recursion has no end. -/
theorem recursive_bezier_terminates (control_points : List (Point2f K)) (t : K)
    (hne : control_points ≠ []) :
    (∃ p, ∀ fuel : ℕ,
      (control_points.length ≤ fuel → recursive_bezier fuel control_points t = some p) ∧
      (fuel < control_points.length → recursive_bezier fuel control_points t = none)) ∧
    (control_points.length ≠ 1 →
      (lerp_points control_points t).length = control_points.length - 1 ∧
      lerp_points control_points t ≠ [] ∧
      ∀ fuel : ℕ, recursive_bezier (fuel + 1) control_points t =
        recursive_bezier fuel (lerp_points control_points t) t) ∧
    (∀ (p : Point2f K) (fuel : ℕ), recursive_bezier (fuel + 1) [p] t = some p) ∧
    (∀ fuel : ℕ, recursive_bezier fuel ([] : List (Point2f K)) t = none) := by
  have hpos : 0 < control_points.length := List.length_pos.2 hne
  refine ⟨?_, ?_, fun p fuel => recursive_bezier_single p t fuel, recursive_bezier_nil t⟩
  · obtain ⟨p, hp⟩ := recursive_bezier_depth t (control_points.length - 1) control_points (by omega)
    refine ⟨p, fun fuel => ⟨fun h => (hp fuel).1 (by omega), fun h => (hp fuel).2 (by omega)⟩⟩
  · intro h1
    refine ⟨length_lerp_points control_points t, ?_, recursive_bezier_step control_points t h1⟩
    intro he
    have := length_lerp_points control_points t
    rw [he] at this
    simp at this
    omega

end

/-- An instance of `recursive_bezier_terminates`: the three control points `(0,0)`, `(2,4)`,
`(4,0)` at `t = 1/2`; the point `(2, 2)` is returned within three nested calls and not within
two. -/
theorem recursive_bezier_terminates_witness :
    [(⟨0, 0⟩ : Point2f ℚ), ⟨2, 4⟩, ⟨4, 0⟩] ≠ [] ∧
    recursive_bezier 3 [(⟨0, 0⟩ : Point2f ℚ), ⟨2, 4⟩, ⟨4, 0⟩] (1 / 2) = some ⟨2, 2⟩ ∧
    recursive_bezier 2 [(⟨0, 0⟩ : Point2f ℚ), ⟨2, 4⟩, ⟨4, 0⟩] (1 / 2) = none ∧
    ∃ p, ∀ fuel : ℕ,
      ([(⟨0, 0⟩ : Point2f ℚ), ⟨2, 4⟩, ⟨4, 0⟩].length ≤ fuel →
        recursive_bezier fuel [(⟨0, 0⟩ : Point2f ℚ), ⟨2, 4⟩, ⟨4, 0⟩] (1 / 2) = some p) ∧
      (fuel < [(⟨0, 0⟩ : Point2f ℚ), ⟨2, 4⟩, ⟨4, 0⟩].length →
        recursive_bezier fuel [(⟨0, 0⟩ : Point2f ℚ), ⟨2, 4⟩, ⟨4, 0⟩] (1 / 2) = none) :=
  ⟨by simp, by decide!, by decide!,
    (recursive_bezier_terminates [(⟨0, 0⟩ : Point2f ℚ), ⟨2, 4⟩, ⟨4, 0⟩] (1 / 2) (by simp)).1⟩

end Assignment4

namespace Assignment7

/-! ## The depth argument of the path tracer -/

section

variable {K Obj Mat Rng : Type} [LinearOrderedField K]

/-- The body of `case GLOSSY` uses `depth` only to pass `depth + 1` to the recursive call, and
reads from the scene the constant `RussianRoulette` only. -/
theorem case_GLOSSY_depth (env : Collaborators K Obj Mat Rng) (scene scene' : Scene K Obj)
    (hRR : scene'.RussianRoulette = scene.RussianRoulette)
    (self self' : Ray K → ℤ → Rng → Option (Vector3f K × Rng)) (ray : Ray K) (depth depth' : ℤ)
    (inter_obj : Intersection K Obj Mat) (g : Rng)
    (h : ∀ (R : Ray K) (g' : Rng), self' R (depth' + 1) g' = self R (depth + 1) g') :
    case_GLOSSY env scene' self' ray depth' inter_obj g =
      case_GLOSSY env scene self ray depth inter_obj g := by
  unfold case_GLOSSY
  simp only [hRR, h]

/-- The body of `case DIFFUSE` reads from the scene the list of objects only. -/
theorem case_DIFFUSE_scene (env : Collaborators K Obj Mat Rng)
    (caps : ObjectCaps K Obj (LightSample K Obj Mat Rng)) (scene scene' : Scene K Obj)
    (hobj : scene'.objects = scene.objects) (ray : Ray K)
    (inter_obj : Intersection K Obj Mat) (g : Rng) :
    case_DIFFUSE env caps scene' ray inter_obj g = case_DIFFUSE env caps scene ray inter_obj g := by
  unfold case_DIFFUSE
  rw [hobj]

/-- The body of `castRay` uses `depth` only to pass `depth + 1` to the recursive call, and
reads from the scene the constant `RussianRoulette` and the list of objects only. -/
theorem castRay_body_depth (env : Collaborators K Obj Mat Rng)
    (caps : ObjectCaps K Obj (LightSample K Obj Mat Rng)) (scene scene' : Scene K Obj)
    (hRR : scene'.RussianRoulette = scene.RussianRoulette)
    (hobj : scene'.objects = scene.objects)
    (self self' : Ray K → ℤ → Rng → Option (Vector3f K × Rng)) (ray : Ray K) (depth depth' : ℤ)
    (g : Rng)
    (h : ∀ (R : Ray K) (g' : Rng), self' R (depth' + 1) g' = self R (depth + 1) g') :
    castRay_body env caps scene' self' ray depth' g =
      castRay_body env caps scene self ray depth g := by
  unfold castRay_body shade
  simp only [case_DIFFUSE_scene env caps scene scene' hobj,
    case_GLOSSY_depth env scene scene' hRR self self' ray depth depth' _ _ h]

/-- The value of `castRay` is the same for any two depth arguments and any two scenes with the
same objects and the same `RussianRoulette`. -/
theorem castRay_depth (env : Collaborators K Obj Mat Rng)
    (caps : ObjectCaps K Obj (LightSample K Obj Mat Rng)) (scene scene' : Scene K Obj)
    (hRR : scene'.RussianRoulette = scene.RussianRoulette)
    (hobj : scene'.objects = scene.objects) (fuel : ℕ) :
    ∀ (ray : Ray K) (depth depth' : ℤ) (g : Rng),
      castRay env caps scene' fuel ray depth' g = castRay env caps scene fuel ray depth g := by
  induction fuel with
  | zero =>
    intro ray depth depth' g
    rfl
  | succ n ih =>
    intro ray depth depth' g
    show castRay_body env caps scene' (castRay env caps scene' n) ray depth' g =
      castRay_body env caps scene (castRay env caps scene n) ray depth g
    exact castRay_body_depth env caps scene scene' hRR hobj _ _ ray depth depth' g
      (fun R g' => ih R (depth + 1) (depth' + 1) g')

/-- For a material type other than `DIFFUSE` and `GLOSSY` the `switch` of `castRay` takes
`default:` and the result is the zero vector; the recursive call is not made. -/
theorem shade_default (env : Collaborators K Obj Mat Rng)
    (caps : ObjectCaps K Obj (LightSample K Obj Mat Rng)) (scene : Scene K Obj)
    (self : Ray K → ℤ → Rng → Option (Vector3f K × Rng)) (ray : Ray K) (depth : ℤ)
    (inter_obj : Intersection K Obj Mat) (g : Rng)
    (h1 : env.getType inter_obj.m ≠ Assignment6.MaterialType.DIFFUSE)
    (h2 : env.getType inter_obj.m ≠ Assignment6.MaterialType.GLOSSY) :
    shade env caps scene self ray depth inter_obj g = some (0, g) := by
  unfold shade
  cases ht : env.getType inter_obj.m with
  | DIFFUSE => exact absurd ht h1
  | GLOSSY => exact absurd ht h2
  | REFLECTION =>
    simp only []
    rw [vector_zero_add]
  | REFLECTION_AND_REFRACTION =>
    simp only []
    rw [vector_zero_add]

/-- When the Russian-roulette draw is at most `RussianRoulette`, the sampled ray hits a surface
that does not emit and `pdf > EPSILON`, the body of `case GLOSSY` makes the recursive call of
line 226. -/
theorem case_GLOSSY_continues (env : Collaborators K Obj Mat Rng) (scene : Scene K Obj)
    (self : Ray K → ℤ → Rng → Option (Vector3f K × Rng)) (ray : Ray K) (depth : ℤ)
    (inter_obj : Intersection K Obj Mat) (g : Rng)
    (hdraw : (env.get_random_float g).1 ≤ scene.RussianRoulette)
    (hhit : (env.intersect ⟨inter_obj.coords, env.normalized
      (env.sample inter_obj.m ray.direction inter_obj.normal
        (env.get_random_float g).2).1⟩).happened = true)
    (hne : env.hasEmission (env.intersect ⟨inter_obj.coords, env.normalized
      (env.sample inter_obj.m ray.direction inter_obj.normal
        (env.get_random_float g).2).1⟩).m = false)
    (hpdf : env.pdf inter_obj.m ray.direction (env.normalized
      (env.sample inter_obj.m ray.direction inter_obj.normal (env.get_random_float g).2).1)
        inter_obj.normal > EPSILON) :
    case_GLOSSY env scene self ray depth inter_obj g =
      (self ⟨inter_obj.coords, env.normalized
          (env.sample inter_obj.m ray.direction inter_obj.normal (env.get_random_float g).2).1⟩
        (depth + 1)
        (env.sample inter_obj.m ray.direction inter_obj.normal (env.get_random_float g).2).2).map
        fun c =>
          (c.1 *
            env.eval inter_obj.m ray.direction (env.normalized
              (env.sample inter_obj.m ray.direction inter_obj.normal
                (env.get_random_float g).2).1) inter_obj.normal *
            Assignment6.dotProduct (env.normalized
              (env.sample inter_obj.m ray.direction inter_obj.normal
                (env.get_random_float g).2).1) inter_obj.normal /
            env.pdf inter_obj.m ray.direction (env.normalized
              (env.sample inter_obj.m ray.direction inter_obj.normal
                (env.get_random_float g).2).1) inter_obj.normal /
            scene.RussianRoulette, c.2) := by
  unfold case_GLOSSY
  simp only []
  rw [if_pos hdraw, hhit, hne, if_pos (by rfl), if_pos hpdf]

/-- When the Russian-roulette draw is above `RussianRoulette`, or the sampled ray misses the
scene or hits an emitter, or `pdf ≤ EPSILON`, the body of `case GLOSSY` leaves `L_indir` zero
without a recursive call. -/
theorem case_GLOSSY_cut (env : Collaborators K Obj Mat Rng) (scene : Scene K Obj)
    (self : Ray K → ℤ → Rng → Option (Vector3f K × Rng)) (ray : Ray K) (depth : ℤ)
    (inter_obj : Intersection K Obj Mat) (g : Rng)
    (h : scene.RussianRoulette < (env.get_random_float g).1 ∨
      (env.intersect ⟨inter_obj.coords, env.normalized
        (env.sample inter_obj.m ray.direction inter_obj.normal
          (env.get_random_float g).2).1⟩).happened = false ∨
      env.hasEmission (env.intersect ⟨inter_obj.coords, env.normalized
        (env.sample inter_obj.m ray.direction inter_obj.normal
          (env.get_random_float g).2).1⟩).m = true ∨
      env.pdf inter_obj.m ray.direction (env.normalized
        (env.sample inter_obj.m ray.direction inter_obj.normal (env.get_random_float g).2).1)
          inter_obj.normal ≤ EPSILON) :
    ∃ g', case_GLOSSY env scene self ray depth inter_obj g = some (0, g') := by
  unfold case_GLOSSY
  simp only []
  by_cases h1 : (env.get_random_float g).1 ≤ scene.RussianRoulette
  · rw [if_pos h1]
    split_ifs with h2 h3
    · exfalso
      simp only [Bool.and_eq_true, Bool.not_eq_true'] at h2
      rcases h with h | h | h | h
      · exact absurd h1 (not_le.2 h)
      · rw [h] at h2
        exact absurd h2.1 (by simp)
      · rw [h] at h2
        exact absurd h2.2 (by simp)
      · exact absurd h3 (not_lt.2 h)
    · exact ⟨_, rfl⟩
    · exact ⟨_, rfl⟩
  · rw [if_neg h1]
    exact ⟨_, rfl⟩

/-- Claim C33, amended (no depth limit in the path tracer): for the same scene, ray and state
of the random number generator, `castRay` gives the same result for any two depth arguments,
and for any two scenes that differ in `maxDepth` (or in anything but the objects and
`RussianRoulette`).  In `case GLOSSY` the recursive call is made whenever the Russian-roulette
draw is at most `RussianRoulette`, the sampled ray hits a surface that does not emit and
`pdf > EPSILON`, whatever `depth` is; no recursive call is made when one of these fails, when
the ray given to `castRay` misses the scene or hits an emitter, or when the material type of
the hit is neither `DIFFUSE` nor `GLOSSY`. -/
theorem castRay_depth_independent (env : Collaborators K Obj Mat Rng)
    (caps : ObjectCaps K Obj (LightSample K Obj Mat Rng)) (scene : Scene K Obj) :
    (∀ (fuel : ℕ) (ray : Ray K) (depth depth' : ℤ) (g : Rng),
      castRay env caps scene fuel ray depth' g = castRay env caps scene fuel ray depth g) ∧
    (∀ scene' : Scene K Obj, scene'.RussianRoulette = scene.RussianRoulette →
      scene'.objects = scene.objects →
      ∀ (fuel : ℕ) (ray : Ray K) (depth depth' : ℤ) (g : Rng),
        castRay env caps scene' fuel ray depth' g = castRay env caps scene fuel ray depth g) ∧
    (∀ (self : Ray K → ℤ → Rng → Option (Vector3f K × Rng)) (ray : Ray K) (depth : ℤ)
      (inter_obj : Intersection K Obj Mat) (g : Rng),
      (env.get_random_float g).1 ≤ scene.RussianRoulette →
      (env.intersect ⟨inter_obj.coords, env.normalized
        (env.sample inter_obj.m ray.direction inter_obj.normal
          (env.get_random_float g).2).1⟩).happened = true →
      env.hasEmission (env.intersect ⟨inter_obj.coords, env.normalized
        (env.sample inter_obj.m ray.direction inter_obj.normal
          (env.get_random_float g).2).1⟩).m = false →
      env.pdf inter_obj.m ray.direction (env.normalized
        (env.sample inter_obj.m ray.direction inter_obj.normal (env.get_random_float g).2).1)
          inter_obj.normal > EPSILON →
      case_GLOSSY env scene self ray depth inter_obj g =
        (self ⟨inter_obj.coords, env.normalized
            (env.sample inter_obj.m ray.direction inter_obj.normal
              (env.get_random_float g).2).1⟩
          (depth + 1)
          (env.sample inter_obj.m ray.direction inter_obj.normal
            (env.get_random_float g).2).2).map
          fun c =>
            (c.1 *
              env.eval inter_obj.m ray.direction (env.normalized
                (env.sample inter_obj.m ray.direction inter_obj.normal
                  (env.get_random_float g).2).1) inter_obj.normal *
              Assignment6.dotProduct (env.normalized
                (env.sample inter_obj.m ray.direction inter_obj.normal
                  (env.get_random_float g).2).1) inter_obj.normal /
              env.pdf inter_obj.m ray.direction (env.normalized
                (env.sample inter_obj.m ray.direction inter_obj.normal
                  (env.get_random_float g).2).1) inter_obj.normal /
              scene.RussianRoulette, c.2)) ∧
    (∀ (self : Ray K → ℤ → Rng → Option (Vector3f K × Rng)) (ray : Ray K) (depth : ℤ)
      (inter_obj : Intersection K Obj Mat) (g : Rng),
      (scene.RussianRoulette < (env.get_random_float g).1 ∨
        (env.intersect ⟨inter_obj.coords, env.normalized
          (env.sample inter_obj.m ray.direction inter_obj.normal
            (env.get_random_float g).2).1⟩).happened = false ∨
        env.hasEmission (env.intersect ⟨inter_obj.coords, env.normalized
          (env.sample inter_obj.m ray.direction inter_obj.normal
            (env.get_random_float g).2).1⟩).m = true ∨
        env.pdf inter_obj.m ray.direction (env.normalized
          (env.sample inter_obj.m ray.direction inter_obj.normal (env.get_random_float g).2).1)
            inter_obj.normal ≤ EPSILON) →
      ∃ g', case_GLOSSY env scene self ray depth inter_obj g = some (0, g')) ∧
    (∀ (self : Ray K → ℤ → Rng → Option (Vector3f K × Rng)) (ray : Ray K) (depth : ℤ) (g : Rng),
      ((env.intersect ray).happened = false →
        castRay_body env caps scene self ray depth g = some (0, g)) ∧
      ((env.intersect ray).happened = true → env.hasEmission (env.intersect ray).m = true →
        castRay_body env caps scene self ray depth g =
          some (env.getEmission (env.intersect ray).m, g)) ∧
      ((env.intersect ray).happened = true → env.hasEmission (env.intersect ray).m = false →
        env.getType (env.intersect ray).m ≠ Assignment6.MaterialType.DIFFUSE →
        env.getType (env.intersect ray).m ≠ Assignment6.MaterialType.GLOSSY →
        castRay_body env caps scene self ray depth g = some (0, g))) := by
  refine ⟨fun fuel ray depth depth' g => castRay_depth env caps scene scene rfl rfl fuel ray
      depth depth' g,
    fun scene' hRR hobj fuel ray depth depth' g => castRay_depth env caps scene scene' hRR hobj
      fuel ray depth depth' g,
    fun self ray depth inter_obj g h1 h2 h3 h4 =>
      case_GLOSSY_continues env scene self ray depth inter_obj g h1 h2 h3 h4,
    fun self ray depth inter_obj g h => case_GLOSSY_cut env scene self ray depth inter_obj g h,
    fun self ray depth g => ⟨?_, ?_, ?_⟩⟩
  · intro h
    unfold castRay_body
    simp only [h, Bool.not_false, if_true]
  · intro h1 h2
    unfold castRay_body
    simp only [h1, h2, Bool.not_true, Bool.false_eq_true, if_false, if_true]
  · intro h1 h2 h3 h4
    rw [castRay_body_shade env caps scene self ray depth g h1 h2]
    exact shade_default env caps scene self ray depth _ g h3 h4

/-- In a room of `GLOSSY` walls where every draw passes the Russian roulette, `castRay` does
not return within any number of nested calls, although `maxDepth` is `1`. -/
theorem glossy_room_never_returns (sqrtf : K → K) (fuel : ℕ) :
    ∀ (ray : Ray K) (depth : ℤ) (g : ℕ),
      castRay (wallRoom sqrtf Assignment6.MaterialType.GLOSSY) noLamps wallScene fuel ray depth g
        = none := by
  induction fuel with
  | zero =>
    intro ray depth g
    rfl
  | succ n ih =>
    intro ray depth g
    show castRay_body (wallRoom sqrtf Assignment6.MaterialType.GLOSSY) noLamps wallScene
      (castRay (wallRoom sqrtf Assignment6.MaterialType.GLOSSY) noLamps wallScene n) ray depth g
        = none
    rw [castRay_body_shade _ _ _ _ ray depth g rfl rfl]
    unfold shade
    have ht : (wallRoom sqrtf Assignment6.MaterialType.GLOSSY).getType
        (((wallRoom sqrtf Assignment6.MaterialType.GLOSSY).intersect ray).m) =
        Assignment6.MaterialType.GLOSSY := rfl
    simp only [ht]
    rw [case_GLOSSY_continues _ _ _ ray depth _ g
      (by show (1 / 2 : K) ≤ 8 / 10; norm_num) rfl rfl
      (by show (1 / 2 : K) > 16 / 100000; norm_num), ih]
    rfl

end

/-- Claim C33 fails as stated: in a room of `REFLECTION` walls none of the three cuts applies
to the ray `(0,0,0) → (0,0,1)` (the draw `1/2` is at most `RussianRoulette = 0.8`, the sampled
ray hits a wall that does not emit, and `pdf = 1/2 > EPSILON`), and `castRay` returns zero
without a recursive call, whatever the recursive call would return. -/
theorem castRay_cut_counterexample :
    ((wallRoom Real.sqrt Assignment6.MaterialType.REFLECTION).intersect
      ⟨⟨0, 0, 0⟩, ⟨0, 0, 1⟩⟩).happened = true ∧
    (wallRoom Real.sqrt Assignment6.MaterialType.REFLECTION).hasEmission
      ((wallRoom Real.sqrt Assignment6.MaterialType.REFLECTION).intersect
        ⟨⟨0, 0, 0⟩, ⟨0, 0, 1⟩⟩).m = false ∧
    ((wallRoom Real.sqrt Assignment6.MaterialType.REFLECTION).get_random_float 0).1 ≤
      (wallScene : Scene ℝ ℕ).RussianRoulette ∧
    (∀ R : Ray ℝ,
      ((wallRoom Real.sqrt Assignment6.MaterialType.REFLECTION).intersect R).happened = true ∧
      (wallRoom Real.sqrt Assignment6.MaterialType.REFLECTION).hasEmission
        ((wallRoom Real.sqrt Assignment6.MaterialType.REFLECTION).intersect R).m = false) ∧
    (∀ (m : Assignment6.MaterialType) (wi wo N : Vector3f ℝ),
      (wallRoom Real.sqrt Assignment6.MaterialType.REFLECTION).pdf m wi wo N > EPSILON) ∧
    (∀ self : Ray ℝ → ℤ → ℕ → Option (Vector3f ℝ × ℕ),
      castRay_body (wallRoom Real.sqrt Assignment6.MaterialType.REFLECTION) noLamps wallScene
        self ⟨⟨0, 0, 0⟩, ⟨0, 0, 1⟩⟩ 0 0 = some (0, 0)) := by
  refine ⟨rfl, rfl, ?_, fun R => ⟨rfl, rfl⟩, ?_, ?_⟩
  · show (1 / 2 : ℝ) ≤ 8 / 10
    norm_num
  · intro m wi wo N
    show (1 / 2 : ℝ) > 16 / 100000
    norm_num
  · intro self
    rw [castRay_body_shade _ _ _ _ _ 0 0 rfl rfl]
    exact shade_default _ _ _ _ _ 0 _ 0 (by decide) (by decide)

end Assignment7

/-! ## Rounding -/

/-- The fuel-bounded halving count is the binary logarithm. -/
theorem log2Fuel_eq (k : ℕ) : ∀ n : ℕ, n ≤ k → log2Fuel k n = Nat.log 2 n := by
  induction k with
  | zero =>
    intro n hn
    have : n = 0 := by omega
    subst this
    simp [log2Fuel]
  | succ k ih =>
    intro n hn
    unfold log2Fuel
    by_cases h : n < 2
    · rw [if_pos h, Nat.log_of_lt h]
    · rw [if_neg h, Nat.log_of_one_lt_of_le (by norm_num) (by omega), ih (n / 2) (by omega)]

/-- The fuel-bounded rounded-up halving count is the upper binary logarithm. -/
theorem clog2Fuel_eq (k : ℕ) : ∀ n : ℕ, n ≤ k → clog2Fuel k n = Nat.clog 2 n := by
  induction k with
  | zero =>
    intro n hn
    have : n = 0 := by omega
    subst this
    simp [clog2Fuel, Nat.clog_of_right_le_one]
  | succ k ih =>
    intro n hn
    unfold clog2Fuel
    by_cases h : n < 2
    · rw [if_pos h, Nat.clog_of_right_le_one (by omega)]
    · have e : n + 2 - 1 = n + 1 := by omega
      rw [if_neg h, Nat.clog_of_two_le (by norm_num) (by omega), ih ((n + 1) / 2) (by omega), e]

/-- The exponent `floorLog2` computes is the integer logarithm of Mathlib. -/
theorem floorLog2_eq (q : ℚ) : floorLog2 q = Int.log 2 q := by
  unfold floorLog2 Int.log
  rw [log2Fuel_eq _ _ le_rfl, clog2Fuel_eq _ _ le_rfl]

/-- The defining bounds of `floorLog2`. -/
theorem floorLog2_spec (q : ℚ) (hq : 0 < q) :
    (2 : ℚ) ^ floorLog2 q ≤ q ∧ q < (2 : ℚ) ^ (floorLog2 q + 1) := by
  rw [floorLog2_eq]
  exact ⟨by simpa using Int.zpow_log_le_self (b := 2) (by norm_num) hq,
    by simpa using Int.lt_zpow_succ_log_self (b := 2) (by norm_num) q⟩

/-- Rounding to the nearest integer does not pass an integer above. -/
theorem roundHalfEven_le (q : ℚ) (n : ℤ) (h : q ≤ n) : roundHalfEven q ≤ n := by
  have hf : ⌊q⌋ ≤ n := by
    have := Int.floor_le q
    exact_mod_cast le_trans this h
  unfold roundHalfEven
  have key : ¬ q - ⌊q⌋ < 1 / 2 → ⌊q⌋ + 1 ≤ n := by
    intro hn
    by_contra hc
    have h1 : n ≤ ⌊q⌋ := by omega
    have h2 : (n : ℚ) ≤ (⌊q⌋ : ℚ) := by exact_mod_cast h1
    have h3 := Int.floor_le q
    have : q - ⌊q⌋ ≤ 0 := by linarith
    exact hn (by linarith)
  split_ifs with h1 h2 h3
  · exact hf
  · exact key h1
  · exact hf
  · exact key h1

/-- Rounding to the nearest integer does not pass an integer below. -/
theorem le_roundHalfEven (q : ℚ) (n : ℤ) (h : (n : ℚ) ≤ q) : n ≤ roundHalfEven q := by
  have hf : n ≤ ⌊q⌋ := Int.le_floor.mpr h
  unfold roundHalfEven
  split_ifs <;> omega

/-- Rounding an integer to the nearest integer gives it back. -/
theorem roundHalfEven_intCast (n : ℤ) : roundHalfEven (n : ℚ) = n := by
  unfold roundHalfEven
  simp

/-- A power of two with a larger exponent is an integer multiple. -/
theorem zpow_two_multiple (u e : ℤ) (h : u ≤ e) :
    ∃ n : ℤ, 0 < n ∧ (2 : ℚ) ^ e = (n : ℚ) * 2 ^ u := by
  refine ⟨2 ^ (e - u).toNat, by positivity, ?_⟩
  have h2 : ((2 : ℤ) ^ (e - u).toNat : ℤ) = ((2 : ℚ) ^ (e - u).toNat : ℚ) := by norm_cast
  have he : e = ((e - u).toNat : ℤ) + u := by
    rw [Int.toNat_of_nonneg (by linarith)]
    ring
  push_cast
  rw [← zpow_natCast, ← zpow_add₀ (by norm_num : (2 : ℚ) ≠ 0), ← he]

/-- A number of the format is a multiple of the unit in the last place at `q` when `q` is below
the normal range or the number is at least as large as the power of two below `q`. -/
theorem Format.Rep.multiple (F : Format) (f q : ℚ) (hf : F.Rep f)
    (h : floorLog2 |q| < F.emin ∨ (2 : ℚ) ^ floorLog2 |q| ≤ |f|) :
    ∃ n : ℤ, f = (n : ℚ) * 2 ^ F.ulpExp q := by
  obtain ⟨m, e, hfe, hm, he, _⟩ := hf
  have hu : F.ulpExp q ≤ e := by
    unfold Format.ulpExp
    rcases h with h | h
    · rw [max_eq_right h.le]
      exact he
    · rcases le_total (floorLog2 |q|) F.emin with hle | hle
      · rw [max_eq_right hle]
        exact he
      · rw [max_eq_left hle]
        have h1 : |f| < (2 : ℚ) ^ ((F.prec : ℤ) + e) := by
          rw [hfe, abs_mul, abs_of_pos (zpow_pos (by norm_num : (0 : ℚ) < 2) e),
            zpow_add₀ (by norm_num : (2 : ℚ) ≠ 0)]
          apply mul_lt_mul_of_pos_right _ (zpow_pos (by norm_num) e)
          have : ((|m| : ℤ) : ℚ) < ((2 ^ F.prec : ℤ) : ℚ) := by exact_mod_cast hm
          simpa using this
        have h2 := lt_of_le_of_lt h h1
        have h3 := (zpow_lt_zpow_iff_right₀ (by norm_num : (1 : ℚ) < 2)).mp h2
        linarith
  obtain ⟨n, _, hn⟩ := zpow_two_multiple _ _ hu
  exact ⟨m * n, by rw [hfe, hn]; push_cast; ring⟩

/-- Rounding does not pass a multiple of the unit in the last place above. -/
theorem Format.roundQ_le_multiple (F : Format) (q : ℚ) (n : ℤ)
    (h : q ≤ (n : ℚ) * 2 ^ F.ulpExp q) : F.roundQ q ≤ (n : ℚ) * 2 ^ F.ulpExp q := by
  have hU : (0 : ℚ) < 2 ^ F.ulpExp q := zpow_pos (by norm_num) _
  unfold Format.roundQ
  apply mul_le_mul_of_nonneg_right _ hU.le
  have : roundHalfEven (q / 2 ^ F.ulpExp q) ≤ n :=
    roundHalfEven_le _ _ ((div_le_iff₀ hU).mpr h)
  exact_mod_cast this

/-- Rounding does not pass a multiple of the unit in the last place below. -/
theorem Format.multiple_le_roundQ (F : Format) (q : ℚ) (n : ℤ)
    (h : (n : ℚ) * 2 ^ F.ulpExp q ≤ q) : (n : ℚ) * 2 ^ F.ulpExp q ≤ F.roundQ q := by
  have hU : (0 : ℚ) < 2 ^ F.ulpExp q := zpow_pos (by norm_num) _
  unfold Format.roundQ
  apply mul_le_mul_of_nonneg_right _ hU.le
  have : n ≤ roundHalfEven (q / 2 ^ F.ulpExp q) :=
    le_roundHalfEven _ _ ((le_div_iff₀ hU).mpr h)
  exact_mod_cast this

/-- Zero rounds to zero. -/
theorem Format.roundQ_zero (F : Format) : F.roundQ 0 = 0 := by
  unfold Format.roundQ
  simp [roundHalfEven]

/-- In the normal range the power of two below `q` is a multiple of the unit in the last
place. -/
theorem Format.pow_multiple (F : Format) (hp : 1 ≤ F.prec) (q : ℚ)
    (hle : F.emin ≤ floorLog2 |q|) :
    ∃ n : ℤ, 0 < n ∧ (2 : ℚ) ^ floorLog2 |q| = (n : ℚ) * 2 ^ F.ulpExp q := by
  apply zpow_two_multiple
  unfold Format.ulpExp
  rw [max_eq_left hle]
  have : (1 : ℤ) ≤ (F.prec : ℤ) := by exact_mod_cast hp
  linarith

/-- Rounding to nearest does not pass a number of the format above: the rounded value of
`q ≤ f` is at most `f`. -/
theorem Format.roundQ_le (F : Format) (hp : 1 ≤ F.prec) (q f : ℚ) (hf : F.Rep f) (h : q ≤ f) :
    F.roundQ q ≤ f := by
  rcases eq_or_ne q 0 with h0 | h0
  · rw [h0, Format.roundQ_zero]
    rw [h0] at h
    exact h
  have hq : 0 < |q| := abs_pos.mpr h0
  obtain ⟨s1, s2⟩ := floorLog2_spec |q| hq
  by_cases hm : floorLog2 |q| < F.emin ∨ (2 : ℚ) ^ floorLog2 |q| ≤ |f|
  · obtain ⟨n, hn⟩ := Format.Rep.multiple F f q hf hm
    rw [hn] at h ⊢
    exact Format.roundQ_le_multiple F q n h
  · simp only [not_or, not_lt, not_le] at hm
    obtain ⟨hle, hlt⟩ := hm
    rcases lt_or_gt_of_ne h0 with hneg | hpos
    · obtain ⟨n, _, hn⟩ := Format.pow_multiple F hp q hle
      have e := abs_of_neg hneg
      have hq' : q ≤ ((-n : ℤ) : ℚ) * 2 ^ F.ulpExp q := by
        push_cast
        rw [neg_mul, ← hn]
        linarith
      have := Format.roundQ_le_multiple F q (-n) hq'
      push_cast at this
      rw [neg_mul, ← hn] at this
      have hf' : -(2 : ℚ) ^ floorLog2 |q| < f := by
        have := neg_abs_le f
        linarith
      linarith
    · have e := abs_of_pos hpos
      have := le_abs_self f
      linarith

/-- Rounding to nearest does not pass a number of the format below: the rounded value of
`q ≥ f` is at least `f`. -/
theorem Format.le_roundQ (F : Format) (hp : 1 ≤ F.prec) (q f : ℚ) (hf : F.Rep f) (h : f ≤ q) :
    f ≤ F.roundQ q := by
  rcases eq_or_ne q 0 with h0 | h0
  · rw [h0, Format.roundQ_zero]
    rw [h0] at h
    exact h
  have hq : 0 < |q| := abs_pos.mpr h0
  obtain ⟨s1, s2⟩ := floorLog2_spec |q| hq
  by_cases hm : floorLog2 |q| < F.emin ∨ (2 : ℚ) ^ floorLog2 |q| ≤ |f|
  · obtain ⟨n, hn⟩ := Format.Rep.multiple F f q hf hm
    rw [hn] at h ⊢
    exact Format.multiple_le_roundQ F q n h
  · simp only [not_or, not_lt, not_le] at hm
    obtain ⟨hle, hlt⟩ := hm
    rcases lt_or_gt_of_ne h0 with hneg | hpos
    · have e := abs_of_neg hneg
      have := neg_abs_le f
      linarith
    · obtain ⟨n, _, hn⟩ := Format.pow_multiple F hp q hle
      have e := abs_of_pos hpos
      have hq' : (n : ℚ) * 2 ^ F.ulpExp q ≤ q := by
        rw [← hn]
        linarith
      have := Format.multiple_le_roundQ F q n hq'
      rw [← hn] at this
      have := le_abs_self f
      linarith

/-- A number of the format rounds to itself. -/
theorem Format.roundQ_exact (F : Format) (hp : 1 ≤ F.prec) (q : ℚ) (hq : F.Rep q) :
    F.roundQ q = q :=
  le_antisymm (Format.roundQ_le F hp q q hq le_rfl) (Format.le_roundQ F hp q q hq le_rfl)

/-- The result of rounding a number that lies between two numbers of the format is finite and
lies between them. -/
theorem Format.round_bounds (F : Format) (hp : 1 ≤ F.prec) (q lo hi : ℚ) (s : Bool)
    (hlo : F.Rep lo) (hhi : F.Rep hi) (h1 : lo ≤ q) (h2 : q ≤ hi) :
    (F.round q s).isFinite = true ∧ lo ≤ (F.round q s).val ∧ (F.round q s).val ≤ hi := by
  unfold Format.round
  by_cases h0 : q = 0
  · rw [if_pos h0]
    subst h0
    exact ⟨rfl, h1, h2⟩
  · rw [if_neg h0]
    have b1 := Format.le_roundQ F hp q lo hlo h1
    have b2 := Format.roundQ_le F hp q hi hhi h2
    have hov : ¬ (2 : ℚ) ^ (F.emax + 1) ≤ |F.roundQ q| := by
      obtain ⟨_, _, _, _, _, l1⟩ := hlo
      obtain ⟨_, _, _, _, _, l2⟩ := hhi
      rw [not_le, abs_lt]
      have := neg_abs_le lo
      have := le_abs_self hi
      constructor <;> linarith
    rw [if_neg hov]
    by_cases hz : F.roundQ q = 0
    · rw [if_pos hz]
      rw [hz] at b1 b2
      exact ⟨rfl, b1, b2⟩
    · rw [if_neg hz]
      exact ⟨rfl, b1, b2⟩

/-- A number of the format rounds to itself. -/
theorem Format.round_is (F : Format) (hp : 1 ≤ F.prec) (q : ℚ) (s : Bool) (hq : F.Rep q) :
    (F.round q s).Is q := by
  obtain ⟨h, h1, h2⟩ := Format.round_bounds F hp q q q s hq hq le_rfl le_rfl
  exact ⟨h, le_antisymm h2 h1⟩

/-- The sum of two finite data is the rounded sum of their values. -/
theorem Format.add_finite (F : Format) (x y : Flt) (hx : x.isFinite = true)
    (hy : y.isFinite = true) :
    F.add x y = F.round (x.val + y.val) (x.signBit && y.signBit) := by
  cases x <;> cases y <;> simp [Flt.isFinite] at hx hy <;> rfl

/-- The opposite of a finite datum is finite, with the opposite value. -/
theorem Flt.neg_is (x : Flt) (a : ℚ) (hx : x.Is a) : x.neg.Is (-a) := by
  obtain ⟨h1, h2⟩ := hx
  subst h2
  cases x <;> simp [Flt.isFinite] at h1 <;> simp [Flt.neg, Flt.Is, Flt.isFinite, Flt.val]

/-- The difference of two finite data is the rounded difference of their values. -/
theorem Format.sub_finite (F : Format) (x y : Flt) (hx : x.isFinite = true)
    (hy : y.isFinite = true) : ∃ s, F.sub x y = F.round (x.val - y.val) s := by
  obtain ⟨h1, h2⟩ := Flt.neg_is y y.val ⟨hy, rfl⟩
  refine ⟨x.signBit && y.neg.signBit, ?_⟩
  unfold Format.sub
  rw [Format.add_finite F x y.neg hx h1, h2, sub_eq_add_neg]

/-- The product of two finite data is the rounded product of their values. -/
theorem Format.mul_finite (F : Format) (x y : Flt) (hx : x.isFinite = true)
    (hy : y.isFinite = true) :
    F.mul x y = F.round (x.val * y.val) (xor x.signBit y.signBit) := by
  cases x <;> cases y <;> simp [Flt.isFinite] at hx hy <;> rfl

/-- The quotient of two finite data, the second not zero, is the rounded quotient of their
values. -/
theorem Format.div_finite (F : Format) (x y : Flt) (hx : x.isFinite = true)
    (hy : y.isFinite = true) (h0 : y.val ≠ 0) :
    F.div x y = F.round (x.val / y.val) (xor x.signBit y.signBit) := by
  cases x <;> cases y <;> simp [Flt.isFinite] at hx hy <;>
    first
    | exact absurd rfl h0
    | simp only [Format.div, if_neg h0]

/-- An exact sum: when the sum of the values is a number of the format, it is the result. -/
theorem Format.add_is (F : Format) (hp : 1 ≤ F.prec) (x y : Flt) (a b : ℚ) (hx : x.Is a)
    (hy : y.Is b) (hr : F.Rep (a + b)) : (F.add x y).Is (a + b) := by
  rw [Format.add_finite F x y hx.1 hy.1, hx.2, hy.2]
  exact Format.round_is F hp _ _ hr

/-- An exact difference. -/
theorem Format.sub_is (F : Format) (hp : 1 ≤ F.prec) (x y : Flt) (a b : ℚ) (hx : x.Is a)
    (hy : y.Is b) (hr : F.Rep (a - b)) : (F.sub x y).Is (a - b) := by
  obtain ⟨s, hs⟩ := Format.sub_finite F x y hx.1 hy.1
  rw [hs, hx.2, hy.2]
  exact Format.round_is F hp _ s hr

/-- An exact product. -/
theorem Format.mul_is (F : Format) (hp : 1 ≤ F.prec) (x y : Flt) (a b : ℚ) (hx : x.Is a)
    (hy : y.Is b) (hr : F.Rep (a * b)) : (F.mul x y).Is (a * b) := by
  rw [Format.mul_finite F x y hx.1 hy.1, hx.2, hy.2]
  exact Format.round_is F hp _ _ hr

/-- Comparison `<=` of two finite data is comparison of their values. -/
theorem Flt.le_is (x y : Flt) (a b : ℚ) (hx : x.Is a) (hy : y.Is b) :
    Flt.le x y = decide (a ≤ b) := by
  obtain ⟨h1, h2⟩ := hx
  obtain ⟨h3, h4⟩ := hy
  subst h2 h4
  cases x <;> cases y <;> simp [Flt.isFinite] at h1 h3 <;> rfl

/-- No datum is below itself. -/
theorem Flt.lt_irrefl (x : Flt) : Flt.lt x x = false := by
  cases x <;> simp [Flt.lt]

/-- The comparison `<` is asymmetric. -/
theorem Flt.lt_asymm (x y : Flt) (h : Flt.lt x y = true) : Flt.lt y x = false := by
  cases x <;> cases y <;> simp [Flt.lt, Flt.val] at h ⊢
  all_goals first | exact h.le | (rcases h with ⟨h1, h2⟩; simp [h1, h2]) | skip
  all_goals first | linarith | simp_all

/-- The comparison `<` is transitive. -/
theorem Flt.lt_trans (x y z : Flt) (h1 : Flt.lt x y = true) (h2 : Flt.lt y z = true) :
    Flt.lt x z = true := by
  cases x <;> cases y <;> cases z <;> simp [Flt.lt, Flt.val] at h1 h2 ⊢ <;>
    first | linarith | simp_all

/-- A datum below another one is below `+∞`. -/
theorem Flt.lt_inf_of_lt (x y : Flt) (h : Flt.lt x y = true) :
    Flt.lt x (Flt.inf false) = true := by
  cases x <;> cases y <;> simp [Flt.lt] at h ⊢ <;> simp_all

/-- The integers of magnitude at most `2 ^ 24`, divided by a power of two, are numbers of the
format `binary32`. -/
theorem rep32_dyadic (n : ℤ) (k : ℕ) (hn : |n| ≤ 2 ^ 24) (hk : k ≤ 125) :
    binary32.Rep ((n : ℚ) / 2 ^ k) := by
  have hmag : |(n : ℚ) / 2 ^ k| < 2 ^ (binary32.emax + 1) := by
    have h1 : |(n : ℚ) / 2 ^ k| ≤ |(n : ℚ)| := by
      rw [abs_div, abs_of_pos (by positivity : (0 : ℚ) < 2 ^ k)]
      exact div_le_self (abs_nonneg _) (one_le_pow₀ (by norm_num))
    have h2 : |(n : ℚ)| ≤ 2 ^ 24 := by exact_mod_cast hn
    have h3 : (2 : ℚ) ^ 24 < 2 ^ (binary32.emax + 1) := by
      show (2 : ℚ) ^ 24 < 2 ^ ((127 : ℤ) + 1)
      norm_num
    linarith
  rcases lt_or_eq_of_le hn with h | h
  · refine ⟨n, -(k : ℤ), ?_, ?_, ?_, hmag⟩
    · rw [zpow_neg, zpow_natCast, div_eq_mul_inv]
    · show |n| < 2 ^ 24
      exact h
    · show (-126 : ℤ) - ((24 : ℕ) - 1) ≤ -(k : ℤ)
      push_cast
      omega
  · have hev : ∃ m : ℤ, n = 2 * m ∧ |m| = 2 ^ 23 := by
      rcases abs_eq (by norm_num : (0 : ℤ) ≤ 2 ^ 24) |>.mp h with h' | h'
      · exact ⟨2 ^ 23, by rw [h']; norm_num, by norm_num⟩
      · exact ⟨-2 ^ 23, by rw [h']; norm_num, by norm_num⟩
    obtain ⟨m, hm, hm'⟩ := hev
    refine ⟨m, 1 - (k : ℤ), ?_, ?_, ?_, hmag⟩
    · rw [hm, zpow_sub₀ (by norm_num : (2 : ℚ) ≠ 0), zpow_natCast]
      push_cast
      field_simp
      ring
    · show |m| < 2 ^ 24
      rw [hm']
      norm_num
    · show (-126 : ℤ) - ((24 : ℕ) - 1) ≤ 1 - (k : ℤ)
      push_cast
      omega

/-- The integers of magnitude at most `2 ^ 24` are numbers of the format `binary32`. -/
theorem rep32_int (n : ℤ) (hn : |n| ≤ 2 ^ 24) : binary32.Rep (n : ℚ) := by
  have := rep32_dyadic n 0 hn (by norm_num)
  simpa using this

/-- The integers of magnitude at most `2 ^ 53`, divided by a power of two, are numbers of the
format `binary64`. -/
theorem rep64_dyadic (n : ℤ) (k : ℕ) (hn : |n| ≤ 2 ^ 53) (hk : k ≤ 1000) :
    binary64.Rep ((n : ℚ) / 2 ^ k) := by
  have hmag : |(n : ℚ) / 2 ^ k| < 2 ^ (binary64.emax + 1) := by
    have h1 : |(n : ℚ) / 2 ^ k| ≤ |(n : ℚ)| := by
      rw [abs_div, abs_of_pos (by positivity : (0 : ℚ) < 2 ^ k)]
      exact div_le_self (abs_nonneg _) (one_le_pow₀ (by norm_num))
    have h2 : |(n : ℚ)| ≤ 2 ^ 53 := by exact_mod_cast hn
    have h3 : (2 : ℚ) ^ 53 < 2 ^ (binary64.emax + 1) := by
      show (2 : ℚ) ^ (53 : ℕ) < 2 ^ ((1023 : ℤ) + 1)
      rw [← zpow_natCast]
      exact zpow_lt_zpow_right₀ (by norm_num) (by norm_num)
    linarith
  rcases lt_or_eq_of_le hn with h | h
  · refine ⟨n, -(k : ℤ), ?_, ?_, ?_, hmag⟩
    · rw [zpow_neg, zpow_natCast, div_eq_mul_inv]
    · show |n| < 2 ^ 53
      exact h
    · show (-1022 : ℤ) - ((53 : ℕ) - 1) ≤ -(k : ℤ)
      push_cast
      omega
  · have hev : ∃ m : ℤ, n = 2 * m ∧ |m| = 2 ^ 52 := by
      rcases abs_eq (by norm_num : (0 : ℤ) ≤ 2 ^ 53) |>.mp h with h' | h'
      · exact ⟨2 ^ 52, by rw [h']; norm_num, by norm_num⟩
      · exact ⟨-2 ^ 52, by rw [h']; norm_num, by norm_num⟩
    obtain ⟨m, hm, hm'⟩ := hev
    refine ⟨m, 1 - (k : ℤ), ?_, ?_, ?_, hmag⟩
    · rw [hm, zpow_sub₀ (by norm_num : (2 : ℚ) ≠ 0), zpow_natCast]
      push_cast
      field_simp
      ring
    · show |m| < 2 ^ 53
      rw [hm']
      norm_num
    · show (-1022 : ℤ) - ((53 : ℕ) - 1) ≤ 1 - (k : ℤ)
      push_cast
      omega

/-! ## The viewport transformation in `binary32` -/

/-- The operator `+` on `Flt` is the sum of `binary32`. -/
theorem Flt.add_def (x y : Flt) : x + y = binary32.add x y := rfl

/-- The operator `-` on `Flt` is the difference of `binary32`. -/
theorem Flt.sub_def (x y : Flt) : x - y = binary32.sub x y := rfl

/-- The operator `*` on `Flt` is the product of `binary32`. -/
theorem Flt.mul_def (x y : Flt) : x * y = binary32.mul x y := rfl

/-- The relation `<` on `Flt` is the comparison `Flt.lt`. -/
theorem Flt.lt_def (x y : Flt) : x < y ↔ Flt.lt x y = true := Iff.rfl

/-- The relation `≤` on `Flt` is the comparison `Flt.le`. -/
theorem Flt.le_def (x y : Flt) : x ≤ y ↔ Flt.le x y = true := Iff.rfl

/-- The significand of `binary32` has at least one bit. -/
theorem binary32_prec : 1 ≤ binary32.prec := by decide

/-- The significand of `binary64` has at least one bit. -/
theorem binary64_prec : 1 ≤ binary64.prec := by decide

/-- The integers of magnitude at most `2 ^ 53` are numbers of the format `binary64`. -/
theorem rep64_int (n : ℤ) (hn : |n| ≤ 2 ^ 53) : binary64.Rep (n : ℚ) := by
  have := rep64_dyadic n 0 hn (by norm_num)
  simpa using this

/-- The sum of two finite data whose exact sum lies between two numbers of the format is finite
and lies between them. -/
theorem Format.add_bounds (F : Format) (hp : 1 ≤ F.prec) (x y : Flt) (lo hi : ℚ)
    (hx : x.isFinite = true) (hy : y.isFinite = true) (hlo : F.Rep lo) (hhi : F.Rep hi)
    (h1 : lo ≤ x.val + y.val) (h2 : x.val + y.val ≤ hi) :
    (F.add x y).isFinite = true ∧ lo ≤ (F.add x y).val ∧ (F.add x y).val ≤ hi := by
  rw [Format.add_finite F x y hx hy]
  exact Format.round_bounds F hp _ lo hi _ hlo hhi h1 h2

/-- The product of two finite data whose exact product lies between two numbers of the format
is finite and lies between them. -/
theorem Format.mul_bounds (F : Format) (hp : 1 ≤ F.prec) (x y : Flt) (lo hi : ℚ)
    (hx : x.isFinite = true) (hy : y.isFinite = true) (hlo : F.Rep lo) (hhi : F.Rep hi)
    (h1 : lo ≤ x.val * y.val) (h2 : x.val * y.val ≤ hi) :
    (F.mul x y).isFinite = true ∧ lo ≤ (F.mul x y).val ∧ (F.mul x y).val ≤ hi := by
  rw [Format.mul_finite F x y hx hy]
  exact Format.round_bounds F hp _ lo hi _ hlo hhi h1 h2

/-- The quotient of two finite data, the second not zero, whose exact quotient lies between two
numbers of the format is finite and lies between them. -/
theorem Format.div_bounds (F : Format) (hp : 1 ≤ F.prec) (x y : Flt) (lo hi : ℚ)
    (hx : x.isFinite = true) (hy : y.isFinite = true) (h0 : y.val ≠ 0) (hlo : F.Rep lo)
    (hhi : F.Rep hi) (h1 : lo ≤ x.val / y.val) (h2 : x.val / y.val ≤ hi) :
    (F.div x y).isFinite = true ∧ lo ≤ (F.div x y).val ∧ (F.div x y).val ≤ hi := by
  rw [Format.div_finite F x y hx hy h0]
  exact Format.round_bounds F hp _ lo hi _ hlo hhi h1 h2

/-- The conversion of a finite datum that lies between two numbers of the format is finite and
lies between them. -/
theorem Format.convert_bounds (F : Format) (hp : 1 ≤ F.prec) (x : Flt) (lo hi : ℚ)
    (hx : x.isFinite = true) (hlo : F.Rep lo) (hhi : F.Rep hi)
    (h1 : lo ≤ x.val) (h2 : x.val ≤ hi) :
    (F.convert x).isFinite = true ∧ lo ≤ (F.convert x).val ∧ (F.convert x).val ≤ hi := by
  cases x with
  | nan => simp [Flt.isFinite] at hx
  | inf s => simp [Flt.isFinite] at hx
  | zero s => exact ⟨rfl, h1, h2⟩
  | num q => exact Format.round_bounds F hp q lo hi false hlo hhi h1 h2

/-- The conversion of an integer of magnitude at most `2 ^ 24` to `float` is exact. -/
theorem ofInt32_is (n : ℤ) (hn : |n| ≤ 2 ^ 24) : (binary32.ofInt n).Is (n : ℚ) :=
  Format.round_is binary32 binary32_prec _ false (rep32_int n hn)

/-- The conversion of an integer of magnitude at most `2 ^ 53` to `double` is exact. -/
theorem ofInt64_is (n : ℤ) (hn : |n| ≤ 2 ^ 53) : (binary64.ofInt n).Is (n : ℚ) :=
  Format.round_is binary64 binary64_prec _ false (rep64_int n hn)

namespace Binary32

/-- The constants of `draw` are the `float` values nearest to `24.95` and `25.05`. -/
theorem f1_f2_values :
    rasterizer.f1 = Flt.num (6540493 / 262144) ∧ rasterizer.f2 = Flt.num (6566707 / 262144) := by
  constructor <;> decide!

/-- The `x` (or `y`) of the viewport transformation for an image side `w` of at most `2 ^ 24`
pixels: a coordinate between two of the values `-1` and `1` is sent between their images
`0` and `w`. -/
theorem viewport_side (w : ℤ) (hw : 0 ≤ w ∧ w ≤ 2 ^ 24) (x : Flt) (lo hi : ℚ)
    (hx : x.isFinite = true) (h1 : lo ≤ x.val) (h2 : x.val ≤ hi)
    (hlo : lo = -1 ∨ lo = 1) (hhi : hi = -1 ∨ hi = 1) :
    (binary32.convert (binary64.mul (binary64.mul (Flt.num (1 / 2)) (binary64.ofInt w))
      (binary64.add x (Flt.num 1)))).isFinite = true ∧
    (w : ℚ) / 2 * (lo + 1) ≤ (binary32.convert (binary64.mul (binary64.mul (Flt.num (1 / 2))
      (binary64.ofInt w)) (binary64.add x (Flt.num 1)))).val ∧
    (binary32.convert (binary64.mul (binary64.mul (Flt.num (1 / 2)) (binary64.ofInt w))
      (binary64.add x (Flt.num 1)))).val ≤ (w : ℚ) / 2 * (hi + 1) := by
  have hw0 : (0 : ℚ) ≤ (w : ℚ) := by exact_mod_cast hw.1
  have habs : |w| ≤ 2 ^ 24 := by rw [abs_of_nonneg hw.1]; exact hw.2
  have habs' : |w| ≤ 2 ^ 53 := le_trans habs (by norm_num)
  have r0 : binary64.Rep 0 := by simpa using rep64_int 0 (by norm_num)
  have r2 : binary64.Rep 2 := by simpa using rep64_int 2 (by norm_num)
  have rw64 : binary64.Rep (w : ℚ) := rep64_int w habs'
  have s0 : binary32.Rep 0 := by simpa using rep32_int 0 (by norm_num)
  have sw32 : binary32.Rep (w : ℚ) := rep32_int w habs
  have hone : (Flt.num 1).isFinite = true := rfl
  -- the two end points of the interval are `0` or `w`
  have eA : (w : ℚ) / 2 * (lo + 1) = 0 ∨ (w : ℚ) / 2 * (lo + 1) = w := by
    rcases hlo with h | h <;> rw [h]
    · left; ring
    · right; ring
  have eB : (w : ℚ) / 2 * (hi + 1) = 0 ∨ (w : ℚ) / 2 * (hi + 1) = w := by
    rcases hhi with h | h <;> rw [h]
    · left; ring
    · right; ring
  have eA' : lo + 1 = 0 ∨ lo + 1 = 2 := by
    rcases hlo with h | h <;> rw [h] <;> norm_num
  have eB' : hi + 1 = 0 ∨ hi + 1 = 2 := by
    rcases hhi with h | h <;> rw [h] <;> norm_num
  have rA' : binary64.Rep (lo + 1) := by rcases eA' with h | h <;> rw [h] <;> assumption
  have rB' : binary64.Rep (hi + 1) := by rcases eB' with h | h <;> rw [h] <;> assumption
  have rA : binary64.Rep ((w : ℚ) / 2 * (lo + 1)) := by
    rcases eA with h | h <;> rw [h] <;> assumption
  have rB : binary64.Rep ((w : ℚ) / 2 * (hi + 1)) := by
    rcases eB with h | h <;> rw [h] <;> assumption
  have sA : binary32.Rep ((w : ℚ) / 2 * (lo + 1)) := by
    rcases eA with h | h <;> rw [h] <;> assumption
  have sB : binary32.Rep ((w : ℚ) / 2 * (hi + 1)) := by
    rcases eB with h | h <;> rw [h] <;> assumption
  -- `x + 1.0`
  obtain ⟨a1, a2, a3⟩ := Format.add_bounds binary64 binary64_prec x (Flt.num 1) (lo + 1) (hi + 1)
    hx hone rA' rB' (by show lo + 1 ≤ x.val + 1; linarith) (by show x.val + 1 ≤ hi + 1; linarith)
  have a0 : 0 ≤ lo + 1 := by rcases eA' with h | h <;> rw [h]; norm_num
  -- `0.5 * width`
  have hhalf : (binary64.mul (Flt.num (1 / 2)) (binary64.ofInt w)).Is ((w : ℚ) / 2) := by
    have := Format.mul_is binary64 binary64_prec (Flt.num (1 / 2)) (binary64.ofInt w) (1 / 2) w
      ⟨rfl, rfl⟩ (ofInt64_is w habs') (by
        have := rep64_dyadic w 1 habs' (by norm_num)
        have e : (1 / 2 : ℚ) * (w : ℚ) = (w : ℚ) / 2 ^ 1 := by ring
        rw [e]; exact this)
    have e : (1 / 2 : ℚ) * (w : ℚ) = (w : ℚ) / 2 := by ring
    rw [e] at this
    exact this
  -- the product
  obtain ⟨p1, p2, p3⟩ := Format.mul_bounds binary64 binary64_prec
    (binary64.mul (Flt.num (1 / 2)) (binary64.ofInt w)) (binary64.add x (Flt.num 1))
    ((w : ℚ) / 2 * (lo + 1)) ((w : ℚ) / 2 * (hi + 1)) hhalf.1 a1 rA rB
    (by rw [hhalf.2]; exact mul_le_mul_of_nonneg_left a2 (by linarith))
    (by rw [hhalf.2]; exact mul_le_mul_of_nonneg_left a3 (by linarith))
  exact Format.convert_bounds binary32 binary32_prec _ _ _ p1 sA sB p2 p3

/-- The `z` of the viewport transformation: a depth between two of the values `-1` and `1` is
sent between their images `f2 - f1` and `f2 + f1`. -/
theorem viewport_depth (z : Flt) (lo hi : ℚ)
    (hz : z.isFinite = true) (h1 : lo ≤ z.val) (h2 : z.val ≤ hi)
    (hlo : lo = -1 ∨ lo = 1) (hhi : hi = -1 ∨ hi = 1) :
    (z * rasterizer.f1 + rasterizer.f2).isFinite = true ∧
    lo * (6540493 / 262144) + 6566707 / 262144 ≤ (z * rasterizer.f1 + rasterizer.f2).val ∧
    (z * rasterizer.f1 + rasterizer.f2).val ≤ hi * (6540493 / 262144) + 6566707 / 262144 := by
  rw [f1_f2_values.1, f1_f2_values.2, Flt.add_def, Flt.mul_def]
  have rp : binary32.Rep (6540493 / 262144) := by
    have := rep32_dyadic 6540493 18 (by norm_num) (by norm_num)
    norm_num at this ⊢
    exact this
  have rn : binary32.Rep (-(6540493 / 262144)) := by
    have := rep32_dyadic (-6540493) 18 (by norm_num) (by norm_num)
    norm_num at this ⊢
    exact this
  have rlow : binary32.Rep (13107 / 131072) := by
    have := rep32_dyadic 13107 17 (by norm_num) (by norm_num)
    norm_num at this ⊢
    exact this
  have r50 : binary32.Rep 50 := by simpa using rep32_int 50 (by norm_num)
  have rA' : binary32.Rep (lo * (6540493 / 262144)) := by
    rcases hlo with h | h <;> rw [h]
    · rw [neg_one_mul]; exact rn
    · rw [one_mul]; exact rp
  have rB' : binary32.Rep (hi * (6540493 / 262144)) := by
    rcases hhi with h | h <;> rw [h]
    · rw [neg_one_mul]; exact rn
    · rw [one_mul]; exact rp
  have rA : binary32.Rep (lo * (6540493 / 262144) + 6566707 / 262144) := by
    rcases hlo with h | h <;> rw [h]
    · norm_num; exact rlow
    · norm_num; exact r50
  have rB : binary32.Rep (hi * (6540493 / 262144) + 6566707 / 262144) := by
    rcases hhi with h | h <;> rw [h]
    · norm_num; exact rlow
    · norm_num; exact r50
  obtain ⟨m1, m2, m3⟩ := Format.mul_bounds binary32 binary32_prec z (Flt.num (6540493 / 262144))
    (lo * (6540493 / 262144)) (hi * (6540493 / 262144)) hz rfl rA' rB'
    (mul_le_mul_of_nonneg_right h1 (by show (0 : ℚ) ≤ 6540493 / 262144; norm_num))
    (mul_le_mul_of_nonneg_right h2 (by show (0 : ℚ) ≤ 6540493 / 262144; norm_num))
  exact Format.add_bounds binary32 binary32_prec _ (Flt.num (6566707 / 262144)) _ _ m1 rfl rA rB
    (by show _ ≤ _ + (6566707 / 262144 : ℚ); linarith)
    (by show _ + (6566707 / 262144 : ℚ) ≤ _; linarith)

/-- Claim C5, amended (viewport mapping): for an image of at most `2 ^ 24` by `2 ^ 24` pixels
and a vertex whose `x`, `y`, `z` after the homogeneous divide are finite and in `[-1, 1]`, the
viewport step of `draw` yields `x' = 0.5·width·(x+1)` and `y' = 0.5·height·(y+1)`, computed in
`double` and stored as `float`, and `z' = z·f1 + f2`, computed in `float`; these are finite
values `x'` in `[0, width]`, `y'` in `[0, height]` and `z'` in `[13107/131072, 50]`, where
`13107/131072 = 0.09999847412109375` is below `0.1`; it sends
`x = -1` to `0` and `x = 1` to `width`, `y = -1` to `0` and `y = 1` to `height`, `z = -1` to
`13107/131072` and `z = 1` to `50`.  The constants are `f1 = 6540493/262144` and
`f2 = 6566707/262144`, the `float` values nearest to `24.95` and `25.05`. -/
theorem viewport_range (r : rasterizer) (vert : Vector4f)
    (hw : 0 ≤ r.width ∧ r.width ≤ 2 ^ 24) (hh : 0 ≤ r.height ∧ r.height ≤ 2 ^ 24)
    (hx : vert.x.isFinite = true ∧ -1 ≤ vert.x.val ∧ vert.x.val ≤ 1)
    (hy : vert.y.isFinite = true ∧ -1 ≤ vert.y.val ∧ vert.y.val ≤ 1)
    (hz : vert.z.isFinite = true ∧ -1 ≤ vert.z.val ∧ vert.z.val ≤ 1) :
    ((r.viewport vert).x = binary32.convert (binary64.mul
        (binary64.mul (Flt.num (1 / 2)) (binary64.ofInt r.width))
        (binary64.add vert.x (Flt.num 1))) ∧
      (r.viewport vert).y = binary32.convert (binary64.mul
        (binary64.mul (Flt.num (1 / 2)) (binary64.ofInt r.height))
        (binary64.add vert.y (Flt.num 1))) ∧
      (r.viewport vert).z = vert.z * rasterizer.f1 + rasterizer.f2) ∧
    ((r.viewport vert).x.isFinite = true ∧
      0 ≤ (r.viewport vert).x.val ∧ (r.viewport vert).x.val ≤ (r.width : ℚ)) ∧
    ((r.viewport vert).y.isFinite = true ∧
      0 ≤ (r.viewport vert).y.val ∧ (r.viewport vert).y.val ≤ (r.height : ℚ)) ∧
    ((r.viewport vert).z.isFinite = true ∧
      13107 / 131072 ≤ (r.viewport vert).z.val ∧ (r.viewport vert).z.val ≤ 50) ∧
    ((vert.x.val = -1 → (r.viewport vert).x.val = 0) ∧
      (vert.x.val = 1 → (r.viewport vert).x.val = r.width)) ∧
    ((vert.y.val = -1 → (r.viewport vert).y.val = 0) ∧
      (vert.y.val = 1 → (r.viewport vert).y.val = r.height)) ∧
    ((vert.z.val = -1 → (r.viewport vert).z.val = 13107 / 131072) ∧
      (vert.z.val = 1 → (r.viewport vert).z.val = 50)) ∧
    (rasterizer.f1 = Flt.num (6540493 / 262144) ∧ rasterizer.f2 = Flt.num (6566707 / 262144) ∧
      (13107 / 131072 : ℚ) < 1 / 10) := by
  refine ⟨⟨rfl, rfl, rfl⟩, ?_, ?_, ?_, ⟨?_, ?_⟩, ⟨?_, ?_⟩, ⟨?_, ?_⟩, f1_f2_values.1,
    f1_f2_values.2, by norm_num⟩
  · have := viewport_side r.width hw vert.x (-1) 1 hx.1 hx.2.1 hx.2.2 (Or.inl rfl) (Or.inr rfl)
    norm_num at this
    exact this
  · have := viewport_side r.height hh vert.y (-1) 1 hy.1 hy.2.1 hy.2.2 (Or.inl rfl) (Or.inr rfl)
    norm_num at this
    exact this
  · have := viewport_depth vert.z (-1) 1 hz.1 hz.2.1 hz.2.2 (Or.inl rfl) (Or.inr rfl)
    norm_num at this
    exact this
  · intro h
    have := viewport_side r.width hw vert.x (-1) (-1) hx.1 h.ge h.le (Or.inl rfl) (Or.inl rfl)
    norm_num at this
    exact le_antisymm this.2.2 this.2.1
  · intro h
    have := viewport_side r.width hw vert.x 1 1 hx.1 h.ge h.le (Or.inr rfl) (Or.inr rfl)
    norm_num at this
    exact le_antisymm this.2.2 this.2.1
  · intro h
    have := viewport_side r.height hh vert.y (-1) (-1) hy.1 h.ge h.le (Or.inl rfl) (Or.inl rfl)
    norm_num at this
    exact le_antisymm this.2.2 this.2.1
  · intro h
    have := viewport_side r.height hh vert.y 1 1 hy.1 h.ge h.le (Or.inr rfl) (Or.inr rfl)
    norm_num at this
    exact le_antisymm this.2.2 this.2.1
  · intro h
    have := viewport_depth vert.z (-1) (-1) hz.1 h.ge h.le (Or.inl rfl) (Or.inl rfl)
    norm_num at this
    exact le_antisymm this.2.2 this.2.1
  · intro h
    have := viewport_depth vert.z 1 1 hz.1 h.ge h.le (Or.inr rfl) (Or.inr rfl)
    norm_num at this
    exact le_antisymm this.2.2 this.2.1

/-- Instance of `viewport_range`: the vertex `(0.5, -0.5, 0.25)` on the 700 by 700 image. -/
theorem viewport_range_witness :
    (0 ≤ (raster 700 700).width ∧ (raster 700 700).width ≤ 2 ^ 24) ∧
    (((raster 700 700).viewport ⟨Flt.num (1 / 2), Flt.num (-1 / 2), Flt.num (1 / 4), Flt.num 1⟩).z.isFinite
        = true ∧
      13107 / 131072 ≤
        ((raster 700 700).viewport ⟨Flt.num (1 / 2), Flt.num (-1 / 2), Flt.num (1 / 4), Flt.num 1⟩).z.val ∧
      ((raster 700 700).viewport ⟨Flt.num (1 / 2), Flt.num (-1 / 2), Flt.num (1 / 4), Flt.num 1⟩).z.val
        ≤ 50) :=
  ⟨⟨by decide, by decide⟩,
    (viewport_range (raster 700 700) ⟨Flt.num (1 / 2), Flt.num (-1 / 2), Flt.num (1 / 4), Flt.num 1⟩
      ⟨by decide, by decide⟩ ⟨by decide, by decide⟩ ⟨rfl, by decide!, by decide!⟩
      ⟨rfl, by decide!, by decide!⟩ ⟨rfl, by decide!, by decide!⟩).2.2.2.1⟩

/-- Counterexample to claim C5 as stated: the constants of `draw` are the `float` values
`f1 = 6540493/262144` and `f2 = 6566707/262144`, and the viewport step sends a vertex with
`z = -1` to `z' = 13107/131072 = 0.09999847412109375`, which is below `0.1` (and below the
`float` nearest to `0.1`), so `z'` is not in `[0.1, 50]` and `-1` is not sent to `0.1`. -/
theorem viewport_depth_counterexample :
    rasterizer.f1 = Flt.num (6540493 / 262144) ∧ rasterizer.f2 = Flt.num (6566707 / 262144) ∧
    ((raster 700 700).viewport ⟨Flt.num (-1), Flt.num (-1), Flt.num (-1), Flt.num 1⟩).z =
      Flt.num (13107 / 131072) ∧
    (13107 / 131072 : ℚ) < 1 / 10 ∧
    Flt.num (13107 / 131072) < binary32.lit (1 / 10) := by
  refine ⟨by decide!, by decide!, by decide!, by norm_num, by decide!⟩

/-! ## The colour setters in `binary32` -/

/-- A `float` for which both comparisons of the guard of `setColor` are false is a NaN or a
number of `[0, 255]`. -/
theorem guard_component (r : Flt) (h1 : ¬ r < Flt.zero false) (h2 : ¬ Flt.num 255 < r) :
    r = Flt.nan ∨ (r.isFinite = true ∧ 0 ≤ r.val ∧ r.val ≤ 255) := by
  rw [Flt.lt_def] at h1 h2
  cases r with
  | nan => exact Or.inl rfl
  | inf s => cases s <;> simp [Flt.lt] at h1 h2
  | zero s => exact Or.inr ⟨rfl, le_rfl, by show (0 : ℚ) ≤ 255; norm_num⟩
  | num q =>
    simp [Flt.lt, Flt.val] at h1 h2
    exact Or.inr ⟨rfl, h1, h2⟩

/-- A number of `[0, 255]` passes both comparisons of the guard of `setColor`. -/
theorem guard_passes (r : Flt) (hr : r.isFinite = true ∧ 0 ≤ r.val ∧ r.val ≤ 255) :
    ¬ r < Flt.zero false ∧ ¬ Flt.num 255 < r := by
  obtain ⟨h0, h1, h2⟩ := hr
  rw [Flt.lt_def, Flt.lt_def]
  cases r with
  | nan => simp [Flt.isFinite] at h0
  | inf s => simp [Flt.isFinite] at h0
  | zero s => simp [Flt.lt, Flt.val]
  | num q =>
    simp only [Flt.val] at h1 h2
    simp [Flt.lt, Flt.val, h1, h2]

/-- The quotient by 255 of a number of `[0, 255]`, computed in `double` and converted to
`float`, is a number of `[0, 1]`. -/
theorem stored_component (r : Flt) (hr : r.isFinite = true ∧ 0 ≤ r.val ∧ r.val ≤ 255) :
    inUnit (binary32.convert (binary64.div r (Flt.num 255))) := by
  obtain ⟨h0, h1, h2⟩ := hr
  have r0 : binary64.Rep 0 := by simpa using rep64_int 0 (by norm_num)
  have r1 : binary64.Rep 1 := by simpa using rep64_int 1 (by norm_num)
  have s0 : binary32.Rep 0 := by simpa using rep32_int 0 (by norm_num)
  have s1 : binary32.Rep 1 := by simpa using rep32_int 1 (by norm_num)
  obtain ⟨d1, d2, d3⟩ := Format.div_bounds binary64 binary64_prec r (Flt.num 255) 0 1 h0 rfl
    (by show (255 : ℚ) ≠ 0; norm_num) r0 r1
    (by show (0 : ℚ) ≤ r.val / 255; exact div_nonneg h1 (by norm_num))
    (by show r.val / 255 ≤ 1; rw [div_le_one (by norm_num)]; exact h2)
  exact Format.convert_bounds binary32 binary32_prec _ 0 1 d1 s0 s1 d2 d3

/-- What the guard of `setColor` lets through is stored as a number of `[0, 1]` or as a NaN. -/
theorem stored_component_or_nan (r : Flt) (h1 : ¬ r < Flt.zero false) (h2 : ¬ Flt.num 255 < r) :
    inUnit (binary32.convert (binary64.div r (Flt.num 255))) ∨
      binary32.convert (binary64.div r (Flt.num 255)) = Flt.nan := by
  rcases guard_component r h1 h2 with h | h
  · right; rw [h]; rfl
  · left; exact stored_component r h

/-- What the guard of `setColor` lets through and is not a NaN is stored as a number of
`[0, 1]`. -/
theorem stored_component_number (r : Flt) (h1 : ¬ r < Flt.zero false) (h2 : ¬ Flt.num 255 < r)
    (h3 : r ≠ Flt.nan) : inUnit (binary32.convert (binary64.div r (Flt.num 255))) := by
  rcases guard_component r h1 h2 with h | h
  · exact absurd h h3
  · exact stored_component r h

/-- What `setColor` does on numbers of `[0, 255]`. -/
theorem Triangle.setColor_numbers {V : Type} (fail : Abort) (t : Triangle V) (ind : Fin 3)
    (r g b : Flt) (hr : r.isFinite = true ∧ 0 ≤ r.val ∧ r.val ≤ 255)
    (hg : g.isFinite = true ∧ 0 ≤ g.val ∧ g.val ≤ 255)
    (hb : b.isFinite = true ∧ 0 ≤ b.val ∧ b.val ≤ 255) :
    Triangle.setColor fail t ind r g b =
      (Except.ok (),
        { t with color := Function.update t.color ind (Vector3f.mk
          (binary32.convert (binary64.div r (Flt.num 255)))
          (binary32.convert (binary64.div g (Flt.num 255)))
          (binary32.convert (binary64.div b (Flt.num 255)))) }) := by
  unfold Triangle.setColor
  rw [if_neg]
  intro h
  obtain ⟨a1, a2⟩ := guard_passes r hr
  obtain ⟨b1, b2⟩ := guard_passes g hg
  obtain ⟨c1, c2⟩ := guard_passes b hb
  rcases h with h | h | h | h | h | h
  · exact a1 h
  · exact a2 h
  · exact b1 h
  · exact b2 h
  · exact c1 h
  · exact c2 h

/-- Whether it fails or not, `setColor` keeps all stored colours in the unit cube, NaN apart. -/
theorem Triangle.setColor_inUnitCubeOrNaN {V : Type} (fail : Abort) (t : Triangle V)
    (ind : Fin 3) (r g b : Flt) (h : ∀ i, (t.color i).inUnitCubeOrNaN) :
    ∀ i, ((Triangle.setColor fail t ind r g b).2.color i).inUnitCubeOrNaN := by
  unfold Triangle.setColor
  by_cases hc : (r < Flt.zero false) ∨ (Flt.num 255 < r) ∨ (g < Flt.zero false) ∨
      (Flt.num 255 < g) ∨ (b < Flt.zero false) ∨ (Flt.num 255 < b)
  · rw [if_pos hc]; exact h
  · rw [if_neg hc]
    simp only [not_or] at hc
    intro i
    by_cases hi : i = ind
    · subst hi
      simp only [Function.update_same]
      exact ⟨stored_component_or_nan r hc.1 hc.2.1, stored_component_or_nan g hc.2.2.1 hc.2.2.2.1,
        stored_component_or_nan b hc.2.2.2.2.1 hc.2.2.2.2.2⟩
    · simp only [Function.update_noteq hi]
      exact h i

/-- Whether it fails or not, `setColor` called without a NaN keeps all stored colours in the
unit cube. -/
theorem Triangle.setColor_inUnitCube {V : Type} (fail : Abort) (t : Triangle V)
    (ind : Fin 3) (r g b : Flt) (hn : Vector3f.noNaN ⟨r, g, b⟩)
    (h : ∀ i, (t.color i).inUnitCube) :
    ∀ i, ((Triangle.setColor fail t ind r g b).2.color i).inUnitCube := by
  unfold Triangle.setColor
  by_cases hc : (r < Flt.zero false) ∨ (Flt.num 255 < r) ∨ (g < Flt.zero false) ∨
      (Flt.num 255 < g) ∨ (b < Flt.zero false) ∨ (Flt.num 255 < b)
  · rw [if_pos hc]; exact h
  · rw [if_neg hc]
    simp only [not_or] at hc
    intro i
    by_cases hi : i = ind
    · subst hi
      simp only [Function.update_same]
      exact ⟨stored_component_number r hc.1 hc.2.1 hn.1,
        stored_component_number g hc.2.2.1 hc.2.2.2.1 hn.2.1,
        stored_component_number b hc.2.2.2.2.1 hc.2.2.2.2.2 hn.2.2⟩
    · simp only [Function.update_noteq hi]
      exact h i

/-- Whether it fails or not, `setColors` keeps all stored colours in the unit cube, NaN
apart. -/
theorem Assignment3.setColors_inUnitCubeOrNaN (t : Triangle Vector4f)
    (colors : Fin 3 → Vector3f) (h : ∀ i, (t.color i).inUnitCubeOrNaN) :
    ∀ i, ((Assignment3.setColors t colors).2.color i).inUnitCubeOrNaN := by
  have h0 := Triangle.setColor_inUnitCubeOrNaN GAMES101.Assignment3.invalidColor t 0
    (colors 0).x (colors 0).y (colors 0).z h
  unfold Assignment3.setColors Assignment3.setColor
  rcases hs0 : Triangle.setColor GAMES101.Assignment3.invalidColor t 0 (colors 0).x (colors 0).y
    (colors 0).z with ⟨o0, t0⟩
  rw [hs0] at h0
  cases o0 with
  | error e => exact h0
  | ok u =>
    have h1 := Triangle.setColor_inUnitCubeOrNaN GAMES101.Assignment3.invalidColor t0 1
      (colors 1).x (colors 1).y (colors 1).z h0
    simp only
    rcases hs1 : Triangle.setColor GAMES101.Assignment3.invalidColor t0 1 (colors 1).x
      (colors 1).y (colors 1).z with ⟨o1, t1⟩
    rw [hs1] at h1
    cases o1 with
    | error e => exact h1
    | ok u =>
      exact Triangle.setColor_inUnitCubeOrNaN GAMES101.Assignment3.invalidColor t1 2
        (colors 2).x (colors 2).y (colors 2).z h1

/-- Whether it fails or not, `setColors` called without a NaN keeps all stored colours in the
unit cube. -/
theorem Assignment3.setColors_inUnitCube (t : Triangle Vector4f)
    (colors : Fin 3 → Vector3f) (hn : ∀ i, (colors i).noNaN) (h : ∀ i, (t.color i).inUnitCube) :
    ∀ i, ((Assignment3.setColors t colors).2.color i).inUnitCube := by
  have h0 := Triangle.setColor_inUnitCube GAMES101.Assignment3.invalidColor t 0
    (colors 0).x (colors 0).y (colors 0).z (hn 0) h
  unfold Assignment3.setColors Assignment3.setColor
  rcases hs0 : Triangle.setColor GAMES101.Assignment3.invalidColor t 0 (colors 0).x (colors 0).y
    (colors 0).z with ⟨o0, t0⟩
  rw [hs0] at h0
  cases o0 with
  | error e => exact h0
  | ok u =>
    have h1 := Triangle.setColor_inUnitCube GAMES101.Assignment3.invalidColor t0 1
      (colors 1).x (colors 1).y (colors 1).z (hn 1) h0
    simp only
    rcases hs1 : Triangle.setColor GAMES101.Assignment3.invalidColor t0 1 (colors 1).x
      (colors 1).y (colors 1).z with ⟨o1, t1⟩
    rw [hs1] at h1
    cases o1 with
    | error e => exact h1
    | ok u =>
      exact Triangle.setColor_inUnitCube GAMES101.Assignment3.invalidColor t1 2
        (colors 2).x (colors 2).y (colors 2).z (hn 2) h1

/-- The zero colour lies in the unit cube. -/
theorem zero_inUnitCube :
    Vector3f.inUnitCube ⟨Flt.zero false, Flt.zero false, Flt.zero false⟩ :=
  ⟨⟨rfl, le_rfl, zero_le_one⟩, ⟨rfl, le_rfl, zero_le_one⟩, ⟨rfl, le_rfl, zero_le_one⟩⟩

/-- A colour of the unit cube is in the unit cube, NaN apart. -/
theorem Vector3f.inUnitCube.orNaN {c : Vector3f} (h : c.inUnitCube) : c.inUnitCubeOrNaN :=
  ⟨Or.inl h.1, Or.inl h.2.1, Or.inl h.2.2⟩

/-- Claim C10, amended (colour invariant): for numbers `(r, g, b)` of `[0, 255]³`,
`setColor(ind, r, g, b)` returns normally and leaves in `color[ind]` the three quotients
`r/255`, `g/255`, `b/255` as `binary32` rounds them (computed in `double`, converted to
`float`), each a number of `[0, 1]`, with the colours of the other two vertices and all
positions, normals and texture coordinates as before.  A NaN argument passes the guard too and
is stored as a NaN.  Hence every triangle obtained from the constructor by calls of its setters
has each colour component in `[0, 1]` or NaN, and in `[0, 1]` when no colour setter was given a
NaN (assignments 1 and 3). -/
theorem colour_components (ind : Fin 3) (r g b : Flt)
    (hr : r.isFinite = true ∧ 0 ≤ r.val ∧ r.val ≤ 255)
    (hg : g.isFinite = true ∧ 0 ≤ g.val ∧ g.val ≤ 255)
    (hb : b.isFinite = true ∧ 0 ≤ b.val ∧ b.val ≤ 255) :
    (∀ t : Triangle Vector3f,
      (Assignment1.setColor t ind r g b).1 = Except.ok () ∧
      (Assignment1.setColor t ind r g b).2.color ind =
        ⟨binary32.convert (binary64.div r (Flt.num 255)),
          binary32.convert (binary64.div g (Flt.num 255)),
          binary32.convert (binary64.div b (Flt.num 255))⟩ ∧
      ((Assignment1.setColor t ind r g b).2.color ind).inUnitCube ∧
      (∀ j, j ≠ ind → (Assignment1.setColor t ind r g b).2.color j = t.color j) ∧
      (Assignment1.setColor t ind r g b).2.v = t.v ∧
      (Assignment1.setColor t ind r g b).2.normal = t.normal ∧
      (Assignment1.setColor t ind r g b).2.tex_coords = t.tex_coords) ∧
    (∀ t : Triangle Vector4f,
      (Assignment3.setColor t ind r g b).1 = Except.ok () ∧
      (Assignment3.setColor t ind r g b).2.color ind =
        ⟨binary32.convert (binary64.div r (Flt.num 255)),
          binary32.convert (binary64.div g (Flt.num 255)),
          binary32.convert (binary64.div b (Flt.num 255))⟩ ∧
      ((Assignment3.setColor t ind r g b).2.color ind).inUnitCube ∧
      (∀ j, j ≠ ind → (Assignment3.setColor t ind r g b).2.color j = t.color j) ∧
      (Assignment3.setColor t ind r g b).2.v = t.v ∧
      (Assignment3.setColor t ind r g b).2.normal = t.normal ∧
      (Assignment3.setColor t ind r g b).2.tex_coords = t.tex_coords) ∧
    (∀ t : Triangle Vector3f,
      (Assignment1.setColor t ind Flt.nan g b).1 = Except.ok () ∧
      ((Assignment1.setColor t ind Flt.nan g b).2.color ind).x = Flt.nan) ∧
    (∀ t : Triangle Vector3f, Assignment1.Reachable false t → ∀ i, (t.color i).inUnitCubeOrNaN) ∧
    (∀ t : Triangle Vector4f, Assignment3.Reachable false t → ∀ i, (t.color i).inUnitCubeOrNaN) ∧
    (∀ t : Triangle Vector3f, Assignment1.Reachable true t → ∀ i, (t.color i).inUnitCube) ∧
    (∀ t : Triangle Vector4f, Assignment3.Reachable true t → ∀ i, (t.color i).inUnitCube) := by
  have key : ∀ (V : Type) (fail : Abort) (t : Triangle V),
      (Triangle.setColor fail t ind r g b).1 = Except.ok () ∧
      (Triangle.setColor fail t ind r g b).2.color ind =
        ⟨binary32.convert (binary64.div r (Flt.num 255)),
          binary32.convert (binary64.div g (Flt.num 255)),
          binary32.convert (binary64.div b (Flt.num 255))⟩ ∧
      ((Triangle.setColor fail t ind r g b).2.color ind).inUnitCube ∧
      (∀ j, j ≠ ind → (Triangle.setColor fail t ind r g b).2.color j = t.color j) ∧
      (Triangle.setColor fail t ind r g b).2.v = t.v ∧
      (Triangle.setColor fail t ind r g b).2.normal = t.normal ∧
      (Triangle.setColor fail t ind r g b).2.tex_coords = t.tex_coords := by
    intro V fail t
    rw [Triangle.setColor_numbers fail t ind r g b hr hg hb]
    refine ⟨rfl, ?_, ?_, ?_, rfl, rfl, rfl⟩
    · simp only [Function.update_same]
    · simp only [Function.update_same]
      exact ⟨stored_component r hr, stored_component g hg, stored_component b hb⟩
    · intro j hj
      simp only [Function.update_noteq hj]
  refine ⟨fun t => key _ _ t, fun t => key _ _ t, ?_, ?_, ?_, ?_, ?_⟩
  · intro t
    obtain ⟨b1, b2⟩ := guard_passes g hg
    obtain ⟨c1, c2⟩ := guard_passes b hb
    have hguard : ¬ ((Flt.nan < Flt.zero false) ∨ (Flt.num 255 < Flt.nan) ∨
        (g < Flt.zero false) ∨ (Flt.num 255 < g) ∨ (b < Flt.zero false) ∨ (Flt.num 255 < b)) := by
      intro h
      rcases h with h | h | h | h | h | h
      · exact absurd h (by decide)
      · exact absurd h (by decide)
      · exact b1 h
      · exact b2 h
      · exact c1 h
      · exact c2 h
    unfold Assignment1.setColor Triangle.setColor
    rw [if_neg hguard]
    refine ⟨rfl, ?_⟩
    simp only [Function.update_same]
    rfl
  · intro t ht
    induction ht with
    | new normal => intro i; exact zero_inUnitCube.orNaN
    | setVertex ind ver _ ih => exact ih
    | setNormal ind n _ ih => exact ih
    | setColor ind r g b _ _ _ ih => exact Triangle.setColor_inUnitCubeOrNaN _ _ ind r g b ih
    | setTexCoord ind s t' _ ih => exact ih
  · intro t ht
    induction ht with
    | new normal => intro i; exact zero_inUnitCube.orNaN
    | setVertex ind ver _ ih => exact ih
    | setNormal ind n _ ih => exact ih
    | setColor ind r g b _ _ _ ih => exact Triangle.setColor_inUnitCubeOrNaN _ _ ind r g b ih
    | setNormals normals _ ih => exact ih
    | setColors colors _ _ _ ih => exact Assignment3.setColors_inUnitCubeOrNaN _ colors ih
    | setTexCoord ind uv _ ih => exact ih
  · intro t ht
    induction ht with
    | new normal => intro i; exact zero_inUnitCube
    | setVertex ind ver _ ih => exact ih
    | setNormal ind n _ ih => exact ih
    | setColor ind r g b _ _ hn ih => exact Triangle.setColor_inUnitCube _ _ ind r g b (hn rfl) ih
    | setTexCoord ind s t' _ ih => exact ih
  · intro t ht
    induction ht with
    | new normal => intro i; exact zero_inUnitCube
    | setVertex ind ver _ ih => exact ih
    | setNormal ind n _ ih => exact ih
    | setColor ind r g b _ _ hn ih => exact Triangle.setColor_inUnitCube _ _ ind r g b (hn rfl) ih
    | setNormals normals _ ih => exact ih
    | setColors colors _ _ hn ih => exact Assignment3.setColors_inUnitCube _ colors (hn rfl) ih
    | setTexCoord ind uv _ ih => exact ih

/-- Instance of `colour_components`: the colour `(217, 238, 185)` set on vertex 0 of a freshly
constructed triangle of assignment 1. -/
theorem colour_components_witness :
    ((Flt.num 217).isFinite = true ∧ 0 ≤ (Flt.num 217).val ∧ (Flt.num 217).val ≤ 255) ∧
    (Assignment1.setColor (Assignment1.Triangle.new fun _ => ⟨Flt.zero false, Flt.zero false,
      Flt.num 1⟩) 0 (Flt.num 217) (Flt.num 238) (Flt.num 185)).1 = Except.ok () ∧
    ((Assignment1.setColor (Assignment1.Triangle.new fun _ => ⟨Flt.zero false, Flt.zero false,
      Flt.num 1⟩) 0 (Flt.num 217) (Flt.num 238) (Flt.num 185)).2.color 0).inUnitCube :=
  have h := (colour_components 0 (Flt.num 217) (Flt.num 238) (Flt.num 185)
    ⟨rfl, by decide!, by decide!⟩ ⟨rfl, by decide!, by decide!⟩ ⟨rfl, by decide!, by decide!⟩).1
    (Assignment1.Triangle.new fun _ => ⟨Flt.zero false, Flt.zero false, Flt.num 1⟩)
  ⟨⟨rfl, by decide!, by decide!⟩, h.1, h.2.2.1⟩

/-- Counterexample to claim C10 as stated: the call `setColor(0, NaN, 0, 0)` on a freshly
constructed triangle of assignment 1 returns normally, since both comparisons of the guard are
false for a NaN, and leaves a NaN in `color[0]`; the triangle was obtained from the constructor
through a setter and has a colour component that is not in `[0, 1]`. -/
theorem colour_invariant_counterexample :
    Assignment1.Reachable false
      (Assignment1.setColor (Assignment1.Triangle.new fun _ => ⟨Flt.zero false, Flt.zero false,
        Flt.num 1⟩) 0 Flt.nan (Flt.zero false) (Flt.zero false)).2 ∧
    (Assignment1.setColor (Assignment1.Triangle.new fun _ => ⟨Flt.zero false, Flt.zero false,
      Flt.num 1⟩) 0 Flt.nan (Flt.zero false) (Flt.zero false)).1 = Except.ok () ∧
    ((Assignment1.setColor (Assignment1.Triangle.new fun _ => ⟨Flt.zero false, Flt.zero false,
      Flt.num 1⟩) 0 Flt.nan (Flt.zero false) (Flt.zero false)).2.color 0).x = Flt.nan ∧
    ¬ ((Assignment1.setColor (Assignment1.Triangle.new fun _ => ⟨Flt.zero false, Flt.zero false,
      Flt.num 1⟩) 0 Flt.nan (Flt.zero false) (Flt.zero false)).2.color 0).inUnitCube := by
  have hok : (Assignment1.setColor (Assignment1.Triangle.new fun _ => ⟨Flt.zero false,
      Flt.zero false, Flt.num 1⟩) 0 Flt.nan (Flt.zero false) (Flt.zero false)).1 = Except.ok () := by
    rfl
  have hx : ((Assignment1.setColor (Assignment1.Triangle.new fun _ => ⟨Flt.zero false,
      Flt.zero false, Flt.num 1⟩) 0 Flt.nan (Flt.zero false) (Flt.zero false)).2.color 0).x
      = Flt.nan := by
    rfl
  refine ⟨Assignment1.Reachable.setColor 0 _ _ _ (Assignment1.Reachable.new _) hok
    (fun h => absurd h (by decide)), hok, hx, ?_⟩
  intro h
  have := h.1.1
  rw [hx] at this
  exact absurd this (by decide)

/-! ## Reflectance between equal media in `binary32` -/

/-- The conversion to an integer of a finite datum whose value is an integer is that
integer. -/
theorem Flt.trunc_is (x : Flt) (n : ℤ) (h : x.Is (n : ℚ)) : x.trunc = some n := by
  obtain ⟨h1, h2⟩ := h
  cases x with
  | nan => simp [Flt.isFinite] at h1
  | inf s => simp [Flt.isFinite] at h1
  | zero s =>
    simp only [Flt.val] at h2
    have : n = 0 := by exact_mod_cast h2.symm
    rw [this]
    rfl
  | num q =>
    simp only [Flt.val] at h2
    simp only [Flt.trunc, h2, truncate_intCast]

/-- With super-sampling off `get_index` is the row-major index with the top row first. -/
theorem get_index_off (r : rasterizer) (hss : r.super_sample = 0) (x y : ℤ) :
    r.get_index x y = (r.height - 1 - y) * r.width + x := by
  simp [rasterizer.get_index, hss]

/-- When the integers it meets are at most `2 ^ 24` in magnitude, `set_pixel` computes the
index `(height−1−y)·width + x` exactly. -/
theorem pixel_index_exact (r : rasterizer) (x y : ℤ) (z : Flt) (h : r.IndexExact x y) :
    (r.pixel_index ⟨binary32.ofInt x, binary32.ofInt y, z⟩).Is
      (((r.height - 1 - y) * r.width + x : ℤ) : ℚ) := by
  obtain ⟨h1, h2, h3, h4, h5, h6, h7⟩ := h
  unfold rasterizer.pixel_index
  rw [Flt.add_def, Flt.mul_def, Flt.sub_def]
  have a1 := ofInt32_is (r.height - 1) h1
  have a2 := ofInt32_is y h2
  have a3 := Format.sub_is binary32 binary32_prec _ _ _ _ a1 a2
    (by have := rep32_int (r.height - 1 - y) h3; push_cast at this ⊢; exact this)
  have a4 := ofInt32_is r.width h4
  have a5 := Format.mul_is binary32 binary32_prec _ _ _ _ a3 a4
    (by have := rep32_int ((r.height - 1 - y) * r.width) h5; push_cast at this ⊢; exact this)
  have a6 := ofInt32_is x h6
  have a7 := Format.add_is binary32 binary32_prec _ _ _ _ a5 a6
    (by have := rep32_int ((r.height - 1 - y) * r.width + x) h7; push_cast at this ⊢; exact this)
  have e : (((r.height - 1 - y) * r.width + x : ℤ) : ℚ) =
      (((r.height - 1 : ℤ) : ℚ) - (y : ℚ)) * (r.width : ℚ) + (x : ℚ) := by push_cast; ring
  rw [e]
  exact a7

/-- When the integers it meets are at most `2 ^ 24` in magnitude, `set_pixel` at an integer
point writes at the row-major index. -/
theorem set_pixel_exact (r : rasterizer) (x y : ℤ) (z : Flt) (c : Vector3f)
    (h : r.IndexExact x y) :
    r.set_pixel ⟨binary32.ofInt x, binary32.ofInt y, z⟩ c =
      (vecSet r.frame_buf ((r.height - 1 - y) * r.width + x) c).map
        fun fb => { r with frame_buf := fb } := by
  unfold rasterizer.set_pixel
  rw [Flt.trunc_is _ _ (pixel_index_exact r x y z h)]
  rfl

/-- In an image of at most `2 ^ 24` pixels the index of every pixel of the image is computed
exactly. -/
theorem indexExact_of_pixel (r : rasterizer) (x y : ℤ) (hsz : r.width * r.height ≤ 2 ^ 24)
    (hx : 0 ≤ x ∧ x < r.width) (hy : 0 ≤ y ∧ y < r.height) : r.IndexExact x y := by
  obtain ⟨hx0, hx1⟩ := hx
  obtain ⟨hy0, hy1⟩ := hy
  have hw : 1 ≤ r.width := by linarith
  have hh : 1 ≤ r.height := by linarith
  obtain ⟨i0, i1⟩ := index_in_range r.width r.height x y ⟨hx0, hx1⟩ ⟨hy0, hy1⟩
  have p1 : r.height ≤ r.width * r.height := by nlinarith
  have p2 : r.width ≤ r.width * r.height := by nlinarith
  have p3 : 0 ≤ (r.height - 1 - y) * r.width := mul_nonneg (by linarith) (by linarith)
  refine ⟨?_, ?_, ?_, ?_, ?_, ?_, ?_⟩
  · rw [abs_of_nonneg (by linarith)]; linarith
  · rw [abs_of_nonneg hy0]; linarith
  · rw [abs_of_nonneg (by linarith)]; linarith
  · rw [abs_of_nonneg (by linarith)]; linarith
  · rw [abs_of_nonneg p3]; linarith
  · rw [abs_of_nonneg hx0]; linarith
  · rw [abs_of_nonneg i0]; linarith

/-- Reading the frame buffer the constructor leaves. -/
theorem raster_frame (w h i : ℤ) (h0 : 0 ≤ i) (h1 : i < w * h) :
    vecGet (raster w h).frame_buf i = some ⟨Flt.zero false, Flt.zero false, Flt.zero false⟩ := by
  have hlt : i.toNat < (w * h).toNat := by omega
  rw [vecGet_eq_get? _ _ h0]
  simp [raster, rasterizer.new, hlt]

/-- On the 4097 by 4097 image the constructor builds (more than `2 ^ 24` pixels), `get_index`
gives pixel `(1, 0)` the index `16781313`, while the index `set_pixel` computes for it in
`binary32` is `16781312`. -/
theorem index_rounded_beyond :
    (raster 4097 4097).get_index 1 0 = 16781313 ∧
    ((raster 4097 4097).pixel_index ⟨binary32.ofInt 1, binary32.ofInt 0, Flt.num 1⟩).trunc =
      some 16781312 :=
  ⟨by decide!, by decide!⟩

/-- Claim C13, amended (out-of-bounds pixel): `set_pixel` neither clamps nor rejects: it
computes the index `(height−1−y)·width + x` in `binary32`, discards its fractional part and
assigns `frame_buf` there without a test.  For an integer point `(x, y)` for which the integers
this computation meets are at most `2 ^ 24` in magnitude (so that the index is exact), on a
frame buffer of `width · height` entries, it writes the colour at index `(height−1−y)·width + x`
and changes nothing else whenever that index lies in `[0, width·height)`, and the access is out
of range (undefined behaviour) otherwise.  For a point of an image of at most `2 ^ 24` pixels
the index is exact, in range, and that of its own pixel; for a point outside the image an index
in range is the entry of the pixel `(i mod width, height−1−i div width)` of the image, a
different pixel. -/
theorem set_pixel_binary32 (r : rasterizer) (x y : ℤ) (c : Vector3f)
    (hfl : (r.frame_buf.length : ℤ) = r.width * r.height) :
    (r.IndexExact x y →
      ((0 ≤ (r.height - 1 - y) * r.width + x ∧
          (r.height - 1 - y) * r.width + x < r.width * r.height) →
        ∃ r' : rasterizer,
          r.set_pixel ⟨binary32.ofInt x, binary32.ofInt y, Flt.num 1⟩ c = some r' ∧
          vecGet r'.frame_buf ((r.height - 1 - y) * r.width + x) = some c ∧
          (∀ k, k ≠ (r.height - 1 - y) * r.width + x →
            vecGet r'.frame_buf k = vecGet r.frame_buf k) ∧
          r'.depth_buf = r.depth_buf ∧ r'.color_buf = r.color_buf) ∧
      (¬ (0 ≤ (r.height - 1 - y) * r.width + x ∧
          (r.height - 1 - y) * r.width + x < r.width * r.height) →
        r.set_pixel ⟨binary32.ofInt x, binary32.ofInt y, Flt.num 1⟩ c = none)) ∧
    (r.width * r.height ≤ 2 ^ 24 → (0 ≤ x ∧ x < r.width) → (0 ≤ y ∧ y < r.height) →
      r.IndexExact x y ∧
      0 ≤ (r.height - 1 - y) * r.width + x ∧ (r.height - 1 - y) * r.width + x < r.width * r.height) ∧
    (0 < r.width → ¬ ((0 ≤ x ∧ x < r.width) ∧ (0 ≤ y ∧ y < r.height)) →
      (0 ≤ (r.height - 1 - y) * r.width + x ∧
        (r.height - 1 - y) * r.width + x < r.width * r.height) →
      ∃ x' y' : ℤ, (0 ≤ x' ∧ x' < r.width) ∧ (0 ≤ y' ∧ y' < r.height) ∧ (x', y') ≠ (x, y) ∧
        (r.height - 1 - y') * r.width + x' = (r.height - 1 - y) * r.width + x) := by
  refine ⟨fun hex => ⟨?_, ?_⟩, fun hsz hx hy =>
    ⟨indexExact_of_pixel r x y hsz hx hy, index_in_range _ _ _ _ hx hy⟩, ?_⟩
  · rintro ⟨h0, h1⟩
    have h1' : (r.height - 1 - y) * r.width + x < (r.frame_buf.length : ℤ) := by rw [hfl]; exact h1
    rw [set_pixel_exact r x y _ c hex, vecSet_eq_some _ _ _ h0 h1']
    refine ⟨_, rfl, vecGet_set_self _ _ _ h0 h1', fun k hk => vecGet_set_ne _ _ _ _ h0 hk, rfl, rfl⟩
  · intro hn
    rw [set_pixel_exact r x y _ c hex]
    unfold vecSet
    rw [if_neg (by rw [hfl]; exact hn)]
    rfl
  · intro hw hout hin
    obtain ⟨h0, h1⟩ := hin
    set i := (r.height - 1 - y) * r.width + x with hi
    have hq0 : 0 ≤ i / r.width := Int.ediv_nonneg h0 hw.le
    have hq1 : i / r.width < r.height := by
      apply Int.ediv_lt_of_lt_mul hw
      rw [mul_comm]
      exact h1
    have hm := Int.emod_add_ediv i r.width
    refine ⟨i % r.width, r.height - 1 - i / r.width,
      ⟨Int.emod_nonneg _ (ne_of_gt hw), Int.emod_lt_of_pos _ hw⟩, ⟨by linarith, by linarith⟩, ?_, ?_⟩
    · intro heq
      have e1 : i % r.width = x := congrArg Prod.fst heq
      have e2 : r.height - 1 - i / r.width = y := congrArg Prod.snd heq
      apply hout
      rw [← e1, ← e2]
      exact ⟨⟨Int.emod_nonneg _ (ne_of_gt hw), Int.emod_lt_of_pos _ hw⟩, ⟨by linarith, by linarith⟩⟩
    · have e : r.height - 1 - (r.height - 1 - i / r.width) = i / r.width := by ring
      rw [e]
      linarith [mul_comm (i / r.width) r.width]

/-- Instance of `set_pixel_binary32`: pixel `(1, 0)` of the 2 by 2 image. -/
theorem set_pixel_binary32_witness :
    ((raster 2 2).frame_buf.length : ℤ) = (raster 2 2).width * (raster 2 2).height ∧
    (raster 2 2).IndexExact 1 0 ∧
    ∃ r' : rasterizer,
      (raster 2 2).set_pixel ⟨binary32.ofInt 1, binary32.ofInt 0, Flt.num 1⟩
        ⟨Flt.num 1, Flt.num 1, Flt.num 1⟩ = some r' ∧
      vecGet r'.frame_buf (((raster 2 2).height - 1 - 0) * (raster 2 2).width + 1)
        = some ⟨Flt.num 1, Flt.num 1, Flt.num 1⟩ :=
  have hex : (raster 2 2).IndexExact 1 0 :=
    ⟨by decide, by decide, by decide, by decide, by decide, by decide, by decide⟩
  have h := ((set_pixel_binary32 (raster 2 2) 1 0 ⟨Flt.num 1, Flt.num 1, Flt.num 1⟩
    (by decide)).1 hex).1 (by decide)
  ⟨by decide, hex, h.elim fun r' hr' => ⟨r', hr'.1, hr'.2.1⟩⟩

/-- Counterexample to claim C13 as stated, on the 2 by 2 image.  The point `(2, 1)` is outside
the image (`x = width`); clamping would give pixel `(1, 1)`, whose index is 1, but `set_pixel`
writes entry 2, the entry of pixel `(0, 0)`.  The point `(2, 0)` is outside the image and
`set_pixel` uses index 4, outside `[0, 4)`. -/
theorem set_pixel_alias_counterexample :
    (raster 2 2).width = 2 ∧ (raster 2 2).height = 2 ∧
    (raster 2 2).get_index 1 1 = 1 ∧ (raster 2 2).get_index 0 0 = 2 ∧
    ((raster 2 2).set_pixel ⟨binary32.ofInt 2, binary32.ofInt 1, Flt.num 1⟩
        ⟨Flt.num 1, Flt.num 1, Flt.num 1⟩).map (fun r' => r'.frame_buf) =
      some [⟨Flt.zero false, Flt.zero false, Flt.zero false⟩,
        ⟨Flt.zero false, Flt.zero false, Flt.zero false⟩, ⟨Flt.num 1, Flt.num 1, Flt.num 1⟩,
        ⟨Flt.zero false, Flt.zero false, Flt.zero false⟩] ∧
    (raster 2 2).frame_buf =
      [⟨Flt.zero false, Flt.zero false, Flt.zero false⟩,
        ⟨Flt.zero false, Flt.zero false, Flt.zero false⟩,
        ⟨Flt.zero false, Flt.zero false, Flt.zero false⟩,
        ⟨Flt.zero false, Flt.zero false, Flt.zero false⟩] ∧
    ((raster 2 2).pixel_index ⟨binary32.ofInt 2, binary32.ofInt 0, Flt.num 1⟩).trunc = some 4 ∧
    ((raster 2 2).set_pixel ⟨binary32.ofInt 2, binary32.ofInt 0, Flt.num 1⟩
        ⟨Flt.num 1, Flt.num 1, Flt.num 1⟩).map (fun r' => r'.frame_buf) = none := by
  refine ⟨rfl, rfl, by decide, by decide, ?_, ?_, ?_, ?_⟩ <;> decide!

/-! ## Rasterization without super-sampling in `binary32` -/

/-- A monadic fold whose steps on the elements of the list all succeed is the pure fold of
their results. -/
theorem foldlM_mem_eq_some_foldl {σ α : Type} (f : σ → α → Option σ) (step : σ → α → σ)
    (Inv : σ → Prop) (L : List α) :
    (∀ s a, a ∈ L → Inv s → f s a = some (step s a)) →
    (∀ s a, a ∈ L → Inv s → Inv (step s a)) →
    ∀ s, Inv s → L.foldlM f s = some (L.foldl step s) ∧ Inv (L.foldl step s) := by
  induction L with
  | nil => intro _ _ s hs; exact ⟨rfl, hs⟩
  | cons a L ih =>
    intro hstep hinv s hs
    rw [List.foldlM_cons, hstep s a (List.mem_cons_self a L) hs]
    exact ih (fun s' a' ha' => hstep s' a' (List.mem_cons_of_mem a ha'))
      (fun s' a' ha' => hinv s' a' (List.mem_cons_of_mem a ha')) (step s a)
      (hinv s a (List.mem_cons_self a L) hs)

/-- On a pixel the loops reach, in an image of at most `2 ^ 24` pixels, when the pixel is in
range if covered, the pixel body returns normally with the result of the depth test. -/
theorem pixel_body_eq_step (t : Triangle Vector3f) (w h : ℤ) (r : rasterizer)
    (hr : r.WellSized w h) (hsz : w * h ≤ 2 ^ 24) (x y : ℤ) (hv : visits t x y)
    (hc : covers t x y → (0 ≤ x ∧ x < w) ∧ (0 ≤ y ∧ y < h)) :
    rasterizer.pixel_body t r x y = some (rasterizer.depth_step t r x y) := by
  obtain ⟨hss, hw, hh, hfl, hdl⟩ := hr
  have hss' : ¬ r.super_sample > 0 := by rw [hss]; decide
  unfold rasterizer.pixel_body rasterizer.depth_step
  rw [if_neg hss']
  by_cases hp : passes t x y
  · have hcov : covers t x y := ⟨hv, hp⟩
    have hin : insideTriangle (binary32.ofInt x + Flt.num (1 / 2))
        (binary32.ofInt y + Flt.num (1 / 2)) t.v = true := hp
    obtain ⟨hx, hy⟩ := hc hcov
    have hidx : r.get_index x y = (h - 1 - y) * w + x := by
      rw [get_index_off r hss, hw, hh]
    obtain ⟨hi0, hi1⟩ := index_in_range w h x y hx hy
    rw [← hidx] at hi0 hi1
    have hif : (r.get_index x y) < (r.frame_buf.length : ℤ) := by rw [hfl]; exact hi1
    have hid : (r.get_index x y) < (r.depth_buf.length : ℤ) := by rw [hdl]; exact hi1
    have hlt := toNat_lt_length r.depth_buf _ hi0 hid
    have hex : r.IndexExact x y :=
      indexExact_of_pixel r x y (by rw [hw, hh]; exact hsz) (by rw [hw]; exact hx)
        (by rw [hh]; exact hy)
    rw [hin]
    simp only [Bool.true_eq_false, if_false, vecGet_eq_get? _ _ hi0,
      List.get?_eq_getElem?, List.getElem?_eq_getElem hlt, Option.some_bind, Option.getD_some,
      hcov, true_and]
    show (if depth_at t x y < r.depth_buf[(r.get_index x y).toNat] then _ else _) = _
    split
    · rw [set_pixel_exact r x y _ _ hex, ← get_index_off r hss, vecSet_eq_some _ _ _ hi0 hif]
      simp only [Option.map_some', Option.some_bind]
      rw [vecSet_eq_some _ _ _ hi0 hid]
      rfl
    · rfl
  · have hin : insideTriangle (binary32.ofInt x + Flt.num (1 / 2))
        (binary32.ofInt y + Flt.num (1 / 2)) t.v = false := by
      simpa [passes] using hp
    have hcov : ¬ covers t x y := fun h => hp h.2
    rw [hin]
    simp only [if_true, hcov, false_and, if_false]

/-- The depth test keeps the rasterizer well sized. -/
theorem step_wellSized (t : Triangle Vector3f) (w h : ℤ) (r : rasterizer)
    (hr : r.WellSized w h) (x y : ℤ) : (rasterizer.depth_step t r x y).WellSized w h := by
  unfold rasterizer.depth_step
  split
  · obtain ⟨hss, hw, hh, hfl, hdl⟩ := hr
    exact ⟨hss, hw, hh, by simpa using hfl, by simpa using hdl⟩
  · exact hr

/-- Applying the depth test of one pixel twice is applying it once. -/
theorem depth_test_twice (t : Triangle Vector3f) (x y : ℤ) (o : Option Vector3f × Option Flt) :
    depth_test t x y (depth_test t x y o) = depth_test t x y o := by
  unfold depth_test
  by_cases h : covers t x y ∧ depth_at t x y < o.2.getD (Flt.inf false)
  · rw [if_pos h]
    have : ¬ (covers t x y ∧ depth_at t x y < depth_at t x y) := by
      rintro ⟨_, h'⟩
      rw [Flt.lt_def, Flt.lt_irrefl] at h'
      exact absurd h' (by decide)
    simp only [Option.getD_some, this, if_false]
  · rw [if_neg h, if_neg h]

/-- The depth test at the pixel itself acts on the entries stored for it as `depth_test`. -/
theorem step_obs_eq (t : Triangle Vector3f) (w h : ℤ) (r : rasterizer)
    (hr : r.WellSized w h) (x y : ℤ) (hx : 0 ≤ x ∧ x < w) (hy : 0 ≤ y ∧ y < h) :
    (vecGet (rasterizer.depth_step t r x y).frame_buf ((h - 1 - y) * w + x),
      vecGet (rasterizer.depth_step t r x y).depth_buf ((h - 1 - y) * w + x)) =
    depth_test t x y
      (vecGet r.frame_buf ((h - 1 - y) * w + x), vecGet r.depth_buf ((h - 1 - y) * w + x)) := by
  obtain ⟨hss, hw, hh, hfl, hdl⟩ := hr
  have hidx : r.get_index x y = (h - 1 - y) * w + x := by
    rw [get_index_off r hss, hw, hh]
  obtain ⟨hi0, hi1⟩ := index_in_range w h x y hx hy
  have hlf : ((h - 1 - y) * w + x).toNat < r.frame_buf.length :=
    toNat_lt_length _ _ hi0 (by rw [hfl]; exact hi1)
  have hld : ((h - 1 - y) * w + x).toNat < r.depth_buf.length :=
    toNat_lt_length _ _ hi0 (by rw [hdl]; exact hi1)
  unfold rasterizer.depth_step depth_test
  simp only [hidx, vecGet_eq_get? _ _ hi0]
  split
  · simp [hlf, hld]
  · rfl

/-- The depth test at another pixel leaves the entries stored for the pixel alone. -/
theorem step_obs_ne (t : Triangle Vector3f) (w h : ℤ) (r : rasterizer)
    (hr : r.WellSized w h) (x y x₀ y₀ : ℤ)
    (hc : covers t x y → (0 ≤ x ∧ x < w) ∧ (0 ≤ y ∧ y < h))
    (hx₀ : 0 ≤ x₀ ∧ x₀ < w) (hy₀ : 0 ≤ y₀ ∧ y₀ < h) (hne : x ≠ x₀ ∨ y ≠ y₀) :
    (vecGet (rasterizer.depth_step t r x y).frame_buf ((h - 1 - y₀) * w + x₀),
      vecGet (rasterizer.depth_step t r x y).depth_buf ((h - 1 - y₀) * w + x₀)) =
    (vecGet r.frame_buf ((h - 1 - y₀) * w + x₀), vecGet r.depth_buf ((h - 1 - y₀) * w + x₀)) := by
  obtain ⟨hss, hw, hh, hfl, hdl⟩ := hr
  unfold rasterizer.depth_step
  split
  · rename_i hcz
    obtain ⟨hx, hy⟩ := hc hcz.1
    have hidx : r.get_index x y = (h - 1 - y) * w + x := by
      rw [get_index_off r hss, hw, hh]
    obtain ⟨hi0, _⟩ := index_in_range w h x y hx hy
    obtain ⟨hj0, _⟩ := index_in_range w h x₀ y₀ hx₀ hy₀
    have hdiff : ((h - 1 - y) * w + x).toNat ≠ ((h - 1 - y₀) * w + x₀).toNat := by
      intro heq
      have heq' : (h - 1 - y) * w + x = (h - 1 - y₀) * w + x₀ := by
        rw [← Int.toNat_of_nonneg hi0, ← Int.toNat_of_nonneg hj0, heq]
      obtain ⟨e1, e2⟩ := index_injective w _ _ x x₀ hx hx₀ heq'
      rcases hne with hne | hne
      · exact hne e2
      · exact hne (by linarith)
    simp only [hidx, vecGet_eq_get? _ _ hj0, List.get?_eq_getElem?,
      List.getElem?_set_ne hdiff]
  · rfl

/-- Rasterizing, without super-sampling and on an image of at most `2 ^ 24` pixels, a triangle
that covers only pixels of the image and whose loop bounds are defined returns normally, keeps
the buffers well sized, and acts on the entries stored for a pixel of the image as the depth
test of that pixel. -/
theorem rasterize_spec (t : Triangle Vector3f) (w h : ℤ) (r : rasterizer)
    (hr : r.WellSized w h) (hsz : w * h ≤ 2 ^ 24) (hb : (rasterizer.loopBounds t).isSome = true)
    (ht : coversOnlyInRange t w h) (x₀ y₀ : ℤ)
    (hx₀ : 0 ≤ x₀ ∧ x₀ < w) (hy₀ : 0 ≤ y₀ ∧ y₀ < h) :
    ∃ r', r.rasterize_triangle t = some r' ∧ r'.WellSized w h ∧
      (vecGet r'.frame_buf ((h - 1 - y₀) * w + x₀), vecGet r'.depth_buf ((h - 1 - y₀) * w + x₀)) =
      depth_test t x₀ y₀
        (vecGet r.frame_buf ((h - 1 - y₀) * w + x₀), vecGet r.depth_buf ((h - 1 - y₀) * w + x₀)) := by
  obtain ⟨b, hbe⟩ := Option.isSome_iff_exists.mp hb
  have hvis : ∀ x y, visits t x y ↔ (x ∈ intRange b.1 b.2.1 ∧ y ∈ intRange b.2.2.1 b.2.2.2) := by
    intro x y
    unfold visits
    rw [hbe, mem_intRange, mem_intRange]
  set xs := intRange b.1 b.2.1 with hxs
  set ys := intRange b.2.2.1 b.2.2.2 with hys
  let obs : rasterizer → Option Vector3f × Option Flt := fun s =>
    (vecGet s.frame_buf ((h - 1 - y₀) * w + x₀), vecGet s.depth_buf ((h - 1 - y₀) * w + x₀))
  let row : rasterizer → ℤ → rasterizer := fun s x =>
    ys.foldl (fun s' y => rasterizer.depth_step t s' x y) s
  -- one row of pixels
  have hrow : ∀ x, x ∈ xs → ∀ s, s.WellSized w h →
      ys.foldlM (fun r2 y => rasterizer.pixel_body t r2 x y) s = some (row s x) ∧
        (row s x).WellSized w h := by
    intro x hx s hs
    exact foldlM_mem_eq_some_foldl (fun r2 y => rasterizer.pixel_body t r2 x y)
      (fun s' y => rasterizer.depth_step t s' x y) (rasterizer.WellSized w h) ys
      (fun s' y hy hs' => pixel_body_eq_step t w h s' hs' hsz x y ((hvis x y).2 ⟨hx, hy⟩) (ht x y))
      (fun s' y _ hs' => step_wellSized t w h s' hs' x y) s hs
  have hroww : ∀ x s, s.WellSized w h → (row s x).WellSized w h := by
    intro x s hs
    exact (foldlM_eq_some_foldl (fun s' y => some (rasterizer.depth_step t s' x y))
      (fun s' y => rasterizer.depth_step t s' x y) (rasterizer.WellSized w h)
      (fun _ _ _ => rfl) (fun s' y hs' => step_wellSized t w h s' hs' x y) ys s hs).2
  have hall := foldlM_mem_eq_some_foldl
    (fun r1 x => ys.foldlM (fun r2 y => rasterizer.pixel_body t r2 x y) r1) row
    (rasterizer.WellSized w h) xs (fun s x hx hs => (hrow x hx s hs).1)
    (fun s x _ hs => hroww x s hs) r hr
  refine ⟨xs.foldl row r, ?_, hall.2, ?_⟩
  · unfold rasterizer.rasterize_triangle
    rw [hbe]
    exact hall.1
  -- the entries of the pixel
  have hrow_eq : ∀ s, s.WellSized w h →
      obs (row s x₀) = if y₀ ∈ ys then depth_test t x₀ y₀ (obs s) else obs s := by
    intro s hs
    exact foldl_obs (fun s' y => rasterizer.depth_step t s' x₀ y) obs (rasterizer.WellSized w h)
      (depth_test t x₀ y₀) y₀
      (fun s' y hs' => step_wellSized t w h s' hs' x₀ y)
      (fun s' y hs' hy => step_obs_ne t w h s' hs' x₀ y x₀ y₀ (ht x₀ y) hx₀ hy₀ (Or.inr hy))
      (fun s' hs' => step_obs_eq t w h s' hs' x₀ y₀ hx₀ hy₀)
      (depth_test_twice t x₀ y₀) ys s hs
  have hrow_ne : ∀ x s, x ≠ x₀ → s.WellSized w h → obs (row s x) = obs s := by
    intro x s hx hs
    have := foldl_obs (fun s' y => rasterizer.depth_step t s' x y) obs (rasterizer.WellSized w h)
      id y₀
      (fun s' y hs' => step_wellSized t w h s' hs' x y)
      (fun s' y hs' _ => step_obs_ne t w h s' hs' x y x₀ y₀ (ht x y) hx₀ hy₀ (Or.inl hx))
      (fun s' hs' => step_obs_ne t w h s' hs' x y₀ x₀ y₀ (ht x y₀) hx₀ hy₀ (Or.inl hx))
      (fun _ => rfl) ys s hs
    simpa using this
  have hfin := foldl_obs row obs (rasterizer.WellSized w h)
    (fun o => if y₀ ∈ ys then depth_test t x₀ y₀ o else o) x₀
    (fun s x hs => hroww x s hs)
    (fun s x hs hx => hrow_ne x s hx hs)
    (fun s hs => hrow_eq s hs)
    (fun o => by
      by_cases hy : y₀ ∈ ys
      · simp only [hy, if_true, depth_test_twice]
      · simp only [hy, if_false])
    xs r hr
  show obs (xs.foldl row r) = depth_test t x₀ y₀ (obs r)
  rw [hfin]
  by_cases hc : covers t x₀ y₀
  · obtain ⟨m1, m2⟩ := (hvis x₀ y₀).1 hc.1
    simp only [m1, m2, if_true]
  · have hid : depth_test t x₀ y₀ (obs r) = obs r := by
      unfold depth_test
      rw [if_neg (fun hh => hc hh.1)]
    rw [hid]
    by_cases m1 : x₀ ∈ xs
    · by_cases m2 : y₀ ∈ ys
      · simp only [m1, m2, if_true, hid]
      · simp only [m1, m2, if_true, if_false]
    · simp only [m1, if_false]

/-- Clearing keeps a rasterizer without super-sampling well sized. -/
theorem clear_sized (r₀ : rasterizer) (m : Buffers) (hss : r₀.super_sample = 0)
    (hfl : (r₀.frame_buf.length : ℤ) = r₀.width * r₀.height)
    (hdl : (r₀.depth_buf.length : ℤ) = r₀.width * r₀.height) :
    (r₀.clear m).WellSized r₀.width r₀.height := by
  unfold rasterizer.clear rasterizer.WellSized
  split <;> split <;> simp [vecFill, hss, hfl, hdl]

/-- After `clear(Color | Depth)` an entry inside both buffers holds the colour `(0,0,0)` and the
depth `+∞`. -/
theorem clear_entries (r₀ : rasterizer) (i : ℤ) (h0 : 0 ≤ i)
    (hf : i < (r₀.frame_buf.length : ℤ)) (hd : i < (r₀.depth_buf.length : ℤ)) :
    vecGet (r₀.clear (Buffers.or Buffers.Color Buffers.Depth)).frame_buf i
      = some (⟨Flt.zero false, Flt.zero false, Flt.zero false⟩ : Vector3f) ∧
    vecGet (r₀.clear (Buffers.or Buffers.Color Buffers.Depth)).depth_buf i
      = some (Flt.inf false) := by
  have hc : Buffers.and (Buffers.or Buffers.Color Buffers.Depth) Buffers.Color = Buffers.Color := by
    decide
  have hd' : Buffers.and (Buffers.or Buffers.Color Buffers.Depth) Buffers.Depth = Buffers.Depth := by
    decide
  have h1 := toNat_lt_length _ _ h0 hf
  have h2 := toNat_lt_length _ _ h0 hd
  simp only [rasterizer.clear, hc, hd', if_true, vecFill, vecGet_eq_get? _ _ h0,
    List.get?_eq_getElem?, List.getElem?_map, List.getElem?_eq_getElem h1,
    List.getElem?_eq_getElem h2, Option.map_some', and_self]

/-- A covered pixel has defined loop bounds. -/
theorem loopBounds_of_covers (t : Triangle Vector3f) (x y : ℤ) (h : covers t x y) :
    (rasterizer.loopBounds t).isSome = true := by
  have hv := h.1
  unfold visits at hv
  cases hb : rasterizer.loopBounds t with
  | none => rw [hb] at hv; exact absurd hv id
  | some b => rfl

/-! ### The depth test -/

/-- The depth test of a pixel on the entries `clear` leaves: the colour and the depth of the
triangle when it covers the pixel with a depth below `+∞`. -/
theorem depth_test_cleared (t : Triangle Vector3f) (x y : ℤ)
    (h : covers t x y ∧ depth_at t x y < Flt.inf false) :
    depth_test t x y
        (some (⟨Flt.zero false, Flt.zero false, Flt.zero false⟩ : Vector3f), some (Flt.inf false)) =
      (some (Assignment2.getColor t), some (depth_at t x y)) := by
  unfold depth_test
  exact if_pos h

/-- The depth test of a pixel leaves alone the entries it does not pass on. -/
theorem depth_test_fails (t : Triangle Vector3f) (x y : ℤ) (o : Option Vector3f × Option Flt)
    (h : ¬ (covers t x y ∧ depth_at t x y < o.2.getD (Flt.inf false))) :
    depth_test t x y o = o := by
  unfold depth_test
  rw [if_neg h]

/-- Claim C1, amended (depth test is order-independent): take a rasterizer without
super-sampling for an image of at most `2 ^ 24` pixels, whose buffers have `width · height`
entries and were just cleared, and two screen-space triangles `A` and `B` that each cover only
pixels inside the image (a pixel is covered when the bounding-box loops reach it and its sample
point passes `insideTriangle`, both computed in `binary32`).  For every pixel `(x, y)` covered
by both at which the depth interpolated for `A` is strictly smaller than the one for `B`,
running `rasterize_triangle` on both, in either order, returns normally and leaves `A`'s colour
`getColor()` in `frame_buf` and `A`'s interpolated depth in `depth_buf` at
`get_index(x, y)`. -/
theorem depth_order_binary32 (r₀ : rasterizer) (A B : Triangle Vector3f) (x y : ℤ)
    (hss : r₀.super_sample = 0)
    (hfl : (r₀.frame_buf.length : ℤ) = r₀.width * r₀.height)
    (hdl : (r₀.depth_buf.length : ℤ) = r₀.width * r₀.height)
    (hsz : r₀.width * r₀.height ≤ 2 ^ 24)
    (hA : coversOnlyInRange A r₀.width r₀.height)
    (hB : coversOnlyInRange B r₀.width r₀.height)
    (hcA : covers A x y) (hcB : covers B x y)
    (hz : depth_at A x y < depth_at B x y) :
    (∃ r₁ r₂ : rasterizer,
      (r₀.clear (Buffers.or Buffers.Color Buffers.Depth)).rasterize_triangle A = some r₁ ∧
      r₁.rasterize_triangle B = some r₂ ∧
      vecGet r₂.frame_buf (r₀.get_index x y) = some (Assignment2.getColor A) ∧
      vecGet r₂.depth_buf (r₀.get_index x y) = some (depth_at A x y)) ∧
    (∃ r₁ r₂ : rasterizer,
      (r₀.clear (Buffers.or Buffers.Color Buffers.Depth)).rasterize_triangle B = some r₁ ∧
      r₁.rasterize_triangle A = some r₂ ∧
      vecGet r₂.frame_buf (r₀.get_index x y) = some (Assignment2.getColor A) ∧
      vecGet r₂.depth_buf (r₀.get_index x y) = some (depth_at A x y)) := by
  obtain ⟨hx, hy⟩ := hA x y hcA
  have hidx : r₀.get_index x y = (r₀.height - 1 - y) * r₀.width + x := get_index_off r₀ hss x y
  obtain ⟨hi0, hi1⟩ := index_in_range r₀.width r₀.height x y hx hy
  have hws := clear_sized r₀ (Buffers.or Buffers.Color Buffers.Depth) hss hfl hdl
  obtain ⟨c0, d0⟩ := clear_entries r₀ _ hi0 (by rw [hfl]; exact hi1) (by rw [hdl]; exact hi1)
  have hbA := loopBounds_of_covers A x y hcA
  have hbB := loopBounds_of_covers B x y hcB
  have hzA : depth_at A x y < Flt.inf false := Flt.lt_inf_of_lt _ _ hz
  have hzz : ¬ depth_at B x y < depth_at A x y := by
    rw [Flt.lt_def, Flt.lt_asymm _ _ hz]
    decide
  rw [hidx]
  constructor
  · obtain ⟨r₁, e₁, w₁, o₁⟩ := rasterize_spec A _ _ _ hws hsz hbA hA x y hx hy
    obtain ⟨r₂, e₂, _, o₂⟩ := rasterize_spec B _ _ _ w₁ hsz hbB hB x y hx hy
    refine ⟨r₁, r₂, e₁, e₂, ?_⟩
    rw [c0, d0, depth_test_cleared A x y ⟨hcA, hzA⟩] at o₁
    rw [o₁, depth_test_fails B x y (some (Assignment2.getColor A), some (depth_at A x y))
      (fun h => hzz h.2)] at o₂
    exact ⟨congrArg Prod.fst o₂, congrArg Prod.snd o₂⟩
  · obtain ⟨r₁, e₁, w₁, o₁⟩ := rasterize_spec B _ _ _ hws hsz hbB hB x y hx hy
    obtain ⟨r₂, e₂, _, o₂⟩ := rasterize_spec A _ _ _ w₁ hsz hbA hA x y hx hy
    refine ⟨r₁, r₂, e₁, e₂, ?_⟩
    rw [c0, d0] at o₁
    by_cases hzB : depth_at B x y < Flt.inf false
    · rw [depth_test_cleared B x y ⟨hcB, hzB⟩] at o₁
      rw [o₁] at o₂
      have o₂' : depth_test A x y (some (Assignment2.getColor B), some (depth_at B x y)) =
          (some (Assignment2.getColor A), some (depth_at A x y)) := by
        unfold depth_test
        rw [if_pos ⟨hcA, hz⟩]
      rw [o₂'] at o₂
      exact ⟨congrArg Prod.fst o₂, congrArg Prod.snd o₂⟩
    · rw [depth_test_fails B x y (some (⟨Flt.zero false, Flt.zero false, Flt.zero false⟩ :
        Vector3f), some (Flt.inf false)) (fun h => hzB h.2)] at o₁
      rw [o₁, depth_test_cleared A x y ⟨hcA, hzA⟩] at o₂
      exact ⟨congrArg Prod.fst o₂, congrArg Prod.snd o₂⟩

/-- A triangle covers only pixels of the image once the pixels its loops reach and whose sample
point passes the coverage test are pixels of the image. -/
theorem coversOnlyInRange_of_bounds (t : Triangle Vector3f) (w h : ℤ) (b : ℤ × ℤ × ℤ × ℤ)
    (hb : rasterizer.loopBounds t = some b)
    (hall : ∀ x ∈ intRange b.1 b.2.1, ∀ y ∈ intRange b.2.2.1 b.2.2.2,
      passes t x y → (0 ≤ x ∧ x < w) ∧ (0 ≤ y ∧ y < h)) :
    coversOnlyInRange t w h := by
  intro x y hc
  have hv := hc.1
  unfold visits at hv
  rw [hb] at hv
  exact hall x ((mem_intRange _ _ _).2 hv.1) y ((mem_intRange _ _ _).2 hv.2) hc.2

/-- The triangle `triangleNear` covers only pixels of the 2 by 2 image. -/
theorem triangleNear_inRange : coversOnlyInRange triangleNear 2 2 :=
  coversOnlyInRange_of_bounds triangleNear 2 2 (0, 2, 0, 2) (by decide!) (by decide!)

/-- The triangle `triangleFar` covers only pixels of the 2 by 2 image. -/
theorem triangleFar_inRange : coversOnlyInRange triangleFar 2 2 :=
  coversOnlyInRange_of_bounds triangleFar 2 2 (0, 2, 0, 2) (by decide!) (by decide!)

/-- The triangle `triangleOffset` covers only pixels of the 2 by 2 image. -/
theorem triangleOffset_inRange : coversOnlyInRange triangleOffset 2 2 :=
  coversOnlyInRange_of_bounds triangleOffset 2 2 (0, 2, 0, 2) (by decide!) (by decide!)

/-- Instance of `depth_order_binary32`: on the cleared 2 by 2 image the triangle at depth 3 and
the triangle at depth 5 both cover pixel `(0, 0)`; in both orders the pixel ends with the colour
and the depth of the nearer one. -/
theorem depth_order_binary32_witness :
    (∃ r₁ r₂ : rasterizer,
      ((raster 2 2).clear (Buffers.or Buffers.Color Buffers.Depth)).rasterize_triangle triangleNear
        = some r₁ ∧
      r₁.rasterize_triangle triangleFar = some r₂ ∧
      vecGet r₂.frame_buf ((raster 2 2).get_index 0 0) = some (Assignment2.getColor triangleNear) ∧
      vecGet r₂.depth_buf ((raster 2 2).get_index 0 0) = some (depth_at triangleNear 0 0)) ∧
    (∃ r₁ r₂ : rasterizer,
      ((raster 2 2).clear (Buffers.or Buffers.Color Buffers.Depth)).rasterize_triangle triangleFar
        = some r₁ ∧
      r₁.rasterize_triangle triangleNear = some r₂ ∧
      vecGet r₂.frame_buf ((raster 2 2).get_index 0 0) = some (Assignment2.getColor triangleNear) ∧
      vecGet r₂.depth_buf ((raster 2 2).get_index 0 0) = some (depth_at triangleNear 0 0)) :=
  depth_order_binary32 (raster 2 2) triangleNear triangleFar 0 0 rfl (by decide) (by decide)
    (by decide)
    triangleNear_inRange triangleFar_inRange (by decide!) (by decide!) (by decide!)

/-- Counterexample to claim C1 as stated (any two screen-space triangles): on the cleared 2 by 2
image, `triangleWide` (A) and `triangleWideFar` (B) both cover the in-range pixel `(0, 0)`, where
A has depth 4 and B depth 5.  Both also cover the pixel `(2, 1)` beyond the right edge, whose
index `get_index(2, 1) = 2` is that of pixel `(0, 0)` and where B has depth 1 and A depth 2.  In
both orders every access is in range and the entry of pixel `(0, 0)` ends with B's colour
`(185, 217, 238)` and depth 1, not with A's colour `(217, 238, 185)` and depth 4.
Beyond `2 ^ 24` pixels the colour goes to another entry than the depth: on the 4097 by 4097
image `get_index(1, 0) = 16781313`, while `set_pixel` computes the index `16781312` for pixel
`(1, 0)`. -/
theorem depth_order_counterexample :
    (raster 2 2).super_sample = 0 ∧
    ((0 : ℤ) ≤ 0 ∧ (0 : ℤ) < (raster 2 2).width ∧ (0 : ℤ) ≤ 0 ∧ (0 : ℤ) < (raster 2 2).height) ∧
    passes triangleWide 0 0 ∧ passes triangleWideFar 0 0 ∧
    depth_at triangleWide 0 0 = Flt.num 4 ∧
    depth_at triangleWideFar 0 0 = Flt.num 5 ∧
    depth_at triangleWide 0 0 < depth_at triangleWideFar 0 0 ∧
    Assignment2.getColor triangleWide = ⟨Flt.num 217, Flt.num 238, Flt.num 185⟩ ∧
    ((((raster 2 2).clear (Buffers.or Buffers.Color Buffers.Depth)).rasterize_triangle
        triangleWide).bind fun r₁ =>
      (r₁.rasterize_triangle triangleWideFar).map fun r₂ =>
        (vecGet r₂.frame_buf (r₂.get_index 0 0), vecGet r₂.depth_buf (r₂.get_index 0 0))) =
      some (some ⟨Flt.num 185, Flt.num 217, Flt.num 238⟩, some (Flt.num 1)) ∧
    ((((raster 2 2).clear (Buffers.or Buffers.Color Buffers.Depth)).rasterize_triangle
        triangleWideFar).bind fun r₁ =>
      (r₁.rasterize_triangle triangleWide).map fun r₂ =>
        (vecGet r₂.frame_buf (r₂.get_index 0 0), vecGet r₂.depth_buf (r₂.get_index 0 0))) =
      some (some ⟨Flt.num 185, Flt.num 217, Flt.num 238⟩, some (Flt.num 1)) ∧
    ((raster 4097 4097).get_index 1 0 = 16781313 ∧
      ((raster 4097 4097).pixel_index ⟨binary32.ofInt 1, binary32.ofInt 0, Flt.num 1⟩).trunc =
        some 16781312) := by
  refine ⟨rfl, by decide, ?_, ?_, ?_, ?_, ?_, ?_, ?_, ?_, index_rounded_beyond⟩ <;> decide!

/-! ### The colour written by the rasterizer -/

/-- The integer colour components `0, …, 255` come back from `getColor()` as they were given to
`setColor`: the quotient by 255, computed in `double` and stored as a `float`, times 255. -/
theorem component_roundtrip_range :
    ∀ k ∈ List.range 256,
      binary32.convert (binary64.div (binary32.ofInt (k : ℤ)) (Flt.num 255)) * binary32.ofInt 255 =
        binary32.ofInt (k : ℤ) := by
  decide!

/-- An integer colour component of `[0, 255]` comes back from `getColor()` as it was given to
`setColor`. -/
theorem component_roundtrip (n : ℤ) (h0 : 0 ≤ n) (h1 : n ≤ 255) :
    binary32.convert (binary64.div (binary32.ofInt n) (Flt.num 255)) * binary32.ofInt 255 =
      binary32.ofInt n := by
  have h := component_roundtrip_range n.toNat (List.mem_range.2 (by omega))
  rw [Int.toNat_of_nonneg h0] at h
  exact h

/-- The integers of `[0, 255]`, converted to `float`, are numbers of `[0, 255]`. -/
theorem ofInt_colour (n : ℤ) (h0 : 0 ≤ n) (h1 : n ≤ 255) :
    (binary32.ofInt n).isFinite = true ∧ 0 ≤ (binary32.ofInt n).val ∧
      (binary32.ofInt n).val ≤ 255 := by
  obtain ⟨a, b⟩ := ofInt32_is n (by rw [abs_of_nonneg h0]; linarith)
  refine ⟨a, ?_, ?_⟩ <;> rw [b]
  · exact_mod_cast h0
  · exact_mod_cast h1

/-- The colour `getColor()` returns once `setColor(0, r, g, b)` was called with numbers of
`[0, 255]`: the three stored quotients times 255. -/
theorem getColor_of_setColor_numbers (t t₀ : Triangle Vector3f) (r g b : Flt)
    (hr : r.isFinite = true ∧ 0 ≤ r.val ∧ r.val ≤ 255)
    (hg : g.isFinite = true ∧ 0 ≤ g.val ∧ g.val ≤ 255)
    (hb : b.isFinite = true ∧ 0 ≤ b.val ∧ b.val ≤ 255)
    (hcol : t.color 0 = (Assignment2.setColor t₀ 0 r g b).2.color 0) :
    Assignment2.getColor t =
      ⟨binary32.convert (binary64.div r (Flt.num 255)) * binary32.ofInt 255,
        binary32.convert (binary64.div g (Flt.num 255)) * binary32.ofInt 255,
        binary32.convert (binary64.div b (Flt.num 255)) * binary32.ofInt 255⟩ := by
  unfold Assignment2.getColor
  rw [hcol]
  unfold Assignment2.setColor
  rw [Triangle.setColor_numbers _ t₀ 0 r g b hr hg hb]
  simp only [Function.update_same, Vector3f.mulScalar]

/-- Rasterizing, without super-sampling and on an image of at most `2 ^ 24` pixels, a triangle
that covers only pixels of the image and whose loop bounds are defined returns normally and
keeps the buffers well sized. -/
theorem rasterize_returns (t : Triangle Vector3f) (w h : ℤ) (r : rasterizer)
    (hr : r.WellSized w h) (hsz : w * h ≤ 2 ^ 24) (hb : (rasterizer.loopBounds t).isSome = true)
    (ht : coversOnlyInRange t w h) :
    ∃ r', r.rasterize_triangle t = some r' ∧ r'.WellSized w h := by
  obtain ⟨b, hbe⟩ := Option.isSome_iff_exists.mp hb
  have hall := foldlM_mem_eq_some_foldl
    (fun r1 x => (intRange b.2.2.1 b.2.2.2).foldlM
      (fun r2 y => rasterizer.pixel_body t r2 x y) r1)
    (fun s x => (intRange b.2.2.1 b.2.2.2).foldl
      (fun s' y => rasterizer.depth_step t s' x y) s)
    (rasterizer.WellSized w h) (intRange b.1 b.2.1)
    (fun s x hx hs => (foldlM_mem_eq_some_foldl
      (fun r2 y => rasterizer.pixel_body t r2 x y)
      (fun s' y => rasterizer.depth_step t s' x y) (rasterizer.WellSized w h)
      (intRange b.2.2.1 b.2.2.2)
      (fun s' y hy hs' => pixel_body_eq_step t _ _ s' hs' hsz x y (by
        unfold visits
        rw [hbe]
        exact ⟨(mem_intRange _ _ _).1 hx, (mem_intRange _ _ _).1 hy⟩) (ht x y))
      (fun s' y _ hs' => step_wellSized t _ _ s' hs' x y) s hs).1)
    (fun s x _ hs => (foldlM_eq_some_foldl
      (fun s' y => some (rasterizer.depth_step t s' x y))
      (fun s' y => rasterizer.depth_step t s' x y) (rasterizer.WellSized w h)
      (fun _ _ _ => rfl) (fun s' y hs' => step_wellSized t _ _ s' hs' x y)
      (intRange b.2.2.1 b.2.2.2) s hs).2)
    r hr
  refine ⟨_, ?_, hall.2⟩
  unfold rasterizer.rasterize_triangle
  rw [hbe, Option.some_bind]
  exact hall.1

/-- Claim C8, amended (written colour): without super-sampling, on a just cleared rasterizer
for an image of at most `2 ^ 24` pixels whose buffers have `width · height` entries, take a
triangle whose colour `color[0]` was set by `setColor` from numbers `(r, g, b)` of `[0, 255]³`,
whose loop bounds are values of type `int`, and which covers only pixels inside the image.
Then `getColor()` is the stored colour times 255, each operation rounded, which is `(r, g, b)`
itself when `r`, `g`, `b` are integers; `rasterize_triangle` returns normally; afterwards every
pixel of the image that the triangle covers with an interpolated depth below `+∞` holds the
frame-buffer value `getColor()`, and every other pixel of the image holds the cleared value
`(0, 0, 0)`. -/
theorem written_colour_binary32 (r₀ : rasterizer) (t : Triangle Vector3f) (r g b : Flt)
    (hss : r₀.super_sample = 0)
    (hfl : (r₀.frame_buf.length : ℤ) = r₀.width * r₀.height)
    (hdl : (r₀.depth_buf.length : ℤ) = r₀.width * r₀.height)
    (hsz : r₀.width * r₀.height ≤ 2 ^ 24)
    (hr : r.isFinite = true ∧ 0 ≤ r.val ∧ r.val ≤ 255)
    (hg : g.isFinite = true ∧ 0 ≤ g.val ∧ g.val ≤ 255)
    (hb : b.isFinite = true ∧ 0 ≤ b.val ∧ b.val ≤ 255)
    (hset : ∃ t₀ : Triangle Vector3f, t.color 0 = (Assignment2.setColor t₀ 0 r g b).2.color 0)
    (hlb : (rasterizer.loopBounds t).isSome = true)
    (ht : coversOnlyInRange t r₀.width r₀.height) :
    Assignment2.getColor t =
      ⟨binary32.convert (binary64.div r (Flt.num 255)) * binary32.ofInt 255,
        binary32.convert (binary64.div g (Flt.num 255)) * binary32.ofInt 255,
        binary32.convert (binary64.div b (Flt.num 255)) * binary32.ofInt 255⟩ ∧
    (∀ n₀ n₁ n₂ : ℤ, (0 ≤ n₀ ∧ n₀ ≤ 255) → (0 ≤ n₁ ∧ n₁ ≤ 255) → (0 ≤ n₂ ∧ n₂ ≤ 255) →
      r = binary32.ofInt n₀ → g = binary32.ofInt n₁ → b = binary32.ofInt n₂ →
      Assignment2.getColor t = ⟨r, g, b⟩) ∧
    ∃ r' : rasterizer,
      (r₀.clear (Buffers.or Buffers.Color Buffers.Depth)).rasterize_triangle t = some r' ∧
      ∀ x y : ℤ, 0 ≤ x ∧ x < r₀.width → 0 ≤ y ∧ y < r₀.height →
        (covers t x y ∧ depth_at t x y < Flt.inf false →
          vecGet r'.frame_buf (r₀.get_index x y) = some (Assignment2.getColor t)) ∧
        (¬ (covers t x y ∧ depth_at t x y < Flt.inf false) →
          vecGet r'.frame_buf (r₀.get_index x y) =
            some ⟨Flt.zero false, Flt.zero false, Flt.zero false⟩) := by
  obtain ⟨t₀, hcol⟩ := hset
  have hgc := getColor_of_setColor_numbers t t₀ r g b hr hg hb hcol
  refine ⟨hgc, ?_, ?_⟩
  · intro n₀ n₁ n₂ h₀ h₁ h₂ e₀ e₁ e₂
    rw [hgc, e₀, e₁, e₂, component_roundtrip n₀ h₀.1 h₀.2, component_roundtrip n₁ h₁.1 h₁.2,
      component_roundtrip n₂ h₂.1 h₂.2]
  have hws := clear_sized r₀ (Buffers.or Buffers.Color Buffers.Depth) hss hfl hdl
  obtain ⟨r', hres, _⟩ := rasterize_returns t _ _ _ hws hsz hlb ht
  have hobs : ∀ x y : ℤ, 0 ≤ x ∧ x < r₀.width → 0 ≤ y ∧ y < r₀.height →
      (vecGet r'.frame_buf ((r₀.height - 1 - y) * r₀.width + x),
        vecGet r'.depth_buf ((r₀.height - 1 - y) * r₀.width + x)) =
      depth_test t x y
        (vecGet (r₀.clear (Buffers.or Buffers.Color Buffers.Depth)).frame_buf
            ((r₀.height - 1 - y) * r₀.width + x),
          vecGet (r₀.clear (Buffers.or Buffers.Color Buffers.Depth)).depth_buf
            ((r₀.height - 1 - y) * r₀.width + x)) := by
    intro x y hx hy
    obtain ⟨r'', e, _, o⟩ := rasterize_spec t _ _ _ hws hsz hlb ht x y hx hy
    rw [hres] at e
    obtain rfl : r' = r'' := Option.some.inj e
    exact o
  refine ⟨r', hres, ?_⟩
  intro x y hx hy
  have o := hobs x y hx hy
  have hidx : r₀.get_index x y = (r₀.height - 1 - y) * r₀.width + x := get_index_off r₀ hss x y
  obtain ⟨hi0, hi1⟩ := index_in_range r₀.width r₀.height x y hx hy
  obtain ⟨c0, d0⟩ := clear_entries r₀ _ hi0 (by rw [hfl]; exact hi1) (by rw [hdl]; exact hi1)
  rw [c0, d0] at o
  rw [hidx]
  constructor
  · intro hc
    rw [depth_test_cleared t x y hc] at o
    exact congrArg Prod.fst o
  · intro hc
    rw [depth_test_fails t x y (some (⟨Flt.zero false, Flt.zero false, Flt.zero false⟩ :
      Vector3f), some (Flt.inf false)) hc] at o
    exact congrArg Prod.fst o

/-- Instance of `written_colour_binary32`: the scenario colour `(217, 238, 185)` set on a
triangle that covers pixel `(0, 0)` of the 2 by 2 image. -/
theorem written_colour_binary32_witness :
    Assignment2.getColor triangleNear = ⟨Flt.num 217, Flt.num 238, Flt.num 185⟩ ∧
    ∃ r' : rasterizer,
      ((raster 2 2).clear (Buffers.or Buffers.Color Buffers.Depth)).rasterize_triangle
        triangleNear = some r' ∧
      ∀ x y : ℤ, 0 ≤ x ∧ x < (raster 2 2).width → 0 ≤ y ∧ y < (raster 2 2).height →
        (covers triangleNear x y ∧ depth_at triangleNear x y < Flt.inf false →
          vecGet r'.frame_buf ((raster 2 2).get_index x y) =
            some (Assignment2.getColor triangleNear)) ∧
        (¬ (covers triangleNear x y ∧ depth_at triangleNear x y < Flt.inf false) →
          vecGet r'.frame_buf ((raster 2 2).get_index x y) =
            some ⟨Flt.zero false, Flt.zero false, Flt.zero false⟩) :=
  have h := written_colour_binary32 (raster 2 2) triangleNear (Flt.num 217) (Flt.num 238)
    (Flt.num 185) rfl (by decide) (by decide) (by decide)
    ⟨rfl, by decide!, by decide!⟩ ⟨rfl, by decide!, by decide!⟩ ⟨rfl, by decide!, by decide!⟩
    ⟨_, rfl⟩ (by decide!) triangleNear_inRange
  ⟨h.2.1 217 238 185 (by decide) (by decide) (by decide) (by decide!) (by decide!) (by decide!),
    h.2.2⟩

/-- Counterexample to claim C8 as stated: on the cleared 2 by 2 image, the triangle whose colour
was set by `setColor(0, 217, 238, 185)` stores the `float` values nearest to `217/255`,
`238/255` and `185/255`; the sample point of pixel `(0, 0)` passes the coverage test, and after
`rasterize_triangle` the frame buffer holds `(217, 238, 185)` there, not the stored colour.
Beyond `2 ^ 24` pixels the colour goes to another entry than the depth: on the 4097 by 4097
image `get_index(1, 0) = 16781313`, while `set_pixel` computes the index `16781312` for pixel
`(1, 0)`. -/
theorem written_colour_scale_counterexample :
    triangleNear.color 0 =
      ⟨Flt.num (7138541 / 8388608), Flt.num (15658735 / 16777216),
        Flt.num (6085853 / 8388608)⟩ ∧
    passes triangleNear 0 0 ∧
    ((((raster 2 2).clear (Buffers.or Buffers.Color Buffers.Depth)).rasterize_triangle
        triangleNear).map fun r' => vecGet r'.frame_buf (r'.get_index 0 0)) =
      some (some ⟨Flt.num 217, Flt.num 238, Flt.num 185⟩) ∧
    (⟨Flt.num 217, Flt.num 238, Flt.num 185⟩ : Vector3f) ≠ triangleNear.color 0 ∧
    ((raster 4097 4097).get_index 1 0 = 16781313 ∧
      ((raster 4097 4097).pixel_index ⟨binary32.ofInt 1, binary32.ofInt 0, Flt.num 1⟩).trunc =
        some 16781312) := by
  refine ⟨?_, ?_, ?_, ?_, index_rounded_beyond⟩ <;> decide!

/-! ### Monotonicity of the depth buffer -/

/-- Nothing is raised when nothing changes. -/
theorem depthNotRaised_refl (r : rasterizer) : r.DepthNotRaised r :=
  ⟨rfl, fun _ d hd => ⟨d, hd, Or.inl rfl⟩⟩

/-- Not raising twice is not raising. -/
theorem depthNotRaised_trans (r r' r'' : rasterizer) (h : r.DepthNotRaised r')
    (h' : r'.DepthNotRaised r'') : r.DepthNotRaised r'' := by
  obtain ⟨a1, a2⟩ := h
  obtain ⟨b1, b2⟩ := h'
  refine ⟨b1.trans a1, fun i d hd => ?_⟩
  obtain ⟨d', hd', hle⟩ := a2 i d hd
  obtain ⟨d'', hd'', hle'⟩ := b2 i d' hd'
  refine ⟨d'', hd'', ?_⟩
  rcases hle with rfl | hlt
  · exact hle'
  · rcases hle' with rfl | hlt'
    · exact Or.inr hlt
    · exact Or.inr (Flt.lt_trans _ _ _ hlt' hlt)

/-- What `set_pixel` leaves alone: the depth buffer and the super-sampling factor. -/
theorem set_pixel_depth (r r1 : rasterizer) (point color : Vector3f)
    (h : r.set_pixel point color = some r1) :
    r1.depth_buf = r.depth_buf ∧ r1.super_sample = r.super_sample := by
  unfold rasterizer.set_pixel at h
  cases ht : (r.pixel_index point).trunc with
  | none => rw [ht] at h; exact absurd h (by simp)
  | some ind =>
    rw [ht] at h
    simp only [Option.some_bind] at h
    cases hf : vecSet r.frame_buf ind color with
    | none => rw [hf] at h; exact absurd h (by simp)
    | some fb =>
      rw [hf] at h
      simp only [Option.map_some'] at h
      obtain rfl := Option.some.inj h
      exact ⟨rfl, rfl⟩

/-- One step of the pixel loop without super-sampling raises no depth entry. -/
theorem pixel_body_notRaised (t : Triangle Vector3f) (r r' : rasterizer) (x y : ℤ)
    (hss : r.super_sample = 0) (h : rasterizer.pixel_body t r x y = some r') :
    r.DepthNotRaised r' := by
  unfold rasterizer.pixel_body at h
  rw [if_neg (by rw [hss]; decide)] at h
  split_ifs at h with hin
  · obtain rfl : r = r' := Option.some.inj h
    exact depthNotRaised_refl r
  · simp only [] at h
    cases hd : vecGet r.depth_buf (r.get_index x y) with
    | none =>
      rw [hd] at h
      exact absurd h (by simp)
    | some d =>
      rw [hd] at h
      simp only [Option.some_bind] at h
      split_ifs at h with hz
      · cases hs : r.set_pixel ⟨binary32.ofInt x, binary32.ofInt y, Flt.num 1⟩
            (Assignment2.getColor t) with
        | none =>
          rw [hs] at h
          exact absurd h (by simp)
        | some r1 =>
          rw [hs] at h
          simp only [Option.some_bind] at h
          obtain ⟨e1, e2⟩ := set_pixel_depth r r1 _ _ hs
          cases hdb : vecSet r1.depth_buf (r.get_index x y)
              (rasterizer.z_interpolated t (binary32.ofInt x) (binary32.ofInt y)) with
          | none =>
            rw [hdb] at h
            exact absurd h (by simp)
          | some db =>
            rw [hdb] at h
            simp only [Option.map_some'] at h
            obtain rfl := Option.some.inj h
            rw [e1] at hdb
            obtain ⟨hdr, rfl⟩ := vecSet_some _ _ _ _ hdb
            refine ⟨e2, fun i e he => ?_⟩
            by_cases hi : i = r.get_index x y
            · subst hi
              rw [hd] at he
              obtain rfl := Option.some.inj he
              exact ⟨_, vecGet_set_self _ _ _ hdr.1 hdr.2, Or.inr hz⟩
            · exact ⟨e, by rw [← he]; exact vecGet_set_ne _ _ _ _ hdr.1 hi, Or.inl rfl⟩
      · obtain rfl : r = r' := Option.some.inj h
        exact depthNotRaised_refl r

/-- A call of `rasterize_triangle` without super-sampling raises no depth entry. -/
theorem rasterize_notRaised (t : Triangle Vector3f) (r r' : rasterizer)
    (hss : r.super_sample = 0) (h : r.rasterize_triangle t = some r') : r.DepthNotRaised r' := by
  have step : ∀ (x y : ℤ) (s s' : rasterizer), s.super_sample = 0 →
      rasterizer.pixel_body t s x y = some s' → s.DepthNotRaised s' ∧ s'.super_sample = 0 := by
    intro x y s s' hs hb
    have := pixel_body_notRaised t s s' x y hs hb
    exact ⟨this, this.1.trans hs⟩
  unfold rasterizer.rasterize_triangle at h
  cases hb : rasterizer.loopBounds t with
  | none => rw [hb] at h; exact absurd h (by simp)
  | some b =>
    rw [hb, Option.some_bind] at h
    exact (foldlM_rel rasterizer.DepthNotRaised (fun s => s.super_sample = 0) _
      depthNotRaised_refl depthNotRaised_trans
      (fun s x s' hs hx =>
        foldlM_rel rasterizer.DepthNotRaised (fun s => s.super_sample = 0) _ depthNotRaised_refl
          depthNotRaised_trans (fun s₁ y s₂ hs₁ hy => step x y s₁ s₂ hs₁ hy) _ s s' hs hx)
      _ r r' hss h).1

/-- A run that returns has defined loop bounds. -/
theorem loopBounds_of_returns (t : Triangle Vector3f) (r r' : rasterizer)
    (h : r.rasterize_triangle t = some r') : (rasterizer.loopBounds t).isSome = true := by
  unfold rasterizer.rasterize_triangle at h
  cases hb : rasterizer.loopBounds t with
  | none => rw [hb] at h; exact absurd h (by simp)
  | some b => rfl

/-- Claim C31, amended (the depth buffer is monotone): without super-sampling, when
`rasterize_triangle` completes, no entry of `depth_buf` has grown: each holds the datum it held
or one that compares strictly below it.  On an image of at most `2 ^ 24` pixels whose buffers
have `width · height` entries, for a triangle that covers only pixels of the image: each step
of the pixel loop writes the colour and the depth together, at `get_index(x, y)`, exactly when
the pixel is covered with an interpolated depth below the stored one; the `frame_buf` entry of
a pixel of the image differs after the call only when the pixel is covered and its `depth_buf`
entry was strictly lowered to the interpolated depth; and both buffers are unchanged at every
pixel of the image that the triangle does not cover, in particular at every pixel the
bounding-box loops do not reach. -/
theorem depth_monotone_binary32 (t : Triangle Vector3f) (r r' : rasterizer)
    (hss : r.super_sample = 0) (hrun : r.rasterize_triangle t = some r') :
    (∀ (i : ℤ) (d : Flt), vecGet r.depth_buf i = some d →
      ∃ d', vecGet r'.depth_buf i = some d' ∧ (d' = d ∨ d' < d)) ∧
    (∀ w h : ℤ, r.WellSized w h → w * h ≤ 2 ^ 24 → coversOnlyInRange t w h →
      (∀ (x y : ℤ) (s : rasterizer), visits t x y → s.WellSized w h →
        rasterizer.pixel_body t s x y = some (rasterizer.depth_step t s x y)) ∧
      ∀ x y : ℤ, 0 ≤ x ∧ x < w → 0 ≤ y ∧ y < h →
        (vecGet r'.frame_buf (r.get_index x y) ≠ vecGet r.frame_buf (r.get_index x y) →
          covers t x y ∧
          ∃ d, vecGet r.depth_buf (r.get_index x y) = some d ∧ depth_at t x y < d ∧
            vecGet r'.depth_buf (r.get_index x y) = some (depth_at t x y)) ∧
        (¬ covers t x y →
          vecGet r'.frame_buf (r.get_index x y) = vecGet r.frame_buf (r.get_index x y) ∧
          vecGet r'.depth_buf (r.get_index x y) = vecGet r.depth_buf (r.get_index x y)) ∧
        (¬ visits t x y →
          vecGet r'.frame_buf (r.get_index x y) = vecGet r.frame_buf (r.get_index x y) ∧
          vecGet r'.depth_buf (r.get_index x y) = vecGet r.depth_buf (r.get_index x y))) := by
  have hl := rasterize_notRaised t r r' hss hrun
  have hlb := loopBounds_of_returns t r r' hrun
  refine ⟨fun i d hd => hl.2 i d hd, ?_⟩
  intro w h hr hsz ht
  refine ⟨fun x y s hv hs => pixel_body_eq_step t w h s hs hsz x y hv (ht x y), ?_⟩
  intro x y hx hy
  obtain ⟨r'', hr'', -, hobs⟩ := rasterize_spec t w h r hr hsz hlb ht x y hx hy
  rw [hrun] at hr''
  obtain rfl := Option.some.inj hr''
  have hg : r.get_index x y = (h - 1 - y) * w + x := by
    rw [get_index_off r hss, hr.2.1, hr.2.2.1]
  obtain ⟨hi0, hi1⟩ := index_in_range w h x y hx hy
  obtain ⟨d, hd⟩ := vecGet_isSome r.depth_buf ((h - 1 - y) * w + x) hi0
    (by rw [hr.2.2.2.2]; exact hi1)
  have hunch : ¬ covers t x y →
      vecGet r'.frame_buf ((h - 1 - y) * w + x) = vecGet r.frame_buf ((h - 1 - y) * w + x) ∧
      vecGet r'.depth_buf ((h - 1 - y) * w + x) = vecGet r.depth_buf ((h - 1 - y) * w + x) := by
    intro hc
    rw [depth_test_fails t x y _ (fun hcz => hc hcz.1)] at hobs
    exact ⟨congrArg Prod.fst hobs, congrArg Prod.snd hobs⟩
  rw [hg]
  refine ⟨?_, hunch, fun hv => hunch (fun hc => hv hc.1)⟩
  intro hne
  by_cases hcz : covers t x y ∧ depth_at t x y <
      (vecGet r.frame_buf ((h - 1 - y) * w + x),
        vecGet r.depth_buf ((h - 1 - y) * w + x)).2.getD (Flt.inf false)
  · have hobs' := hobs
    unfold depth_test at hobs'
    rw [if_pos hcz] at hobs'
    refine ⟨hcz.1, d, hd, ?_, congrArg Prod.snd hobs'⟩
    have := hcz.2
    simp only [hd, Option.getD_some] at this
    exact this
  · rw [depth_test_fails t x y _ hcz] at hobs
    exact absurd (congrArg Prod.fst hobs) hne

/-- An instance of `depth_monotone_binary32`: the triangle `(0,0)`, `(2,0)`, `(0,2)` on the
2 by 2 image. -/
theorem depth_monotone_binary32_witness :
    (raster 2 2).super_sample = 0 ∧
    ∃ r', (raster 2 2).rasterize_triangle triangleFar = some r' ∧
      ∀ (i : ℤ) (d : Flt), vecGet (raster 2 2).depth_buf i = some d →
        ∃ d', vecGet r'.depth_buf i = some d' ∧ (d' = d ∨ d' < d) :=
  ⟨rfl,
    (rasterize_returns triangleFar 2 2 (raster 2 2) ⟨rfl, rfl, rfl, by decide, by decide⟩
      (by decide) (by decide!) triangleFar_inRange).elim
      fun r' h => ⟨r', h.1, (depth_monotone_binary32 triangleFar (raster 2 2) r' rfl h.1).1⟩⟩

/-- Claim C31 fails as stated: on the 2 by 2 image without super-sampling the triangle
`(2,1)`, `(3,1)`, `(2,3)` has the bounding box `[2,3] × [1,3]`, which pixel `(0, 0)` is outside
of.  The triangle covers pixel `(2, 1)`, whose index `get_index(2, 1) = 2` is in range and is
the index of pixel `(0, 0)`; after `rasterize_triangle` the depth of pixel `(0, 0)` is `1`
instead of `+∞` and its colour is that of the triangle instead of `(0, 0, 0)`.
Beyond `2 ^ 24` pixels the colour goes to another entry than the depth: on the 4097 by 4097
image `get_index(1, 0) = 16781313`, while `set_pixel` computes the index `16781312` for pixel
`(1, 0)`. -/
theorem depth_monotone_counterexample :
    (raster 2 2).super_sample = 0 ∧
    rasterizer.boundingBox triangleBeyond = (Flt.num 2, Flt.num 1, Flt.num 3, Flt.num 3) ∧
    rasterizer.loopBounds triangleBeyond = some (2, 3, 1, 3) ∧
    ¬ visits triangleBeyond 0 0 ∧
    covers triangleBeyond 2 1 ∧
    (raster 2 2).get_index 2 1 = (raster 2 2).get_index 0 0 ∧
    (vecGet (raster 2 2).frame_buf ((raster 2 2).get_index 0 0),
      vecGet (raster 2 2).depth_buf ((raster 2 2).get_index 0 0)) =
      (some ⟨Flt.zero false, Flt.zero false, Flt.zero false⟩, some (Flt.inf false)) ∧
    ((raster 2 2).rasterize_triangle triangleBeyond).map
        (fun r' => (vecGet r'.frame_buf ((raster 2 2).get_index 0 0),
          vecGet r'.depth_buf ((raster 2 2).get_index 0 0))) =
      some (some ⟨Flt.num 217, Flt.num 238, Flt.num 185⟩, some (Flt.num 1)) ∧
    ((raster 4097 4097).get_index 1 0 = 16781313 ∧
      ((raster 4097 4097).pixel_index ⟨binary32.ofInt 1, binary32.ofInt 0, Flt.num 1⟩).trunc =
        some 16781312) := by
  refine ⟨rfl, by decide!, by decide!, by decide!, by decide!, by decide!, by decide!,
    by decide!, index_rounded_beyond⟩

/-! ### The point at which the depth is interpolated -/

/-- Claim C28, amended (the depth is interpolated at the pixel corner): without
super-sampling, for a pixel `(x, y)` that the loops reach and whose sample point
`(x + 0.5, y + 0.5)` passes the coverage test, the weights used to interpolate the depth are
those of `computeBarycentric2D` at the corner `(x, y)` of the pixel, and the candidate depth is
the combination of the three vertex depths with these weights, times the reciprocal of their
sum, each operation rounded; the step of the pixel loop compares this candidate with the entry
of `depth_buf` at `get_index(x, y)` and, when it is smaller, writes the colour through
`set_pixel` and the candidate at `get_index(x, y)`, and otherwise changes nothing.  On an image
of at most `2 ^ 24` pixels whose buffers have `width · height` entries, for a triangle that
covers pixels of the image only, `rasterize_triangle` completes and stores this candidate in
`depth_buf` at `get_index(x, y)` when it is smaller than the depth stored there before, and
leaves the entry as it was otherwise. -/
theorem depth_at_corner_binary32 (t : Triangle Vector3f) (x y : ℤ) (hc : covers t x y) :
    (depth_at t x y =
      ((computeBarycentric2D (binary32.ofInt x) (binary32.ofInt y) t.v).1 * (t.v 0).z / Flt.num 1 +
        (computeBarycentric2D (binary32.ofInt x) (binary32.ofInt y) t.v).2.1 * (t.v 1).z /
          Flt.num 1 +
        (computeBarycentric2D (binary32.ofInt x) (binary32.ofInt y) t.v).2.2 * (t.v 2).z /
          Flt.num 1) *
      binary32.convert (binary64.div (Flt.num 1)
        ((computeBarycentric2D (binary32.ofInt x) (binary32.ofInt y) t.v).1 / Flt.num 1 +
          (computeBarycentric2D (binary32.ofInt x) (binary32.ofInt y) t.v).2.1 / Flt.num 1 +
          (computeBarycentric2D (binary32.ofInt x) (binary32.ofInt y) t.v).2.2 / Flt.num 1))) ∧
    (∀ r : rasterizer, r.super_sample = 0 →
      rasterizer.pixel_body t r x y =
        (vecGet r.depth_buf (r.get_index x y)).bind fun d =>
          if depth_at t x y < d then
            (r.set_pixel ⟨binary32.ofInt x, binary32.ofInt y, Flt.num 1⟩
                (Assignment2.getColor t)).bind fun r1 =>
              (vecSet r1.depth_buf (r.get_index x y) (depth_at t x y)).map
                fun db => { r1 with depth_buf := db }
          else
            some r) ∧
    (∀ (w h : ℤ) (r : rasterizer), r.WellSized w h → w * h ≤ 2 ^ 24 →
      coversOnlyInRange t w h →
      ∃ r', r.rasterize_triangle t = some r' ∧
        ∃ d, vecGet r.depth_buf (r.get_index x y) = some d ∧
          vecGet r'.depth_buf (r.get_index x y) =
            some (if depth_at t x y < d then depth_at t x y else d)) := by
  refine ⟨rfl, ?_, ?_⟩
  · intro r hss
    have hp : insideTriangle (binary32.ofInt x + Flt.num (1 / 2))
        (binary32.ofInt y + Flt.num (1 / 2)) t.v = true := hc.2
    unfold rasterizer.pixel_body
    rw [if_neg (by rw [hss]; decide), if_neg (by rw [hp]; decide)]
    rfl
  intro w h r hr hsz ht
  obtain ⟨hx, hy⟩ := ht x y hc
  obtain ⟨r', hr', -, hobs⟩ :=
    rasterize_spec t w h r hr hsz (loopBounds_of_covers t x y hc) ht x y hx hy
  obtain ⟨hss, hw, hh, hfl, hdl⟩ := hr
  have hg : r.get_index x y = (h - 1 - y) * w + x := by
    rw [get_index_off r hss, hw, hh]
  have hi := index_in_range w h x y hx hy
  obtain ⟨d, hd⟩ := vecGet_isSome r.depth_buf ((h - 1 - y) * w + x) hi.1 (by rw [hdl]; exact hi.2)
  refine ⟨r', hr', d, by rw [hg]; exact hd, ?_⟩
  rw [hg]
  have h2 := congrArg Prod.snd hobs
  simp only [] at h2
  rw [h2, hd]
  unfold depth_test
  simp only [Option.getD_some]
  split_ifs with h1 h3 h3
  · rfl
  · exact absurd h1.2 h3
  · exact absurd ⟨hc, h3⟩ h1
  · rfl

/-- An instance of `depth_at_corner_binary32`: pixel `(0, 0)` of the 2 by 2 image and the
triangle `(0.25,0.25,1)`, `(2,0.25,8)`, `(0.25,2,8)`. -/
theorem depth_at_corner_binary32_witness :
    covers triangleOffset 0 0 ∧
    (raster 2 2).WellSized 2 2 ∧ coversOnlyInRange triangleOffset 2 2 ∧
    ∃ r', (raster 2 2).rasterize_triangle triangleOffset = some r' ∧
      ∃ d, vecGet (raster 2 2).depth_buf ((raster 2 2).get_index 0 0) = some d ∧
        vecGet r'.depth_buf ((raster 2 2).get_index 0 0) =
          some (if depth_at triangleOffset 0 0 < d then depth_at triangleOffset 0 0 else d) :=
  have hc : covers triangleOffset 0 0 := by decide!
  ⟨hc, ⟨rfl, rfl, rfl, by decide, by decide⟩, triangleOffset_inRange,
    (depth_at_corner_binary32 triangleOffset 0 0 hc).2.2 2 2 (raster 2 2)
      ⟨rfl, rfl, rfl, by decide, by decide⟩ (by decide) triangleOffset_inRange⟩

/-- Claim C28 fails as stated: on the 2 by 2 image, whose depth buffer holds `+∞`, the triangle
`(0.25,0.25,1)`, `(2,0.25,8)`, `(0.25,2,8)` has its vertices in the image and covers pixel
`(0, 0)` (the sample point `(0.5, 0.5)` passes the test).  The weights of the sample point are
the `float` values nearest to `(5/7, 1/7, 1/7)`, which give the depth `3`; the weights used are
those of the corner `(0, 0)`, nearest to `(9/7, −1/7, −1/7)`, two of them negative, and the
depth written at `get_index(0, 0)` is `−4194305/4194304`, below the smallest vertex depth
`1`. -/
theorem depth_at_corner_counterexample :
    (raster 2 2).super_sample = 0 ∧
    passes triangleOffset 0 0 ∧
    computeBarycentric2D (Flt.num (1 / 2)) (Flt.num (1 / 2)) triangleOffset.v =
      (Flt.num (5991863 / 8388608), Flt.num (9586981 / 67108864),
        Flt.num (9586981 / 67108864)) ∧
    computeBarycentric2D (binary32.ofInt 0) (binary32.ofInt 0) triangleOffset.v =
      (Flt.num (10785353 / 8388608), Flt.num (-9586981 / 67108864),
        Flt.num (-9586981 / 67108864)) ∧
    rasterizer.z_interpolated triangleOffset (Flt.num (1 / 2)) (Flt.num (1 / 2)) = Flt.num 3 ∧
    depth_at triangleOffset 0 0 = Flt.num (-4194305 / 4194304) ∧
    ((triangleOffset.v 0).z, (triangleOffset.v 1).z, (triangleOffset.v 2).z) =
      (Flt.num 1, Flt.num 8, Flt.num 8) ∧
    Flt.num (-4194305 / 4194304) < Flt.num 1 ∧
    vecGet (raster 2 2).depth_buf ((raster 2 2).get_index 0 0) = some (Flt.inf false) ∧
    ((raster 2 2).rasterize_triangle triangleOffset).bind
        (fun r' => vecGet r'.depth_buf ((raster 2 2).get_index 0 0)) =
      some (Flt.num (-4194305 / 4194304)) := by
  refine ⟨rfl, by decide!, by decide!, by decide!, by decide!, by decide!, by decide!,
    by decide!, by decide!, by decide!⟩

end Binary32

/-! ## The coverage test on integer vertices in `binary32` -/

/-- A bound on an integer datum may be raised. -/
theorem Flt.IsInt.mono {B C : ℤ} {x : Flt} (h : x.IsInt B) (hBC : B ≤ C) : x.IsInt C := by
  obtain ⟨hf, n, hn, hb⟩ := h
  exact ⟨hf, n, hn, hb.trans hBC⟩

namespace Binary32

/-- Claim C4 fails on the code: on the 1 by 3 image with 2 × 2 super-sampling, whose buffers
have the sizes 3, 12 and 12 the constructor gives them, the triangle `(0,1)`, `(1,1)`,
`(0.5,2)` has its vertices inside the image.  The loops run `x` up to `⌈maxX⌉ = 1 = width`, so
they visit the pixels `(0,1)`, `(0,2)`, `(1,1)` and `(1,2)`; every index used is inside its
buffer and the run returns normally.  Pixel `(1,2)`, right of the image, is resolved like the
others: `set_pixel` computes for it the index `1` of pixel `(0,1)`, and it is visited later.
After the run the frame-buffer entry of the visited pixel `(0,1)` is `(0,0,0)`, while the sum
of the entries of its four sub-samples divided by 4 is `(108.5, 119, 92.5)`. -/
theorem supersample_resolve_overrun :
    (raster1x3ss2.super_sample = 2 ∧ raster1x3ss2.width = 1 ∧ raster1x3ss2.height = 3 ∧
      raster1x3ss2.frame_buf.length = 3 ∧ raster1x3ss2.depth_buf.length = 12 ∧
      raster1x3ss2.color_buf.length = 12) ∧
    (∀ i : Fin 3, (0 ≤ (triangleApex.v i).x.val ∧ (triangleApex.v i).x.val ≤ 1) ∧
      (0 ≤ (triangleApex.v i).y.val ∧ (triangleApex.v i).y.val ≤ 3)) ∧
    rasterizer.loopBounds triangleApex = some (0, 1, 1, 2) ∧
    (visits triangleApex 0 1 ∧ visits triangleApex 1 2) ∧
    ((raster1x3ss2.pixel_index ⟨binary32.ofInt 0, binary32.ofInt 1, Flt.num 1⟩).trunc = some 1 ∧
      (raster1x3ss2.pixel_index ⟨binary32.ofInt 1, binary32.ofInt 2, Flt.num 1⟩).trunc = some 1) ∧
    (raster1x3ss2.rasterize_triangle triangleApex).map (fun r' =>
        (vecGet r'.frame_buf 1, r'.sample_average 0 1)) =
      some (some ⟨Flt.zero false, Flt.zero false, Flt.zero false⟩,
        some ⟨Flt.num (217 / 2), Flt.num 119, Flt.num (185 / 2)⟩) := by
  refine ⟨by decide, by decide!, by decide!, ⟨by decide!, by decide!⟩,
    ⟨by decide!, by decide!⟩, by decide!⟩

end Binary32

/-! ## Buffer ids from any state of the rasterizer -/

/-- The call `emplace` on a key that is present leaves the map as it is. -/
theorem mapEmplace_present {β : Type} (m : List (ℤ × β)) (k : ℤ) (b : β)
    (h : (rasterizer.mapFind m k).isSome = true) : rasterizer.mapEmplace m k b = m := by
  unfold rasterizer.mapEmplace
  cases hf : rasterizer.mapFind m k with
  | none => rw [hf] at h; exact absurd h (by simp)
  | some c => rfl

/-- What a loader call does to the id it returns: the buffer is stored under it when the id is
not yet a key of the map, and the three maps stay as they are when it is. -/
theorem load_stores (r : rasterizer) (c : LoadCall) :
    (¬ r.hasKey c (r.load c).1 → (r.load c).2.holds c (r.load c).1) ∧
    (r.hasKey c (r.load c).1 →
      (r.load c).2.pos_buf = r.pos_buf ∧ (r.load c).2.ind_buf = r.ind_buf ∧
        (r.load c).2.col_buf = r.col_buf) := by
  cases c with
  | positions l =>
    constructor
    · intro h
      apply mapFind_emplace_self
      cases hf : rasterizer.mapFind r.pos_buf r.next_id with
      | none => exact hf
      | some b => exact absurd (show r.hasKey (LoadCall.positions l) r.next_id by
          show (rasterizer.mapFind r.pos_buf r.next_id).isSome = true
          rw [hf]; rfl) h
    · intro h
      exact ⟨mapEmplace_present _ _ _ h, rfl, rfl⟩
  | indices l =>
    constructor
    · intro h
      apply mapFind_emplace_self
      cases hf : rasterizer.mapFind r.ind_buf r.next_id with
      | none => exact hf
      | some b => exact absurd (show r.hasKey (LoadCall.indices l) r.next_id by
          show (rasterizer.mapFind r.ind_buf r.next_id).isSome = true
          rw [hf]; rfl) h
    · intro h
      exact ⟨rfl, mapEmplace_present _ _ _ h, rfl⟩
  | colors l =>
    constructor
    · intro h
      apply mapFind_emplace_self
      cases hf : rasterizer.mapFind r.col_buf r.next_id with
      | none => exact hf
      | some b => exact absurd (show r.hasKey (LoadCall.colors l) r.next_id by
          show (rasterizer.mapFind r.col_buf r.next_id).isSome = true
          rw [hf]; rfl) h
    · intro h
      exact ⟨rfl, rfl, mapEmplace_present _ _ _ h⟩

/-- When no key is at or above `next_id`, the id a loader is about to return is not a key. -/
theorem idsIssued_not_hasKey (r : rasterizer) (c : LoadCall) (h : r.IdsIssued) :
    ¬ r.hasKey c (r.load c).1 := by
  obtain ⟨a, b, d⟩ := h r.next_id le_rfl
  cases c with
  | positions l =>
    show ¬ (rasterizer.mapFind r.pos_buf r.next_id).isSome = true
    rw [a]; simp
  | indices l =>
    show ¬ (rasterizer.mapFind r.ind_buf r.next_id).isSome = true
    rw [b]; simp
  | colors l =>
    show ¬ (rasterizer.mapFind r.col_buf r.next_id).isSome = true
    rw [d]; simp

/-- Claim C11, amended (buffer ids are increasing; a buffer is stored only under a key that is
not present): from any state of the rasterizer, the ids a sequence `cs` of calls of
`load_positions`, `load_indices` and `load_colors` returns are `next_id, next_id + 1, …` in call
order (`0, 1, 2, …` from the constructor, which leaves `next_id` at 0 and the three maps
empty); a further loader call returns an id strictly greater than all of them, and every buffer
stored before in any of the three maps is still there, unchanged.  After the call the map of
its kind holds the supplied buffer under the returned id when that id was not yet a key of this
map; when it was, `emplace` inserts nothing and the three maps are as before.  The id is not yet
a key whenever no key of the maps is at or above `next_id`, which holds after the constructor
and is kept by the loaders. -/
theorem buffer_ids_increasing (r : rasterizer) (cs : List LoadCall) (c : LoadCall) :
    (∀ (w h ss : ℤ) (m v p : Matrix4f) (g : ℕ → Vector3f),
      (rasterizer.new w h ss m v p g).IdsIssued ∧ (rasterizer.new w h ss m v p g).next_id = 0) ∧
    (r.loads cs).1 = (List.range cs.length).map (fun (n : ℕ) => r.next_id + (n : ℤ)) ∧
    ((r.loads cs).2.load c).1 = r.next_id + (cs.length : ℤ) ∧
    (∀ j ∈ (r.loads cs).1, j < ((r.loads cs).2.load c).1) ∧
    ((∀ k b, rasterizer.mapFind (r.loads cs).2.pos_buf k = some b →
        rasterizer.mapFind ((r.loads cs).2.load c).2.pos_buf k = some b) ∧
      (∀ k b, rasterizer.mapFind (r.loads cs).2.ind_buf k = some b →
        rasterizer.mapFind ((r.loads cs).2.load c).2.ind_buf k = some b) ∧
      (∀ k b, rasterizer.mapFind (r.loads cs).2.col_buf k = some b →
        rasterizer.mapFind ((r.loads cs).2.load c).2.col_buf k = some b)) ∧
    (∀ k, k ≠ ((r.loads cs).2.load c).1 →
      rasterizer.mapFind ((r.loads cs).2.load c).2.pos_buf k =
        rasterizer.mapFind (r.loads cs).2.pos_buf k ∧
      rasterizer.mapFind ((r.loads cs).2.load c).2.ind_buf k =
        rasterizer.mapFind (r.loads cs).2.ind_buf k ∧
      rasterizer.mapFind ((r.loads cs).2.load c).2.col_buf k =
        rasterizer.mapFind (r.loads cs).2.col_buf k) ∧
    (¬ (r.loads cs).2.hasKey c ((r.loads cs).2.load c).1 →
      ((r.loads cs).2.load c).2.holds c ((r.loads cs).2.load c).1) ∧
    ((r.loads cs).2.hasKey c ((r.loads cs).2.load c).1 →
      ((r.loads cs).2.load c).2.pos_buf = (r.loads cs).2.pos_buf ∧
      ((r.loads cs).2.load c).2.ind_buf = (r.loads cs).2.ind_buf ∧
      ((r.loads cs).2.load c).2.col_buf = (r.loads cs).2.col_buf) ∧
    (r.IdsIssued →
      ¬ (r.loads cs).2.hasKey c ((r.loads cs).2.load c).1 ∧
      ((r.loads cs).2.load c).2.IdsIssued) := by
  obtain ⟨hids, hnext⟩ := loads_ids cs r
  obtain ⟨e1, _⟩ := load_id (r.loads cs).2 c
  obtain ⟨hkeep, hne, hnew⟩ := load_spec (r.loads cs).2 c
  obtain ⟨s1, s2⟩ := load_stores (r.loads cs).2 c
  have hid : ((r.loads cs).2.load c).1 = r.next_id + (cs.length : ℤ) := by rw [e1, hnext]
  refine ⟨new_idsIssued, hids, hid, ?_, hkeep, hne, s1, s2, fun hr => ?_⟩
  · intro j hj
    rw [hids] at hj
    obtain ⟨n, hn, rfl⟩ := List.mem_map.1 hj
    rw [hid]
    have : (n : ℤ) < (cs.length : ℤ) := by exact_mod_cast List.mem_range.1 hn
    linarith
  · have hinv := loads_idsIssued cs r hr
    exact ⟨idsIssued_not_hasKey _ c hinv, (hnew hinv).1⟩

/-- Instance of `buffer_ids_increasing`: on a fresh rasterizer, after loading a position buffer
and an index buffer (ids 0 and 1), loading a colour buffer returns id 2 and stores it there. -/
theorem buffer_ids_increasing_witness :
    (raster2x2.loads [LoadCall.positions [⟨0, 0, 0⟩], LoadCall.indices [⟨0, 0, 0⟩]]).1 = [0, 1] ∧
    ((raster2x2.loads [LoadCall.positions [⟨0, 0, 0⟩], LoadCall.indices [⟨0, 0, 0⟩]]).2.load
      (LoadCall.colors [⟨255, 0, 0⟩])).1 = 2 ∧
    rasterizer.mapFind
      ((raster2x2.loads [LoadCall.positions [⟨0, 0, 0⟩], LoadCall.indices [⟨0, 0, 0⟩]]).2.load
        (LoadCall.colors [⟨255, 0, 0⟩])).2.col_buf 2 = some [⟨255, 0, 0⟩] :=
  have h := buffer_ids_increasing raster2x2
    [LoadCall.positions [⟨0, 0, 0⟩], LoadCall.indices [⟨0, 0, 0⟩]] (LoadCall.colors [⟨255, 0, 0⟩])
  ⟨h.2.1, h.2.2.1,
    h.2.2.2.2.2.2.1 (h.2.2.2.2.2.2.2.2 (fun _ _ => ⟨rfl, rfl, rfl⟩)).1⟩

/-- Counterexample to claim C11 as stated: on the fresh 2 by 2 rasterizer, `draw` with the ids
0, 0, 0 completes normally and leaves the key 0 in `pos_buf` with an empty buffer, while
`next_id` is still 0.  The call `load_positions` with the buffer `[(1, 2, 3)]` then returns
the id 0, `emplace` inserts nothing, and `pos_buf` holds the empty buffer under the id 0, not
the supplied one. -/
theorem buffer_ids_counterexample :
    ∃ r' : rasterizer,
      raster2x2.draw 0 0 0 Primitive.Triangle (fun _ => ⟨0, 0, 1⟩) = some (Except.ok r') ∧
      r'.next_id = 0 ∧
      (r'.load_positions [⟨1, 2, 3⟩]).1 = 0 ∧
      rasterizer.mapFind (r'.load_positions [⟨1, 2, 3⟩]).2.pos_buf 0 = some [] ∧
      ¬ (r'.load (LoadCall.positions [⟨1, 2, 3⟩])).2.holds (LoadCall.positions [⟨1, 2, 3⟩])
        (r'.load (LoadCall.positions [⟨1, 2, 3⟩])).1 :=
  ⟨_, rfl, rfl, rfl, rfl, fun h => by
    have h' : (some [] : Option (List Vector3f)) = some [⟨1, 2, 3⟩] := h
    simp at h'⟩

end GAMES101
